import Mathlib

/-! # kpop-agent-hub: overlay resolver, template engine, score ledger, migration and server

A shallow embedding of `scripts/generate-agent.js` and `scripts/update-score.js`, with the
record that `scripts/add-project.js` writes, the migration of `scripts/migrate-overlays.js`,
`saveOverlay` of `dashboard/dashboard.js`, and the request handlers of `dashboard/serve.js` and
of `api/overlays/[project].js` and `api/templates/[name].js`.

Conventions of the embedding

* A JavaScript string is a Lean `String`; a string is truthy exactly when it is non-empty.
* An optional property is an `Option`; `none` stands for an absent (`undefined`) or `null` value.
* An array is a `List`; an array is always truthy, also when it is empty.
* Integral JavaScript numbers are `Int` or `Nat`; the one non-integral computation
  (`successRate`) is carried out in an exact model of IEEE 754 binary64 rounding.
-/

namespace KpopAgentHub

/-! ## Rank derivation (`update-score.js`, lines 127-133) -/

/-- Letter grade of a score: `getRank` of `update-score.js`. -/
def getRank (score : Int) : String :=
  if score ≥ 900 then "S"
  else if score ≥ 800 then "A"
  else if score ≥ 700 then "B"
  else if score ≥ 600 then "C"
  else "D"

/-! ## Overlay resolver (`generate-agent.js`, lines 150-209) -/

/-- The value of an optional string property when it is truthy (present and non-empty). -/
def truthyStr : Option String → Option String
  | some s => if s = "" then none else some s
  | none => none

/-- Base agent of the registry: the fields read by `resolveAgent`. -/
structure Agent where
  role : String
  expertise : List String
  recommendedModel : String
  deriving DecidableEq, Repr

/-- Legacy per-agent customization object taken from `agent-config.json`. -/
structure Customizations where
  role : Option String
  expertise : Option (List String)
  additionalContext : Option String
  deriving DecidableEq, Repr

/-- The `templatePatches` object of a per-agent overlay entry. -/
structure OverlayPatches where
  prepend : Option String
  append : Option String
  deriving DecidableEq, Repr

/-- Per-agent override object of an overlay document. -/
structure AgentOverlay where
  roleOverride : Option String
  modelOverride : Option String
  expertiseOverride : Option (List String)
  expertiseAppend : Option (List String)
  additionalContext : Option String
  templatePatches : Option OverlayPatches
  deriving DecidableEq, Repr

/-- The `globalOverrides` object of an overlay document. -/
structure GlobalOverrides where
  additionalContext : Option String
  deriving DecidableEq, Repr

/-- Overlay document: the fields read by `resolveAgent`. The `agents` object is a list of
(agent name, override object) pairs with distinct names. -/
structure Overlay where
  globalOverrides : Option GlobalOverrides
  agents : Option (List (String × AgentOverlay))
  deriving DecidableEq, Repr

/-- Resolved prepend and append patch strings. -/
structure TemplatePatches where
  prepend : String
  append : String
  deriving DecidableEq, Repr

/-- Result of `resolveAgent`. -/
structure ResolvedAgent where
  role : String
  expertise : List String
  model : String
  additionalContext : String
  templatePatches : TemplatePatches
  deriving DecidableEq, Repr

/-- The statement `resolved.additionalContext = resolved.additionalContext ? a + "\n\n" + c : c`. -/
def joinContext (acc ctx : String) : String :=
  if acc = "" then ctx else acc ++ "\n\n" ++ ctx

/-- Lines 181-205 of `generate-agent.js`: the per-agent overlay step. -/
def applyAgentOverlay (agentOverlay : AgentOverlay) (resolved : ResolvedAgent) : ResolvedAgent :=
  let resolved := match truthyStr agentOverlay.roleOverride with
    | some r => { resolved with role := r }
    | none => resolved
  let resolved := match truthyStr agentOverlay.modelOverride with
    | some m => { resolved with model := m }
    | none => resolved
  let resolved := match agentOverlay.expertiseOverride with
    | some ov => { resolved with expertise := ov }
    | none =>
      match agentOverlay.expertiseAppend with
      | some ap => { resolved with expertise := resolved.expertise ++ ap }
      | none => resolved
  let resolved := match truthyStr agentOverlay.additionalContext with
    | some c => { resolved with additionalContext := joinContext resolved.additionalContext c }
    | none => resolved
  match agentOverlay.templatePatches with
  | some patches =>
    let resolved := match truthyStr patches.prepend with
      | some p => { resolved with templatePatches := { resolved.templatePatches with prepend := p } }
      | none => resolved
    match truthyStr patches.append with
    | some a => { resolved with templatePatches := { resolved.templatePatches with append := a } }
    | none => resolved
  | none => resolved

/-- Lines 155-161: the initial value of `resolved`, taken from the base agent. -/
def baseResolved (agent : Agent) : ResolvedAgent :=
  { role := agent.role
    expertise := agent.expertise
    model := agent.recommendedModel
    additionalContext := ""
    templatePatches := { prepend := "", append := "" } }

/-- Lines 163-166: layer 1, the legacy customizations. -/
def applyCustomizations (customizations : Customizations) (resolved : ResolvedAgent) :
    ResolvedAgent :=
  let resolved := match truthyStr customizations.role with
    | some r => { resolved with role := r }
    | none => resolved
  let resolved := match customizations.expertise with
    | some e => { resolved with expertise := e }
    | none => resolved
  match truthyStr customizations.additionalContext with
  | some c => { resolved with additionalContext := c }
  | none => resolved

/-- Lines 170 and 173-178: the global overlay context step. -/
def applyGlobalContext (overlay : Overlay) (resolved : ResolvedAgent) : ResolvedAgent :=
  let globalCtx := truthyStr (overlay.globalOverrides.bind fun g => g.additionalContext)
  match globalCtx with
  | some g => { resolved with additionalContext := joinContext resolved.additionalContext g }
  | none => resolved

/-- Three-layer merge `resolveAgent(agent, agentName, overlay, customizations)`. -/
def resolveAgent (agent : Agent) (agentName : String) (overlay : Option Overlay)
    (customizations : Customizations) : ResolvedAgent :=
  let resolved := baseResolved agent
  -- Layer 1: legacy customizations
  let resolved := applyCustomizations customizations resolved
  -- Layer 2: overlay
  match overlay with
  | none => resolved
  | some overlay =>
    let agentOverlay := overlay.agents.bind fun agents => agents.lookup agentName
    let resolved := applyGlobalContext overlay resolved
    match agentOverlay with
    | some agentOverlay => applyAgentOverlay agentOverlay resolved
    | none => resolved

/-- Patch application `applyTemplatePatches(output, patches)` (lines 211-224). -/
def applyTemplatePatches (output : String) (patches : Option TemplatePatches) : String :=
  match patches with
  | none => output
  | some patches =>
    let result := output
    let result := if patches.prepend ≠ "" then patches.prepend ++ "\n\n" ++ result else result
    let result := if patches.append ≠ "" then result ++ "\n\n" ++ patches.append else result
    result

/-! ## Specification-side vocabulary for the resolver -/

/-- Legacy additional context, as named by the specification. -/
def legacyContext (customizations : Customizations) : Option String :=
  customizations.additionalContext

/-- Project-wide additional context of an overlay, as named by the specification. -/
def globalContext (overlay : Option Overlay) : Option String :=
  match overlay with
  | some o =>
    match o.globalOverrides with
    | some g => g.additionalContext
    | none => none
  | none => none

/-- The override object an overlay holds for an agent, if any. -/
def agentEntry (overlay : Option Overlay) (agentName : String) : Option AgentOverlay :=
  match overlay with
  | some o =>
    match o.agents with
    | some agents => agents.lookup agentName
    | none => none
  | none => none

/-- The non-empty values of a list of optional strings, in order. -/
def nonEmptyValues (xs : List (Option String)) : List String :=
  xs.filterMap truthyStr

/-- Join with a blank line between consecutive parts and none at either end. -/
def joinBlankLine : List String → String
  | [] => ""
  | [s] => s
  | s :: t :: rest => s ++ "\n\n" ++ joinBlankLine (t :: rest)

/-! ## Specification-side statements of the resolver's results -/

/-- Expertise as the specification words it: override, else accumulated list plus append,
else the accumulated list, which is the legacy list when present and the base list otherwise. -/
def specExpertise (agent : Agent) (customizations : Customizations)
    (entry : Option AgentOverlay) : List String :=
  let acc := match customizations.expertise with
    | some e => e
    | none => agent.expertise
  match entry.bind fun e => e.expertiseOverride with
  | some ov => ov
  | none =>
    match entry.bind fun e => e.expertiseAppend with
    | some ap => acc ++ ap
    | none => acc

/-- Role as the specification words it: overlay role, else legacy role, else base role. -/
def specRole (agent : Agent) (customizations : Customizations)
    (entry : Option AgentOverlay) : String :=
  match truthyStr (entry.bind fun e => e.roleOverride) with
  | some r => r
  | none =>
    match truthyStr customizations.role with
    | some r => r
    | none => agent.role

/-- Model as the specification words it: overlay model, else the recommended model. -/
def specModel (agent : Agent) (entry : Option AgentOverlay) : String :=
  match truthyStr (entry.bind fun e => e.modelOverride) with
  | some m => m
  | none => agent.recommendedModel

/-! ## Template engine (`generate-agent.js`, lines 226-235) -/

/-- `GetSubstitution` of ECMAScript for a match of a regular expression that has no capture
groups: in the replacement text `$$` stands for a dollar sign, `$&` for the matched text,
dollar-backtick for the text before the match and dollar-apostrophe for the text after it;
every other character, a dollar sign followed by anything else included, stands for itself.
The flag tells that the previous character was a dollar sign still to be interpreted. -/
def getSubstitution (matched before after : List Char) : Bool → List Char → List Char
  | false, [] => []
  | true, [] => ['$']
  | false, c :: rest =>
    if c = '$' then getSubstitution matched before after true rest
    else c :: getSubstitution matched before after false rest
  | true, d :: rest =>
    if d = '$' then '$' :: getSubstitution matched before after false rest
    else if d = '&' then matched ++ getSubstitution matched before after false rest
    else if d = '\x60' then before ++ getSubstitution matched before after false rest
    else if d = '\x27' then after ++ getSubstitution matched before after false rest
    else '$' :: d :: getSubstitution matched before after false rest

/-- The scan of `String.prototype.replace` with a global regular expression whose source is the
literal text `pat` (non-empty): `pre` is the part of the subject already scanned, `skip` the
number of characters still to pass over inside the current match. Each match is replaced by its
substitution; matches are found left to right and do not overlap. -/
def replaceScan (pat repl : List Char) : List Char → Nat → List Char → List Char
  | _, _, [] => []
  | pre, skip + 1, c :: cs => replaceScan pat repl (pre ++ [c]) skip cs
  | pre, 0, c :: cs =>
    if pat.isPrefixOf (c :: cs) then
      getSubstitution pat pre ((c :: cs).drop pat.length) false repl
        ++ replaceScan pat repl (pre ++ [c]) (pat.length - 1) cs
    else c :: replaceScan pat repl (pre ++ [c]) 0 cs

/-- The text matched by the pattern built for `key` (two opening braces, the key, two closing
braces). For a key of letters, digits and underscores the source of the regular expression
holds no metacharacter besides the escaped braces, so it matches exactly this text. -/
def placeholder (key : String) : List Char :=
  ['\x7b', '\x7b'] ++ key.data ++ ['\x7d', '\x7d']

/-- A key made of letters, digits and underscores. -/
def identLike (key : String) : Bool :=
  key.data.all fun c => c.isAlphanum || c = '_'

/-- One iteration of the loop of `substituteVariables`:
`result.replace(pattern, value || "")`. -/
def replacePlaceholder (result key : String) (value : Option String) : String :=
  ⟨replaceScan (placeholder key) (value.getD "").data [] 0 result.data⟩

/-- The function `substituteVariables(template, variables)`; `vars` lists the entries of
the object in the order of `Object.entries`. -/
def substituteVariables (template : String) (vars : List (String × Option String)) :
    String :=
  vars.foldl (fun result kv => replacePlaceholder result kv.1 kv.2) template

/-- Specification-side: the text with each occurrence of `tok`, found left to right without
overlap, replaced by the characters of `v` and every other character kept. -/
def spliceScan (tok v : List Char) : Nat → List Char → List Char
  | _, [] => []
  | skip + 1, _ :: cs => spliceScan tok v skip cs
  | 0, c :: cs =>
    if tok.isPrefixOf (c :: cs) then v ++ spliceScan tok v (tok.length - 1) cs
    else c :: spliceScan tok v 0 cs

/-- Specification-side: replace every `key` placeholder of `template` by `v`. -/
def spliceTokens (template key v : String) : String :=
  ⟨spliceScan (placeholder key) v.data 0 template.data⟩

/-! ## Binary64 arithmetic for `successRate` (`update-score.js`, lines 167-169)

JavaScript numbers are IEEE 754 binary64 values. The counters are integers and exact; the
quotient `successfulTasks / tasksCompleted` and its product with 100 are rounded to the nearest
binary64 value, ties to even. The model is exact for positive values in the normal range. -/

/-- A non-negative binary64 value, as the exact fraction `num / den` with `den` a power of
two. -/
structure Binary64 where
  num : Nat
  den : Nat
  deriving DecidableEq, Repr

/-- Helper of `ilog2`: the recursion, bounded by `fuel`. -/
def ilog2Fuel : Nat → Nat → Nat
  | 0, _ => 0
  | fuel + 1, n => if 2 ≤ n then ilog2Fuel fuel (n / 2) + 1 else 0

/-- The position of the leading bit of a positive number: the largest `k` with `2 ^ k ≤ n`. -/
def ilog2 (n : Nat) : Nat := ilog2Fuel n n

/-- Round `q + r / D` (with `r < D`) to an integer, to nearest and ties to even. -/
def roundHalfEven (q r D : Nat) : Nat :=
  if D < 2 * r ∨ (2 * r = D ∧ q % 2 = 1) then q + 1 else q

/-- The fraction `n / d` scaled by `2 ^ k`, for an integer `k`, as numerator and denominator. -/
def scaleNum (n : Nat) (k : Int) : Nat := n * 2 ^ k.toNat

/-- Denominator of the fraction `n / d` scaled by `2 ^ k`. -/
def scaleDen (d : Nat) (k : Int) : Nat := d * 2 ^ (-k).toNat

/-- The power of two `2 ^ k` by which `n / d` is scaled so that its integer part has exactly
53 bits: `n / d` lies strictly between `2 ^ (a - b - 1)` and `2 ^ (a - b + 1)` for the leading
bit positions `a` of `n` and `b` of `d`, so that scaling by `2 ^ (b + 53 - a)` leaves 53 or 54
bits; in the second case the scale is halved. -/
def scaleExponent (n d : Nat) : Int :=
  let k : Int := (ilog2 d : Int) + 53 - (ilog2 n : Int)
  if 2 ^ 53 ≤ scaleNum n k / scaleDen d k then k - 1 else k

/-- The binary64 value nearest to the fraction `n / d` (`d` positive), ties to even: the
fraction is scaled by a power of two so that its integer part has 53 bits, rounded there to
an integer `m`, and the result is `m / 2 ^ k`. -/
def roundToDouble (n d : Nat) : Binary64 :=
  if n = 0 then ⟨0, 1⟩
  else
    let k := scaleExponent n d
    let N := scaleNum n k
    let D := scaleDen d k
    let m := roundHalfEven (N / D) (N % D) D
    ⟨scaleDen m k, scaleNum 1 k⟩

/-- The binary64 quotient `s / t` of two integers (`t` positive). -/
def fdiv (s t : Nat) : Binary64 := roundToDouble s t

/-- The binary64 product `x * 100`. -/
def fmul100 (x : Binary64) : Binary64 := roundToDouble (x.num * 100) x.den

/-- `Math.round` on a non-negative value: the nearest integer, a tie going up. -/
def mathRound (x : Binary64) : Nat := (2 * x.num + x.den) / (2 * x.den)

/-- The expression `Math.round((successfulTasks / tasksCompleted) * 100)`. -/
def successRateOf (successfulTasks tasksCompleted : Nat) : Nat :=
  mathRound (fmul100 (fdiv successfulTasks tasksCompleted))

/-- Specification-side: `100 * s / t` rounded to the nearest integer, a tie going up, in exact
arithmetic. -/
def exactRate (s t : Nat) : Nat := (200 * s + t) / (2 * t)
/-! ## Score ledger (`update-score.js`)

Time is the number `now` of milliseconds since the epoch that `new Date()` reads; one reading
serves a whole run. A date string `YYYY-MM-DD`, as `toISOString().split("T")[0]` produces it
and `new Date(...)` parses it, is the number of its UTC day. -/

/-- Milliseconds in a day. -/
def msPerDay : Int := 24 * 60 * 60 * 1000

/-- The UTC day of an instant: `now.toISOString().split("T")[0]`. -/
def isoDate (now : Int) : Int := now / msPerDay

/-- A JSON value that the modelled functions store or carry and never inspect. -/
abbrev JsonText := String

/-- Entry of `feedbackScoring` in `scoring/metrics.json`. -/
structure FeedbackConfig where
  scoreChange : Int
  description : String
  deriving DecidableEq, Repr

/-- The parts of `scoring/metrics.json` that the score engine reads. -/
structure MetricsConfig where
  initialScore : Int
  feedbackScoring : List (String × FeedbackConfig)
  deriving DecidableEq, Repr

/-- Entry of `recentTasks`. -/
structure TaskEntry where
  date : Int
  type : String
  description : String
  scoreChange : Int
  newScore : Int
  deriving DecidableEq, Repr

/-- Entry of `developmentMemory.workHistory`. -/
structure WorkEntry where
  date : Int
  taskType : String
  description : String
  outcome : String
  scoreChange : Int
  deriving DecidableEq, Repr

/-- Entry of `penalties`. -/
structure PenaltyEntry where
  date : Int
  category : String
  categoryName : String
  severity : String
  level : Nat
  warningLevel : String
  scoreChange : Int
  description : String
  multiplier : Nat
  deriving DecidableEq, Repr

/-- Entry of `improvementMissions`. -/
structure ImprovementMission where
  assignedDate : Int
  category : String
  level : Nat
  requiredSuccesses : Nat
  recoveryPoints : Int
  timeLimit : JsonText
  completedSuccesses : Nat
  status : String
  deriving DecidableEq, Repr

/-- The `metrics` object of a score record. -/
structure AgentMetrics where
  tasksCompleted : Nat
  successfulTasks : Nat
  successRate : Nat
  avgResponseTime : Int
  qualityScore : Int
  userSatisfaction : Int
  consistency : Int
  deriving DecidableEq, Repr

/-- The `developmentMemory` object of a score record; the nested objects `fixPatterns`,
`technicalKnowledge`, `codeReviewFeedback` and `learningJourney` are flattened. -/
structure DevelopmentMemory where
  workHistory : List WorkEntry
  incorrectDiagnosis : List JsonText
  successfulPatterns : List JsonText
  fileExpertise : List (String × JsonText)
  techStackProficiency : List (String × JsonText)
  skills : List JsonText
  receivedFromOthers : List JsonText
  commonIssues : List (String × JsonText)
  since : Int
  milestones : List JsonText
  currentFocusGoal : String
  currentFocusProgress : String
  currentFocusTargetDate : String
  deriving DecidableEq, Repr

/-- Score record of one agent in one project. -/
structure AgentRecord where
  totalScore : Int
  rank : String
  currentModel : String
  modelHistory : List JsonText
  metrics : AgentMetrics
  recentTasks : List TaskEntry
  developmentMemory : DevelopmentMemory
  penalties : List PenaltyEntry
  warnings : Nat
  improvementMissions : List ImprovementMission
  deriving DecidableEq, Repr

/-- Score document of a project (`agent-scores.json`); `lastUpdated` is the instant of the
last save. -/
structure Scores where
  project : String
  lastUpdated : Int
  agents : List (String × AgentRecord)
  deriving DecidableEq, Repr

/-- Lines 77-120: the record that `initializeScores` creates for an agent. -/
def initialRecord (metrics : MetricsConfig) (recommendedModel : Option String) (now : Int) :
    AgentRecord :=
  { totalScore := metrics.initialScore
    rank := getRank metrics.initialScore
    currentModel := (truthyStr recommendedModel).getD "sonnet"
    modelHistory := []
    metrics :=
      { tasksCompleted := 0
        successfulTasks := 0
        successRate := 100
        avgResponseTime := 0
        qualityScore := 80
        userSatisfaction := 4
        consistency := 80 }
    recentTasks := []
    developmentMemory :=
      { workHistory := []
        incorrectDiagnosis := []
        successfulPatterns := []
        fileExpertise := []
        techStackProficiency := []
        skills := []
        receivedFromOthers := []
        commonIssues := []
        since := isoDate now
        milestones := []
        currentFocusGoal := "프로젝트 파악 및 초기 개발"
        currentFocusProgress := "0/10 tasks"
        currentFocusTargetDate := "" }
    penalties := []
    warnings := 0
    improvementMissions := [] }

/-- Names that every object inherits from `Object.prototype`; each names a truthy value. -/
def objectPrototypeKeys : List String :=
  ["constructor", "__defineGetter__", "__defineSetter__", "hasOwnProperty",
    "__lookupGetter__", "__lookupSetter__", "isPrototypeOf", "propertyIsEnumerable",
    "toString", "valueOf", "__proto__", "toLocaleString"]

/-- Result of reading `obj[key]` on an object parsed from JSON. -/
inductive Property (α : Type) where
  | own (value : α)
  | inherited
  | absent
  deriving DecidableEq, Repr

/-- The property read `obj[key]`: an own property, else a member of `Object.prototype`, else
`undefined`. -/
def getProperty {α : Type} (obj : List (String × α)) (key : String) : Property α :=
  match obj.lookup key with
  | some v => .own v
  | none => if key ∈ objectPrototypeKeys then .inherited else .absent

/-- The object `obj` after the value stored under `key` was changed in place to `value`. -/
def setProperty {α : Type} : List (String × α) → String → α → List (String × α)
  | [], _, _ => []
  | (k, v) :: rest, key, value =>
    if key == k then (k, value) :: rest else (k, v) :: setProperty rest key value

/-- How a run of the score engine ends. -/
inductive Outcome where
  /-- An error message is printed and `process.exit(code)` ends the run; nothing is saved. -/
  | exit (code : Nat)
  /-- An uncaught `TypeError` ends the run; nothing is saved. -/
  | uncaught
  /-- The run reaches `saveScores` with this document. -/
  | saved (scores : Scores)
  /-- The run reaches `saveScores` after the total score of the agent became `NaN`, which the
  file holds as `null`. -/
  | savedNaN
  deriving DecidableEq, Repr

/-- The statement `list.unshift(entry)` followed by
`if (list.length > 50) list = list.slice(0, 50)`. -/
def unshiftCapped {α : Type} (entry : α) (list : List α) : List α :=
  let list := entry :: list
  if list.length > 50 then list.take 50 else list

/-- Lines 158-196 of `applyFeedback`: the changes made to the agent's record. -/
def feedbackRecord (feedbackConfig : FeedbackConfig) (type description : String) (now : Int)
    (agent : AgentRecord) : AgentRecord :=
  let totalScore := max 0 (min 1000 (agent.totalScore + feedbackConfig.scoreChange))
  let rank := getRank totalScore
  -- Update metrics
  let tasksCompleted := agent.metrics.tasksCompleted + 1
  let successfulTasks :=
    if type = "success" ∨ type = "excellent" then agent.metrics.successfulTasks + 1
    else agent.metrics.successfulTasks
  let successRate := successRateOf successfulTasks tasksCompleted
  let text := if description ≠ "" then description else feedbackConfig.description
  -- Add to recent tasks
  let recentTasks := unshiftCapped
    { date := isoDate now
      type := type
      description := text
      scoreChange := feedbackConfig.scoreChange
      newScore := totalScore } agent.recentTasks
  -- Add to work history in development memory
  let workHistory := unshiftCapped
    { date := isoDate now
      taskType :=
        if type = "success" ∨ type = "excellent" then "success"
        else if type = "failure" then "failure" else "partial"
      description := text
      outcome := type
      scoreChange := feedbackConfig.scoreChange } agent.developmentMemory.workHistory
  { agent with
    totalScore := totalScore
    rank := rank
    metrics :=
      { agent.metrics with
        tasksCompleted := tasksCompleted
        successfulTasks := successfulTasks
        successRate := successRate }
    recentTasks := recentTasks
    developmentMemory := { agent.developmentMemory with workHistory := workHistory } }

/-- The function `applyFeedback(projectName, agentName, type, description)` on the loaded
score document `scores`, at the instant `now`. -/
def applyFeedback (metrics : MetricsConfig) (scores : Scores)
    (agentName type description : String) (now : Int) : Outcome :=
  match getProperty scores.agents agentName with
  | .absent => .exit 1
  | .inherited =>
    -- a member of `Object.prototype` stands in for the record: it has no `metrics`
    match getProperty metrics.feedbackScoring type with
    | .absent => .exit 1
    | _ => .uncaught
  | .own agent =>
    match getProperty metrics.feedbackScoring type with
    | .absent => .exit 1
    | .inherited =>
      -- a member of `Object.prototype` stands in for the configuration: its `scoreChange`
      -- is `undefined`
      .savedNaN
    | .own feedbackConfig =>
      .saved
        { scores with
          lastUpdated := now
          agents := setProperty scores.agents agentName
            (feedbackRecord feedbackConfig type description now agent) }

/-- The feedback table that the usage text of `update-score.js` prints (lines 328-331). -/
def usageFeedbackScoring : List (String × FeedbackConfig) :=
  [("success", ⟨15, "작업 성공"⟩), ("partial", ⟨5, "부분 성공"⟩),
    ("failure", ⟨-20, "작업 실패"⟩), ("excellent", ⟨30, "탁월한 성과"⟩)]

/-- A configuration with the feedback table of the usage text. -/
def usageMetrics : MetricsConfig :=
  { initialScore := 800, feedbackScoring := usageFeedbackScoring }

/-- A score document with one agent, whose total score is 990. -/
def exampleScores : Scores :=
  { project := "wedding"
    lastUpdated := 0
    agents :=
      [("정국", { initialRecord usageMetrics (some "sonnet") 0 with totalScore := 990, rank := "S" })] }

/-- The document that a run saved, if it saved one. -/
def savedScores : Outcome → Option Scores
  | .saved scores => some scores
  | _ => none

/-- The record that a run saved for an agent, if it saved one. -/
def recordAfter (outcome : Outcome) (agentName : String) : Option AgentRecord :=
  (savedScores outcome).bind fun scores => scores.agents.lookup agentName

/-- A score document with one agent that completed 39 tasks, 22 of them successfully. -/
def rateExampleScores : Scores :=
  { project := "wedding"
    lastUpdated := 0
    agents :=
      [("정국",
        { initialRecord usageMetrics (some "sonnet") 0 with
          metrics :=
            { tasksCompleted := 39
              successfulTasks := 22
              successRate := 56
              avgResponseTime := 0
              qualityScore := 80
              userSatisfaction := 4
              consistency := 80 } })] }

/-! ## Penalty escalator (`update-score.js`, lines 206-319) -/

/-- Entry of `categories` in `scoring/penalties.json`. -/
structure CategoryConfig where
  basePoints : Int
  name : String
  severity : String
  deriving DecidableEq, Repr

/-- The `improvementMission` object of an escalation level. -/
structure MissionTemplate where
  requiredSuccesses : Nat
  recoveryPoints : Int
  timeLimit : JsonText
  deriving DecidableEq, Repr

/-- Entry of `escalation` in `scoring/penalties.json`: the part that `applyPenalty` reads. -/
structure EscalationConfig where
  improvementMission : Option MissionTemplate
  deriving DecidableEq, Repr

/-- The parts of `scoring/penalties.json` that `applyPenalty` reads. -/
structure PenaltyRules where
  categories : List (String × CategoryConfig)
  escalation : List (String × EscalationConfig)
  deriving DecidableEq, Repr

/-- Line 216: `const [category] = penaltyStr.split(":")`, the text before the first colon. -/
def penaltyCategory (penaltyStr : String) : String :=
  ⟨penaltyStr.data.takeWhile fun c => c ≠ ':'⟩

/-- Lines 231-239: the number of past penalties of the category whose date is later than
`days` days before `now`: `p.category === category && new Date(p.date) > new Date(now - days)`. -/
def countViolations (penalties : List PenaltyEntry) (category : String) (now days : Int) :
    Nat :=
  (penalties.filter fun p =>
    decide (p.category = category ∧ p.date * msPerDay > now - days * msPerDay)).length

/-- Level, multiplier and warning marker of a penalty. -/
structure Escalation where
  level : Nat
  multiplier : Nat
  warningLevel : String
  deriving DecidableEq, Repr

/-- Lines 241-259: the escalation level from the two violation counts. -/
def escalationLevel (escalatedViolations recentViolations : Nat) : Escalation :=
  if escalatedViolations ≥ 3 then ⟨4, 3, "🚨"⟩
  else if recentViolations ≥ 2 then ⟨3, 3, "🚨"⟩
  else if recentViolations ≥ 1 then ⟨2, 2, "🔴"⟩
  else ⟨1, 1, "⚠️"⟩

/-- The escalation that `applyPenalty` assigns to a new penalty of `category` at `now`. -/
def assignedEscalation (penalties : List PenaltyEntry) (category : String) (now : Int) :
    Escalation :=
  escalationLevel (countViolations penalties category now 60)
    (countViolations penalties category now 30)

/-- Lines 280-295: the improvement missions after a penalty of the given level. -/
def missionsAfter (penaltyRules : PenaltyRules) (category : String) (level : Nat) (now : Int)
    (missions : List ImprovementMission) : List ImprovementMission :=
  if level ≥ 2 then
    match (penaltyRules.escalation.lookup ("level" ++ toString level)).bind
        fun escalationConfig => escalationConfig.improvementMission with
    | some mission =>
      missions ++
        [{ assignedDate := isoDate now
           category := category
           level := level
           requiredSuccesses := mission.requiredSuccesses
           recoveryPoints := mission.recoveryPoints
           timeLimit := mission.timeLimit
           completedSuccesses := 0
           status := "active" }]
    | none => missions
  else missions

/-- Lines 268-278: the entry that `applyPenalty` pushes onto `penalties`. -/
def penaltyEntry (categoryConfig : CategoryConfig) (category penaltyStr description : String)
    (now : Int) (escalation : Escalation) : PenaltyEntry :=
  { date := isoDate now
    category := category
    categoryName := categoryConfig.name
    severity := categoryConfig.severity
    level := escalation.level
    warningLevel := escalation.warningLevel
    scoreChange := categoryConfig.basePoints * escalation.multiplier
    description := if description ≠ "" then description else penaltyStr
    multiplier := escalation.multiplier }

/-- Lines 298-304: the entry that `applyPenalty` puts at the head of the work history. -/
def penaltyWorkEntry (categoryConfig : CategoryConfig) (penaltyStr description : String)
    (now : Int) (escalation : Escalation) : WorkEntry :=
  { date := isoDate now
    taskType := "penalty"
    description :=
      "[" ++ categoryConfig.name ++ "] " ++ (if description ≠ "" then description else penaltyStr)
    outcome := "penalty"
    scoreChange := categoryConfig.basePoints * escalation.multiplier }

/-- Lines 225-304 of `applyPenalty`: the changes made to the agent's record. -/
def penaltyRecord (penaltyRules : PenaltyRules) (categoryConfig : CategoryConfig)
    (category penaltyStr description : String) (now : Int) (agent : AgentRecord) :
    AgentRecord :=
  let escalation := assignedEscalation agent.penalties category now
  let scoreChange := categoryConfig.basePoints * escalation.multiplier
  let totalScore := max 0 (agent.totalScore + scoreChange)
  { agent with
    totalScore := totalScore
    rank := getRank totalScore
    warnings := max agent.warnings escalation.level
    -- Record penalty
    penalties := agent.penalties ++
      [penaltyEntry categoryConfig category penaltyStr description now escalation]
    -- Add improvement mission for level 2+
    improvementMissions :=
      missionsAfter penaltyRules category escalation.level now agent.improvementMissions
    -- Record in development memory
    developmentMemory :=
      { agent.developmentMemory with
        workHistory :=
          penaltyWorkEntry categoryConfig penaltyStr description now escalation
            :: agent.developmentMemory.workHistory } }

/-- The function `applyPenalty(projectName, agentName, penaltyStr, description)` on the loaded
score document `scores`, at the instant `now`. -/
def applyPenalty (penaltyRules : PenaltyRules) (scores : Scores)
    (agentName penaltyStr description : String) (now : Int) : Outcome :=
  let category := penaltyCategory penaltyStr
  match getProperty scores.agents agentName with
  | .absent => .exit 1
  | .inherited =>
    -- a member of `Object.prototype` stands in for the record: it has no `penalties`
    match getProperty penaltyRules.categories category with
    | .absent => .exit 1
    | _ => .uncaught
  | .own agent =>
    match getProperty penaltyRules.categories category with
    | .absent => .exit 1
    | .inherited =>
      -- a member of `Object.prototype` stands in for the category: its `basePoints` is
      -- `undefined`
      .savedNaN
    | .own categoryConfig =>
      .saved
        { scores with
          lastUpdated := now
          agents := setProperty scores.agents agentName
            (penaltyRecord penaltyRules categoryConfig category penaltyStr description now
              agent) }

/-- An invocation of the score engine (lines 350-354): a feedback or a penalty. -/
inductive Event where
  | feedback (agentName type description : String) (now : Int)
  | penalty (agentName penaltyStr description : String) (now : Int)
  deriving DecidableEq, Repr

/-- One run of the score engine on the stored document. -/
def applyEvent (metrics : MetricsConfig) (penaltyRules : PenaltyRules) (scores : Scores) :
    Event → Outcome
  | .feedback agentName type description now =>
    applyFeedback metrics scores agentName type description now
  | .penalty agentName penaltyStr description now =>
    applyPenalty penaltyRules scores agentName penaltyStr description now

/-- The stored document after a sequence of runs: a run that saves replaces the document, a
run that ends in an error leaves it as it was; `none` when a run stored a total score that is
not a number. -/
def applyEvents (metrics : MetricsConfig) (penaltyRules : PenaltyRules) :
    Scores → List Event → Option Scores
  | scores, [] => some scores
  | scores, event :: rest =>
    match applyEvent metrics penaltyRules scores event with
    | .saved scores' => applyEvents metrics penaltyRules scores' rest
    | .exit _ => applyEvents metrics penaltyRules scores rest
    | .uncaught => applyEvents metrics penaltyRules scores rest
    | .savedNaN => none

/-- A penalty table with the category `process` of the specification (base points -10) and
improvement missions for the levels 2 to 4. -/
def examplePenaltyRules : PenaltyRules :=
  { categories := [("process", ⟨-10, "프로세스 위반", "medium"⟩)]
    escalation :=
      [("level1", ⟨none⟩), ("level2", ⟨some ⟨3, 10, "14d"⟩⟩),
        ("level3", ⟨some ⟨5, 20, "30d"⟩⟩), ("level4", ⟨some ⟨10, 30, "60d"⟩⟩)] }

/-! ## Creation of score records (`update-score.js`, lines 59-125; `add-project.js`,
lines 126-160) -/

/-- Project of the registry: the part that `initializeScores` reads. -/
structure Project where
  activeAgents : List String
  deriving DecidableEq, Repr

/-- The parts of `registry.json` that `initializeScores` reads. -/
structure Registry where
  projects : List (String × Project)
  agents : List (String × Agent)
  deriving DecidableEq, Repr

/-- The assignment `obj[key] = value`: the value of an own property is replaced in place, a new
property is added after the others. The key `__proto__` is not modelled. -/
def assignProperty {α : Type} (obj : List (String × α)) (key : String) (value : α) :
    List (String × α) :=
  match obj.lookup key with
  | some _ => setProperty obj key value
  | none => obj ++ [(key, value)]

/-- Lines 75-121: the loop of `initializeScores` over the active agents; `none` when an active
agent is missing from the registry, where reading `agent.recommendedModel` throws. -/
def initializeAgents (registry : Registry) (metrics : MetricsConfig) (now : Int) :
    List (String × AgentRecord) → List String → Option (List (String × AgentRecord))
  | agents, [] => some agents
  | agents, agentName :: rest =>
    match getProperty registry.agents agentName with
    | .absent => none
    | .inherited =>
      -- a member of `Object.prototype` has no `recommendedModel`
      initializeAgents registry metrics now
        (assignProperty agents agentName (initialRecord metrics none now)) rest
    | .own agent =>
      initializeAgents registry metrics now
        (assignProperty agents agentName
          (initialRecord metrics (some agent.recommendedModel) now)) rest

/-- The function `initializeScores(projectName)` at the instant `now`. -/
def initializeScores (registry : Registry) (metrics : MetricsConfig) (projectName : String)
    (now : Int) : Outcome :=
  match getProperty registry.projects projectName with
  | .absent => .exit 1
  | .inherited =>
    -- a member of `Object.prototype` stands in for the project: its `activeAgents` is
    -- `undefined` and cannot be iterated
    .uncaught
  | .own project =>
    match initializeAgents registry metrics now [] project.activeAgents with
    | none => .uncaught
    | some agents => .saved { project := projectName, lastUpdated := now, agents := agents }

/-- Lines 133-158 of `add-project.js`: the record that `addProject` writes for an agent. -/
def addProjectRecord (recommendedModel : Option String) (now : Int) : AgentRecord :=
  { totalScore := 800
    rank := "A"
    currentModel := (truthyStr recommendedModel).getD "sonnet"
    modelHistory := []
    metrics :=
      { tasksCompleted := 0
        successfulTasks := 0
        successRate := 100
        avgResponseTime := 0
        qualityScore := 80
        userSatisfaction := 4
        consistency := 80 }
    recentTasks := []
    developmentMemory :=
      { workHistory := []
        incorrectDiagnosis := []
        successfulPatterns := []
        fileExpertise := []
        techStackProficiency := []
        skills := []
        receivedFromOthers := []
        commonIssues := []
        since := isoDate now
        milestones := []
        currentFocusGoal := "프로젝트 파악 및 초기 개발"
        currentFocusProgress := "0/10 tasks"
        currentFocusTargetDate := "" }
    penalties := []
    warnings := 0
    improvementMissions := [] }

/-- Every record of the document stores the rank of its total score. -/
def RankConsistent (scores : Scores) : Prop :=
  ∀ entry ∈ scores.agents, entry.2.rank = getRank entry.2.totalScore

/-- A score document whose agent has one `process` penalty, dated day 20000. -/
def penalizedScores : Scores :=
  { project := "wedding"
    lastUpdated := 20000 * msPerDay
    agents :=
      [("정국",
        { initialRecord usageMetrics (some "sonnet") 0 with
          totalScore := 790
          rank := "B"
          warnings := 1
          penalties :=
            [{ date := 20000
               category := "process"
               categoryName := "프로세스 위반"
               severity := "medium"
               level := 1
               warningLevel := "⚠️"
               scoreChange := -10
               description := "process:x"
               multiplier := 1 }] })] }

/-- A score document whose agent already has 50 entries in the work history. -/
def fullHistoryScores : Scores :=
  { project := "wedding"
    lastUpdated := 0
    agents :=
      [("정국",
        { initialRecord usageMetrics (some "sonnet") 0 with
          developmentMemory :=
            { (initialRecord usageMetrics (some "sonnet") 0).developmentMemory with
              workHistory := List.replicate 50 ⟨0, "success", "작업 성공", "success", 15⟩ } })] }

/-! ## Loading the score file (`update-score.js`, lines 34-47) and the two entry points -/

/-- How `loadScores(projectName)` ends. -/
inductive LoadResult where
  /-- The run ends inside `loadScores`; the score file is as it was. -/
  | failed (outcome : Outcome)
  /-- The score file exists and its content is returned. -/
  | parsed (scores : Scores)
  /-- The score file was missing: `initializeScores` built this document, saved it and
  returned it. -/
  | initialized (scores : Scores)
  deriving DecidableEq, Repr

/-- The function `loadScores(projectName)`, where `file` is the content of the project's score
file, `none` when the file does not exist. `getScoresPath` reads `project.path` first, which
throws for a project that the registry does not have. -/
def loadScores (registry : Registry) (metrics : MetricsConfig) (file : Option Scores)
    (projectName : String) (now : Int) : LoadResult :=
  match getProperty registry.projects projectName with
  | .absent => .failed .uncaught
  | _ =>
    match file with
    | some scores => .parsed scores
    | none =>
      match initializeScores registry metrics projectName now with
      | .saved scores => .initialized scores
      | outcome => .failed outcome

/-- A whole call of `applyFeedback` or `applyPenalty`: the document that `initializeScores`
saved on the way, if the score file was missing, and how the call ends. -/
structure Run where
  initialized : Option Scores
  outcome : Outcome
  deriving DecidableEq, Repr

/-- The call `applyFeedback(projectName, agentName, type, description)` from the state `file` of
the score file: `loadScores` (line 141), then the rest of the function on the loaded document. -/
def feedbackRun (registry : Registry) (metrics : MetricsConfig) (file : Option Scores)
    (projectName agentName type description : String) (now : Int) : Run :=
  match loadScores registry metrics file projectName now with
  | .failed outcome => ⟨none, outcome⟩
  | .parsed scores => ⟨none, applyFeedback metrics scores agentName type description now⟩
  | .initialized scores =>
    ⟨some scores, applyFeedback metrics scores agentName type description now⟩

/-- The call `applyPenalty(projectName, agentName, penaltyStr, description)` from the state
`file` of the score file: `loadScores` (line 207), then the rest of the function. -/
def penaltyRun (registry : Registry) (metrics : MetricsConfig) (penaltyRules : PenaltyRules)
    (file : Option Scores) (projectName agentName penaltyStr description : String)
    (now : Int) : Run :=
  match loadScores registry metrics file projectName now with
  | .failed outcome => ⟨none, outcome⟩
  | .parsed scores =>
    ⟨none, applyPenalty penaltyRules scores agentName penaltyStr description now⟩
  | .initialized scores =>
    ⟨some scores, applyPenalty penaltyRules scores agentName penaltyStr description now⟩

/-- A registry with one project that has two active agents. -/
def exampleRegistry : Registry :=
  { projects := [("wedding", ⟨["정국", "뷔"]⟩)]
    agents := [("정국", ⟨"디버거", ["debugging"], "sonnet"⟩), ("뷔", ⟨"디자이너", ["CSS"], "haiku"⟩)] }

/-! ## Migration of legacy customizations (`migrate-overlays.js`, lines 39-126)

The stored overlay document has the fields `version`, `project`, `lastUpdated`, `agents` and
`globalOverrides`; a property of an override object is either absent (`none`) or holds a value
of its type. The key `__proto__` is not modelled. -/

/-- Overlay document as it is stored in `overlays/<project>.json`; `lastUpdated` is a UTC day. -/
structure OverlayDocument where
  version : Option String
  project : Option String
  lastUpdated : Option Int
  agents : Option (List (String × AgentOverlay))
  globalOverrides : Option GlobalOverrides
  deriving DecidableEq, Repr

/-- The override object `\x7b\x7d`. -/
def emptyOverride : AgentOverlay :=
  { roleOverride := none
    modelOverride := none
    expertiseOverride := none
    expertiseAppend := none
    additionalContext := none
    templatePatches := none }

/-- The test `Object.keys(entry).length > 0` on an override object. -/
def hasKeys (entry : AgentOverlay) : Bool :=
  entry.roleOverride.isSome || entry.modelOverride.isSome || entry.expertiseOverride.isSome ||
    entry.expertiseAppend.isSome || entry.additionalContext.isSome ||
    entry.templatePatches.isSome

/-- The test `Object.keys(customization).length === 0` on a legacy customization. -/
def noKeys (customization : Customizations) : Bool :=
  customization.role.isNone && customization.expertise.isNone &&
    customization.additionalContext.isNone

/-- The part of `agent-config.json` that `migrateProject` reads. -/
structure ProjectConfig where
  customizations : Option (List (String × Customizations))
  modelOverrides : Option (List (String × String))
  deriving DecidableEq, Repr

/-- The part of the registry's project entry that `migrateProject` reads. -/
structure RegistryProject where
  customizations : Option (List (String × Customizations))
  deriving DecidableEq, Repr

/-- Lines 65-80 (and 106-109): the override object built from a legacy customization. An array
is truthy, a string is copied when it is non-empty. -/
def agentOverride (customization : Customizations) : AgentOverlay :=
  { emptyOverride with
    expertiseOverride := customization.expertise
    additionalContext := truthyStr customization.additionalContext
    roleOverride := truthyStr customization.role }

/-- The `agents` object of the overlay and the counter `migratedCount` during a migration. -/
structure Migration where
  agents : List (String × AgentOverlay)
  migratedCount : Nat
  deriving DecidableEq, Repr

/-- The test `overlay.agents[agentName] && Object.keys(overlay.agents[agentName]).length > 0`;
a member of `Object.prototype` has no keys of its own. -/
def alreadyMigrated (agents : List (String × AgentOverlay)) (agentName : String) : Bool :=
  match agents.lookup agentName with
  | some entry => hasKeys entry
  | none => false

/-- Lines 56-87 and 103-115: the body of the loops over the legacy customizations (of the config
file, and of the registry). -/
def migrateCustomization (state : Migration) (entry : String × Customizations) : Migration :=
  if noKeys entry.2 then state
  else if alreadyMigrated state.agents entry.1 then state
  else if hasKeys (agentOverride entry.2) then
    { agents := assignProperty state.agents entry.1 (agentOverride entry.2)
      migratedCount := state.migratedCount + 1 }
  else state

/-- Lines 93-101: the body of the loop over the legacy model overrides. -/
def migrateModelOverride (state : Migration) (entry : String × String) : Migration :=
  match getProperty state.agents entry.1 with
  | .absent =>
    -- the entry is created as an empty object and receives the model
    { agents := assignProperty state.agents entry.1
        { emptyOverride with modelOverride := some entry.2 }
      migratedCount := state.migratedCount + 1 }
  | .inherited =>
    -- the model is stored on a member of `Object.prototype`, outside the document
    { state with migratedCount := state.migratedCount + 1 }
  | .own existing =>
    if (truthyStr existing.modelOverride).isSome then state
    else
      { agents := setProperty state.agents entry.1
          { existing with modelOverride := some entry.2 }
        migratedCount := state.migratedCount + 1 }

/-- The legacy customizations of the config file (`config && config.customizations`). -/
def configCustomizations (config : Option ProjectConfig) : List (String × Customizations) :=
  (config.bind fun c => c.customizations).getD []

/-- The legacy model overrides of the config file (`config && config.modelOverrides`). -/
def configModelOverrides (config : Option ProjectConfig) : List (String × String) :=
  (config.bind fun c => c.modelOverrides).getD []

/-- The legacy customizations of the registry's project entry. -/
def registryCustomizations (project : RegistryProject) : List (String × Customizations) :=
  project.customizations.getD []

/-- The three loops of `migrateProject` in their order, from the `agents` object of the
overlay. -/
def migrateAgents (project : RegistryProject) (config : Option ProjectConfig)
    (agents : List (String × AgentOverlay)) : Migration :=
  let state : Migration := { agents := agents, migratedCount := 0 }
  let state := (configCustomizations config).foldl migrateCustomization state
  let state := (configModelOverrides config).foldl migrateModelOverride state
  (registryCustomizations project).foldl migrateCustomization state

/-- Whether a run reads `overlay.agents[agentName]` at all. -/
def readsAgents (project : RegistryProject) (config : Option ProjectConfig) : Bool :=
  (configCustomizations config).any (fun entry => !noKeys entry.2) ||
    !(configModelOverrides config).isEmpty ||
    (registryCustomizations project).any (fun entry => !noKeys entry.2)

/-- Result of `migrateProject`. -/
structure MigrationResult where
  overlay : OverlayDocument
  migratedCount : Nat
  deriving DecidableEq, Repr

/-- The overlay that `migrateProject` starts from when no overlay file exists. -/
def freshOverlay (projectName : String) (today : Int) : OverlayDocument :=
  { version := some "1.0.0"
    project := some projectName
    lastUpdated := some today
    agents := some []
    globalOverrides := some ⟨none⟩ }

/-- The function `migrateProject(projectName, project)` on the day `today`, where `config` is the
content of the project's `agent-config.json` and `existing` the content of the overlay file
(`none` when the file does not exist). The result is `none` when the run reads an entry of an
overlay that has no `agents` object, which throws. -/
def migrateProject (projectName : String) (project : RegistryProject)
    (config : Option ProjectConfig) (existing : Option OverlayDocument) (today : Int) :
    Option MigrationResult :=
  let overlay := existing.getD (freshOverlay projectName today)
  match overlay.agents with
  | none =>
    if readsAgents project config then none
    else some { overlay := { overlay with lastUpdated := some today }, migratedCount := 0 }
  | some agents =>
    let state := migrateAgents project config agents
    some
      { overlay := { overlay with lastUpdated := some today, agents := some state.agents }
        migratedCount := state.migratedCount }

/-- A legacy configuration of the config file whose one model override is the empty string. -/
def emptyModelConfig : ProjectConfig :=
  { customizations := none, modelOverrides := some [("뷔", "")] }

/-- An overlay whose agent 뷔 has a role override and no model override. -/
def roleOnlyOverlay : OverlayDocument :=
  { freshOverlay "wedding" 20000 with
    agents := some [("뷔", { emptyOverride with roleOverride := some "UI 디자이너" })] }

/-- A legacy configuration of the config file with a model override for 뷔. -/
def modelOnlyConfig : ProjectConfig :=
  { customizations := none, modelOverrides := some [("뷔", "opus")] }

/-- A legacy customization with a role, an expertise list and a context. -/
def exampleCustomization : Customizations :=
  { role := some "UI 디자이너", expertise := some ["CSS", "Figma"],
    additionalContext := some "모바일 우선" }

/-- A legacy configuration of the config file with a customization and a model override for
뷔. -/
def fullConfig : ProjectConfig :=
  { customizations := some [("뷔", exampleCustomization)]
    modelOverrides := some [("뷔", "opus")] }

/-- Whether the overlay entry of an agent holds a truthy `modelOverride`. -/
def modelMigrated (agents : List (String × AgentOverlay)) (agentName : String) : Bool :=
  match agents.lookup agentName with
  | some entry => (truthyStr entry.modelOverride).isSome
  | none => false

/-- The entries of a legacy table that belong to other agents than `agentName`. -/
def withoutAgent {α : Type} (agentName : String) (entries : List (String × α)) :
    List (String × α) :=
  entries.filter fun entry => entry.1 != agentName

/-- The config file without the legacy entries of `agentName`. -/
def configWithout (agentName : String) (config : Option ProjectConfig) : Option ProjectConfig :=
  config.map fun c =>
    { customizations := c.customizations.map (withoutAgent agentName)
      modelOverrides := c.modelOverrides.map (withoutAgent agentName) }

/-- The registry's project entry without the legacy customizations of `agentName`. -/
def projectWithout (agentName : String) (project : RegistryProject) : RegistryProject :=
  { customizations := project.customizations.map (withoutAgent agentName) }

/-- An overlay whose agent 뷔 has a role override and a model override. -/
def roleModelOverlay : OverlayDocument :=
  { freshOverlay "wedding" 20000 with
    agents := some
      [("뷔", { emptyOverride with
                roleOverride := some "UI 디자이너"
                modelOverride := some "haiku" })] }

/-! ## Saving an overlay from the dashboard (`dashboard.js`, lines 942-1003) -/

/-- The characters that `String.prototype.trim` removes: white space and line terminators. -/
def isTrimmed (c : Char) : Bool :=
  c.val.toNat ∈ [0x09, 0x0A, 0x0B, 0x0C, 0x0D, 0x20, 0xA0, 0x1680, 0x2028, 0x2029, 0x202F,
      0x205F, 0x3000, 0xFEFF] ||
    (0x2000 ≤ c.val.toNat && c.val.toNat ≤ 0x200A)

/-- The method `String.prototype.trim`. -/
def trim (s : String) : String :=
  String.mk ((s.data.dropWhile isTrimmed).reverse.dropWhile isTrimmed).reverse

/-- The pieces of `s.split(',')`. -/
def splitComma : List Char → List (List Char)
  | [] => [[]]
  | c :: rest =>
    if c = ',' then [] :: splitComma rest
    else
      match splitComma rest with
      | piece :: pieces => (c :: piece) :: pieces
      | [] => [[c]]

/-- The expression `expertiseRaw.split(',').map(s => s.trim()).filter(Boolean)`. -/
def expertiseList (expertiseRaw : String) : List String :=
  ((splitComma expertiseRaw.data).map fun piece => trim (String.mk piece)).filter
    fun s => s != ""

/-- The values of the elements of the override form; the value of a missing element is the empty
string, as `?.value || ''` and `?.value?.trim() || ''` make it. -/
structure OverlayForm where
  model : String
  role : String
  expertiseMode : String
  expertise : String
  ctx : String
  prepend : String
  append : String
  globalCtx : String
  deriving DecidableEq, Repr

/-- The value of a string that is kept when it is truthy. -/
def nonEmpty (s : String) : Option String :=
  if s = "" then none else some s

/-- Lines 960-974: the override object built from the form. -/
def buildAgentOverlay (form : OverlayForm) : AgentOverlay :=
  let model := form.model
  let role := trim form.role
  let expertiseMode := if form.expertiseMode = "" then "none" else form.expertiseMode
  let expertiseRaw := trim form.expertise
  let ctx := trim form.ctx
  let prepend := trim form.prepend
  let append := trim form.append
  { modelOverride := nonEmpty model
    roleOverride := nonEmpty role
    expertiseOverride :=
      if expertiseMode = "replace" ∧ expertiseRaw ≠ "" then some (expertiseList expertiseRaw)
      else none
    expertiseAppend :=
      if expertiseMode = "replace" ∧ expertiseRaw ≠ "" then none
      else if expertiseMode = "append" ∧ expertiseRaw ≠ "" then
        some (expertiseList expertiseRaw)
      else none
    additionalContext := nonEmpty ctx
    templatePatches :=
      if prepend ≠ "" ∨ append ≠ "" then
        some { prepend := nonEmpty prepend, append := nonEmpty append }
      else none }

/-- The statement `delete obj[key]`. -/
def deleteProperty {α : Type} (obj : List (String × α)) (key : String) : List (String × α) :=
  obj.filter fun entry => entry.1 != key

/-- The overlay that `saveOverlay(projectName, agentName)` builds and sends, where
`projectOverlay` is `this.projectOverlays[projectName]`. -/
def saveOverlay (projectOverlay : Option OverlayDocument) (projectName agentName : String)
    (form : OverlayForm) : OverlayDocument :=
  let overlay := projectOverlay.getD
    { version := some "1.0.0"
      project := some projectName
      lastUpdated := none
      agents := some []
      globalOverrides := some ⟨none⟩ }
  let globalCtx := trim form.globalCtx
  let agentOverlay := buildAgentOverlay form
  -- Update overlay
  let agents := overlay.agents.getD []
  let agents :=
    if hasKeys agentOverlay then assignProperty agents agentName agentOverlay
    else deleteProperty agents agentName
  -- Global overrides
  let globalOverrides : GlobalOverrides := { additionalContext := nonEmpty globalCtx }
  { overlay with
    version := some "1.0.0"
    project := some projectName
    agents := some agents
    globalOverrides := some globalOverrides }

/-- The form in which every per-agent field is empty after trimming: no model, role, context,
prepend or append, and no expertise text or an expertise mode that stores none. -/
def formBlank (form : OverlayForm) : Prop :=
  form.model = "" ∧ trim form.role = "" ∧
    (trim form.expertise = "" ∨ (form.expertiseMode ≠ "replace" ∧ form.expertiseMode ≠ "append"))
    ∧ trim form.ctx = "" ∧ trim form.prepend = "" ∧ trim form.append = ""

/-- A form whose fields are empty or hold white space only. -/
def blankForm : OverlayForm :=
  { model := "", role := "  ", expertiseMode := "none", expertise := "", ctx := "\n",
    prepend := "", append := " ", globalCtx := "" }

/-- A form that replaces the expertise by a text that holds commas and blanks only. -/
def commaForm : OverlayForm :=
  { model := "", role := "", expertiseMode := "replace", expertise := " , ,", ctx := "",
    prepend := "", append := "", globalCtx := "" }

/-! ## The delegation table (`generate-agent.js`, lines 123-138) -/

/-- Agent of the registry: the fields that `getAgentTaskMap` and the footer rule of
`generateAgent` read. -/
structure AgentProfile where
  role : String
  subagentType : String
  recommendedModel : String
  personality : String
  command : String
  deriving DecidableEq, Repr

/-- The parts of `registry.json` that `getAgentTaskMap` reads. -/
structure TaskRegistry where
  projects : List (String × Project)
  agents : List (String × AgentProfile)
  deriving DecidableEq, Repr

/-- The expression `agent.personality.split('.')[0]`: the text before the first period. -/
def firstSentence (personality : String) : String :=
  String.mk (personality.data.takeWhile fun c => c != '.')

/-- Line 134: the row of an agent. -/
def taskRow (name : String) (agent : AgentProfile) : String :=
  "| **" ++ name ++ "** | " ++ agent.role ++ " | `" ++ agent.subagentType ++ "` | `" ++
    agent.recommendedModel ++ "` | " ++ firstSentence agent.personality ++ " |"

/-- Lines 131-135: the rows of the listed agents; `none` when a listed agent is missing from the
registry, where reading `agent.personality` throws (a member of `Object.prototype` has no
`personality` to split). -/
def taskRows (agents : List (String × AgentProfile)) : List String → Option (List String)
  | [] => some []
  | name :: rest =>
    match getProperty agents name with
    | .own agent => (taskRows agents rest).map fun rows => taskRow name agent :: rows
    | _ => none

/-- The header line of the delegation table. -/
def taskMapHeader : String := "| 에이전트 | 역할 | subagent_type | 권장 모델 | 페르소나 요약 |"

/-- The separator line of the delegation table. -/
def taskMapSeparator : String :=
  "|----------|------|---------------|-----------|---------------|"

/-- Line 130: the active agents that get a row. -/
def delegationTargets (activeAgents : List String) : List String :=
  activeAgents.filter fun name => name != "진"

/-- The function `getAgentTaskMap(registry, projectName)`; `none` when the call throws. -/
def getAgentTaskMap (registry : TaskRegistry) (projectName : String) : Option String :=
  match getProperty registry.projects projectName with
  | .absent => some ""
  | .inherited =>
    -- a member of `Object.prototype` stands in for the project: it has no `activeAgents`
    none
  | .own project =>
    (taskRows registry.agents (delegationTargets project.activeAgents)).map fun rows =>
      "\n".intercalate (taskMapHeader :: taskMapSeparator :: rows)

/-- Line 304 of `generateAgent`: the agents whose output receives the footer, which are all but
the manager. -/
def receivesFooter (agent : AgentProfile) : Bool :=
  agent.command != "manager"

/-- The active agents that are not the manager, by the rule of `generateAgent`; an agent that
the registry does not have counts as no manager. -/
def nonManagers (agents : List (String × AgentProfile)) (activeAgents : List String) :
    List String :=
  activeAgents.filter fun name =>
    match agents.lookup name with
    | some agent => receivesFooter agent
    | none => true

/-- A registry whose manager is called RM, with a developer 정국. -/
def renamedManagerRegistry : TaskRegistry :=
  { projects := [("wedding", ⟨["RM", "정국"]⟩)]
    agents :=
      [("RM", ⟨"매니저", "general-purpose", "opus", "침착하다. 팀을 이끈다.", "manager"⟩),
        ("정국", ⟨"디버거", "debugger", "sonnet", "끈질기다. 포기하지 않는다.", "debug"⟩)] }

/-- A registry whose manager is called 진, with a developer 정국. -/
def usualRegistry : TaskRegistry :=
  { projects := [("wedding", ⟨["진", "정국"]⟩)]
    agents :=
      [("진", ⟨"매니저", "general-purpose", "opus", "침착하다. 팀을 이끈다.", "manager"⟩),
        ("정국", ⟨"디버거", "debugger", "sonnet", "끈질기다. 포기하지 않는다.", "debug"⟩)] }

/-! ## Regeneration after a template was saved (`serve.js`, lines 147-172) -/

/-- Project of the registry as the dashboard server reads it: `activeAgents` may be missing. -/
structure ServedProject where
  activeAgents : Option (List String)
  deriving DecidableEq, Repr

/-- An entry of the `errors` list of the response. -/
structure RegenerationError where
  project : String
  error : String
  deriving DecidableEq, Repr

/-- The `updated` and `errors` lists of the response, with the projects for which the generator
was started, in the order of the calls. -/
structure BatchResult where
  updated : List String
  errors : List RegenerationError
  attempted : List String
  deriving DecidableEq, Repr

/-- The expression `agentName.split('-')[0]`: the template name up to its first hyphen. -/
def agentKoreanName (agentName : String) : String :=
  String.mk (agentName.data.takeWhile fun c => c != '-')

/-- The test `project.activeAgents && project.activeAgents.includes(agentKoreanName)`. -/
def usesAgent (project : ServedProject) (agent : String) : Bool :=
  match project.activeAgents with
  | some activeAgents => activeAgents.contains agent
  | none => false

/-- Lines 153-167: the body of the loop over the projects. The call of the generator for a
project either returns (`run projectName = none`) or throws an error with a message. -/
def regenerateStep (agent : String) (run : String → Option String) (result : BatchResult)
    (entry : String × ServedProject) : BatchResult :=
  if usesAgent entry.2 agent then
    match run entry.1 with
    | none =>
      { result with
        updated := result.updated ++ [entry.1]
        attempted := result.attempted ++ [entry.1] }
    | some message =>
      { result with
        errors := result.errors ++ [⟨entry.1, message⟩]
        attempted := result.attempted ++ [entry.1] }
  else result

/-- Lines 147-168 of `handleApiTemplateSave`: the regeneration for all projects that use the
agent of the template `agentName`; `projects` are the entries of `registry.projects` in the
order in which `for ... in` enumerates them. -/
def regenerateProjects (projects : List (String × ServedProject)) (agentName : String)
    (run : String → Option String) : BatchResult :=
  projects.foldl (regenerateStep (agentKoreanName agentName) run)
    { updated := [], errors := [], attempted := [] }

/-- The names of the projects that use an agent, in the order of the registry. -/
def projectsUsing (projects : List (String × ServedProject)) (agent : String) : List String :=
  (projects.filter fun entry => usesAgent entry.2 agent).map Prod.fst

/-- Three projects, two of which use 정국. -/
def servedProjects : List (String × ServedProject) :=
  [("wedding", ⟨some ["진", "정국"]⟩), ("blog", ⟨some ["진"]⟩), ("shop", ⟨some ["정국"]⟩),
    ("draft", ⟨none⟩)]

/-! ## Identifier checks of the overlay and template handlers (`serve.js`, lines 93-99, 117-123,
211-216, 235-240, 273-278; `api/overlays/[project].js` and `api/templates/[name].js`,
lines 12-17) -/

/-- The method `String.prototype.includes`. -/
def includes (s sub : String) : Bool :=
  decide (sub.data <:+: s.data)

/-- The test `name.includes('..') || name.includes('/') || name.includes('\\')`. -/
def hasTraversal (name : String) : Bool :=
  includes name ".." || includes name "/" || includes name "\\"

/-- What a handler answers: the status, the `error` text of the body (empty when the body has
none) and the paths of the files that the handler tested, read or wrote. -/
structure Reply where
  status : Nat
  error : String
  files : List String
  deriving DecidableEq, Repr

/-- The function `handleApiTemplateRead(req, res, agentName)` of `serve.js`; `rest` stands for
lines 100-115, which test and read the template file. -/
def handleApiTemplateRead (agentName : String) (rest : String → Reply) : Reply :=
  if hasTraversal agentName then ⟨400, "Invalid agent name", []⟩ else rest agentName

/-- The function `handleApiTemplateSave(req, res, agentName)` of `serve.js`; `rest` stands for
lines 125-177, which back up and write the template file and regenerate the projects. -/
def handleApiTemplateSave (agentName : String) (rest : String → Reply) : Reply :=
  if hasTraversal agentName then ⟨400, "Invalid agent name", []⟩ else rest agentName

/-- The function `handleApiOverlayRead(req, res, projectName)` of `serve.js`; `rest` stands for
lines 218-232, which test and read the overlay file. -/
def handleApiOverlayRead (projectName : String) (rest : String → Reply) : Reply :=
  if hasTraversal projectName then ⟨400, "Invalid project name", []⟩ else rest projectName

/-- The function `handleApiOverlaySave(req, res, projectName)` of `serve.js`; `rest` stands for
lines 242-270, which check the payload and write the overlay file. -/
def handleApiOverlaySave (projectName : String) (rest : String → Reply) : Reply :=
  if hasTraversal projectName then ⟨400, "Invalid project name", []⟩ else rest projectName

/-- The function `handleApiOverlayDelete(req, res, projectName)` of `serve.js`; `rest` stands
for lines 280-304, which test the overlay file and overwrite it with the empty overlay. -/
def handleApiOverlayDelete (projectName : String) (rest : String → Reply) : Reply :=
  if hasTraversal projectName then ⟨400, "Invalid project name", []⟩ else rest projectName

/-- The handler of `api/overlays/[project].js` for a request with the method `method` and the
decoded identifier `project`; `rest` stands for lines 19-99, which serve `GET`, `PUT` and
`DELETE`. -/
def overlayApiHandler (method project : String) (rest : String → String → Reply) : Reply :=
  if method = "OPTIONS" then ⟨200, "", []⟩
  else if project = "" ∨ hasTraversal project = true then ⟨400, "Invalid project name", []⟩
  else rest method project

/-- The handler of `api/templates/[name].js` for a request with the method `method` and the
decoded identifier `name`; `rest` stands for lines 19-82, which serve `GET` and `POST`. -/
def templateApiHandler (method name : String) (rest : String → String → Reply) : Reply :=
  if method = "OPTIONS" then ⟨200, "", []⟩
  else if name = "" ∨ hasTraversal name = true then ⟨400, "Invalid template name", []⟩
  else rest method name

/-! ## The file write handler (`serve.js`, lines 311-340)

Paths are POSIX paths; `BASE_DIR` is an absolute path. -/

/-- The pieces of a path between its slashes. -/
def splitSlash : List Char → List (List Char)
  | [] => [[]]
  | c :: rest =>
    if c = '/' then [] :: splitSlash rest
    else
      match splitSlash rest with
      | piece :: pieces => (c :: piece) :: pieces
      | [] => [[c]]

/-- The components of a path in their order, with the empty ones. -/
def pathComponents (path : String) : List String :=
  (splitSlash path.data).map String.mk

/-- The normalization that `path.resolve` applies: empty components and `.` are dropped, `..`
removes the component before it. `stack` holds the components kept so far, last one first. -/
def normalizeComponents : List String → List String → List String
  | stack, [] => stack.reverse
  | stack, component :: rest =>
    if component = "" ∨ component = "." then normalizeComponents stack rest
    else if component = ".." then normalizeComponents stack.tail rest
    else normalizeComponents (component :: stack) rest

/-- The call `path.resolve(base, filePath)` for an absolute path `base`: an absolute `filePath`
replaces the base, a relative one is appended to it, and the result is normalized. -/
def pathResolve (base filePath : String) : String :=
  let joined := if filePath.data.head? = some '/' then filePath else base ++ "/" ++ filePath
  "/" ++ "/".intercalate (normalizeComponents [] (pathComponents joined))

/-- The function `handleApiWrite` for a request body with the string `filePath`, under the base
directory `base`. Creating the directory and writing the file either succeeds
(`write path = none`) or throws an error with a message, which is answered with status 500.
The reply lists the file that was written. -/
def handleApiWrite (base filePath : String) (write : String → Option String) : Reply :=
  -- Security: only allow writing to .claude directories
  let resolvedPath := pathResolve base filePath
  if !includes resolvedPath ".claude" then
    ⟨403, ".claude 디렉토리만 쓸 수 있습니다.", []⟩
  else
    match write resolvedPath with
    | none => ⟨200, "", [resolvedPath]⟩
    | some message => ⟨500, message, []⟩

/-- A path lies inside a directory named `.claude`: a component other than the last one, the
file name, is `.claude`. -/
def insideClaudeDirectory (path : String) : Bool :=
  (pathComponents path).dropLast.contains ".claude"

/-! ## The two violation counts in the words of the specification -/

/-- A stored penalty is dated after an instant: its date, which is the start of a UTC day, is
later than the instant. -/
def datedAfter (p : PenaltyEntry) (instant : Int) : Bool :=
  decide (instant < p.date * msPerDay)

/-- The number of past penalties of the category that are dated after `now` minus `days`
days, counted penalty by penalty. -/
def violationsWithin (days : Int) (category : String) (now : Int) : List PenaltyEntry → Nat
  | [] => 0
  | p :: rest =>
    if p.category = category ∧ datedAfter p (now - days * msPerDay) = true then
      violationsWithin days category now rest + 1
    else violationsWithin days category now rest

/-- The number of past penalties of the category dated after `now` minus 30 days. -/
def recentViolations (penalties : List PenaltyEntry) (category : String) (now : Int) : Nat :=
  violationsWithin 30 category now penalties

/-- The number of past penalties of the category dated after `now` minus 60 days. -/
def escalatedViolations (penalties : List PenaltyEntry) (category : String) (now : Int) : Nat :=
  violationsWithin 60 category now penalties

/-- A stored level 1 penalty of a category on a day. -/
def examplePenalty (category : String) (date : Int) : PenaltyEntry :=
  { date := date
    category := category
    categoryName := "프로세스 위반"
    severity := "medium"
    level := 1
    warningLevel := "⚠️"
    scoreChange := -10
    description := category ++ ":x"
    multiplier := 1 }

/-- A history seen from day 20100: `process` penalties 70, 55, 50 and 10 days earlier and a
`quality` penalty 5 days earlier. -/
def escalatedHistory : List PenaltyEntry :=
  [examplePenalty "process" 20030, examplePenalty "process" 20045,
    examplePenalty "process" 20050, examplePenalty "quality" 20095,
    examplePenalty "process" 20090]

/-- A score document whose agent has the history `escalatedHistory`. -/
def escalatedScores : Scores :=
  { project := "wedding"
    lastUpdated := 20095 * msPerDay
    agents :=
      [("정국",
        { initialRecord usageMetrics (some "sonnet") 0 with
          totalScore := 750
          rank := "B"
          warnings := 1
          penalties := escalatedHistory })] }
/-! # Theorems -/

/-! ## Resolver: projection lemmas -/

theorem applyAgentOverlay_additionalContext (ao : AgentOverlay) (r : ResolvedAgent) :
    (applyAgentOverlay ao r).additionalContext =
      match truthyStr ao.additionalContext with
      | some c => joinContext r.additionalContext c
      | none => r.additionalContext := by
  unfold applyAgentOverlay
  cases truthyStr ao.roleOverride <;> cases truthyStr ao.modelOverride <;>
    cases ao.expertiseOverride <;> cases ao.expertiseAppend <;>
    cases truthyStr ao.additionalContext <;> cases ao.templatePatches <;> simp <;>
    (split <;> split <;> rfl)

theorem truthyStr_some_ne {x : Option String} {s : String} (h : truthyStr x = some s) :
    s ≠ "" := by
  cases x with
  | none => simp [truthyStr] at h
  | some t =>
    simp only [truthyStr] at h
    split at h
    · cases h
    · cases h; assumption

theorem append_sep_ne_empty (a b : String) : a ++ "\n\n" ++ b ≠ "" := by
  intro h
  have := congrArg String.length h
  simp only [String.length_append] at this
  have h2 : "\n\n".length = 2 := by decide
  have h0 : "".length = 0 := by decide
  omega

theorem joinContext_empty (c : String) : joinContext "" c = c := by
  simp [joinContext]

theorem joinContext_of_ne {a : String} (c : String) (h : a ≠ "") :
    joinContext a c = a ++ "\n\n" ++ c := by
  simp [joinContext, h]

/-- The accumulation of the three context sources, as the code performs it. -/
theorem context_chain (l g p : Option String) :
    (match truthyStr p with
      | some c =>
        joinContext
          (match truthyStr g with
            | some c => joinContext (match truthyStr l with | some c => c | none => "") c
            | none => (match truthyStr l with | some c => c | none => "")) c
      | none =>
        (match truthyStr g with
          | some c => joinContext (match truthyStr l with | some c => c | none => "") c
          | none => (match truthyStr l with | some c => c | none => "")))
      = joinBlankLine (nonEmptyValues [l, g, p]) := by
  rcases hl : truthyStr l with _ | a <;> rcases hg : truthyStr g with _ | b <;>
    rcases hp : truthyStr p with _ | c <;>
    simp only [nonEmptyValues, List.filterMap, hl, hg, hp, joinBlankLine, joinContext_empty]
  · exact joinContext_of_ne _ (truthyStr_some_ne hg)
  · exact joinContext_of_ne _ (truthyStr_some_ne hl)
  · exact joinContext_of_ne _ (truthyStr_some_ne hl)
  · rw [joinContext_of_ne _ (truthyStr_some_ne hl), joinContext_of_ne _ (append_sep_ne_empty a b)]
    simp [String.append_assoc]

theorem applyAgentOverlay_role (ao : AgentOverlay) (r : ResolvedAgent) :
    (applyAgentOverlay ao r).role =
      match truthyStr ao.roleOverride with
      | some x => x
      | none => r.role := by
  unfold applyAgentOverlay
  cases truthyStr ao.roleOverride <;> cases truthyStr ao.modelOverride <;>
    cases ao.expertiseOverride <;> cases ao.expertiseAppend <;>
    cases truthyStr ao.additionalContext <;> cases ao.templatePatches <;> simp <;>
    (split <;> split <;> rfl)

theorem applyAgentOverlay_model (ao : AgentOverlay) (r : ResolvedAgent) :
    (applyAgentOverlay ao r).model =
      match truthyStr ao.modelOverride with
      | some x => x
      | none => r.model := by
  unfold applyAgentOverlay
  cases truthyStr ao.roleOverride <;> cases truthyStr ao.modelOverride <;>
    cases ao.expertiseOverride <;> cases ao.expertiseAppend <;>
    cases truthyStr ao.additionalContext <;> cases ao.templatePatches <;> simp <;>
    (split <;> split <;> rfl)

theorem applyAgentOverlay_expertise (ao : AgentOverlay) (r : ResolvedAgent) :
    (applyAgentOverlay ao r).expertise =
      match ao.expertiseOverride with
      | some ov => ov
      | none =>
        match ao.expertiseAppend with
        | some ap => r.expertise ++ ap
        | none => r.expertise := by
  unfold applyAgentOverlay
  cases truthyStr ao.roleOverride <;> cases truthyStr ao.modelOverride <;>
    cases ao.expertiseOverride <;> cases ao.expertiseAppend <;>
    cases truthyStr ao.additionalContext <;> cases ao.templatePatches <;> simp <;>
    (split <;> split <;> rfl)

/-! ## Claims about rank and resolver -/

/-- C1: `getRank` returns S exactly from 900 up, A exactly on [800, 900), B exactly on
[700, 800), C exactly on [600, 700) and D exactly below 600, with the ten boundary values of
the specification. -/
theorem getRank_bands (score : Int) :
    (getRank score = "S" ↔ 900 ≤ score) ∧
    (getRank score = "A" ↔ 800 ≤ score ∧ score < 900) ∧
    (getRank score = "B" ↔ 700 ≤ score ∧ score < 800) ∧
    (getRank score = "C" ↔ 600 ≤ score ∧ score < 700) ∧
    (getRank score = "D" ↔ score < 600) ∧
    getRank 900 = "S" ∧ getRank 899 = "A" ∧ getRank 800 = "A" ∧ getRank 799 = "B" ∧
    getRank 700 = "B" ∧ getRank 699 = "C" ∧ getRank 600 = "C" ∧ getRank 599 = "D" ∧
    getRank 0 = "D" ∧ getRank 1000 = "S" := by
  refine ⟨?_, ?_, ?_, ?_, ?_, by decide, by decide, by decide, by decide, by decide,
    by decide, by decide, by decide, by decide, by decide⟩ <;>
  · unfold getRank
    split_ifs <;> constructor <;> intro h <;> first
      | omega
      | rfl
      | (exact absurd h (by decide))

theorem applyCustomizations_fields (c : Customizations) (r : ResolvedAgent) :
    (applyCustomizations c r).role =
        (match truthyStr c.role with | some x => x | none => r.role) ∧
    (applyCustomizations c r).expertise =
        (match c.expertise with | some e => e | none => r.expertise) ∧
    (applyCustomizations c r).model = r.model ∧
    (applyCustomizations c r).additionalContext =
        (match truthyStr c.additionalContext with | some x => x | none => r.additionalContext) ∧
    (applyCustomizations c r).templatePatches = r.templatePatches := by
  unfold applyCustomizations
  cases truthyStr c.role <;> cases c.expertise <;> cases truthyStr c.additionalContext <;>
    simp

theorem applyGlobalContext_fields (o : Overlay) (r : ResolvedAgent) :
    (applyGlobalContext o r).role = r.role ∧
    (applyGlobalContext o r).expertise = r.expertise ∧
    (applyGlobalContext o r).model = r.model ∧
    (applyGlobalContext o r).additionalContext =
        (match truthyStr (globalContext (some o)) with
          | some g => joinContext r.additionalContext g
          | none => r.additionalContext) ∧
    (applyGlobalContext o r).templatePatches = r.templatePatches := by
  have hg : globalContext (some o) = o.globalOverrides.bind fun g => g.additionalContext := by
    rcases o with ⟨g, ags⟩
    cases g <;> rfl
  unfold applyGlobalContext
  rw [hg]
  cases truthyStr (o.globalOverrides.bind fun g => g.additionalContext) <;> simp

theorem agentEntry_some (o : Overlay) (agentName : String) :
    agentEntry (some o) agentName = o.agents.bind fun agents => agents.lookup agentName := by
  rcases o with ⟨g, ags⟩
  cases ags <;> rfl

/-- C2: the resolved additional context is the non-empty values among the legacy context, the
overlay's global context and the per-agent overlay context, in that order, joined by a blank
line with no separator at either end; the specification's example resolves to
"proj ctx\n\nglobal\n\nagent ctx". -/
theorem resolveAgent_additionalContext (agent : Agent) (agentName : String)
    (overlay : Option Overlay) (customizations : Customizations) :
    (resolveAgent agent agentName overlay customizations).additionalContext =
      joinBlankLine (nonEmptyValues
        [legacyContext customizations, globalContext overlay,
          (agentEntry overlay agentName).bind fun e => e.additionalContext]) ∧
    (resolveAgent ⟨"role", ["CSS"], "sonnet"⟩ "jin"
      (some ⟨some ⟨some "global"⟩,
        some [("jin", ⟨none, none, none, none, some "agent ctx", none⟩)]⟩)
      ⟨none, none, some "proj ctx"⟩).additionalContext = "proj ctx\n\nglobal\n\nagent ctx" := by
  refine ⟨?_, by decide⟩
  rw [← context_chain]
  rcases overlay with _ | o
  · simp only [resolveAgent, (applyCustomizations_fields _ _).2.2.2.1, legacyContext,
      globalContext, agentEntry, Option.bind, truthyStr, baseResolved]
  · simp only [resolveAgent, ← agentEntry_some]
    cases agentEntry (some o) agentName with
    | none =>
      simp only [(applyGlobalContext_fields _ _).2.2.2.1,
        (applyCustomizations_fields _ _).2.2.2.1, legacyContext, Option.bind, truthyStr,
        baseResolved]
    | some ao =>
      simp only [applyAgentOverlay_additionalContext, (applyGlobalContext_fields _ _).2.2.2.1,
        (applyCustomizations_fields _ _).2.2.2.1, legacyContext, Option.bind, baseResolved]

/-- C3: the resolved expertise is the per-agent overlay's `expertiseOverride` when present
(also when `expertiseAppend` is present too), otherwise the accumulated list followed by
`expertiseAppend` when that is present, otherwise the accumulated list, which is the legacy
expertise when present and the base expertise otherwise; override ["X"] with append ["Y"]
resolves to exactly ["X"]. -/
theorem resolveAgent_expertise (agent : Agent) (agentName : String)
    (overlay : Option Overlay) (customizations : Customizations) :
    (resolveAgent agent agentName overlay customizations).expertise =
      specExpertise agent customizations (agentEntry overlay agentName) ∧
    ∀ (g : Option GlobalOverrides) (role model ctx : Option String)
      (patches : Option OverlayPatches),
      (resolveAgent agent agentName
        (some ⟨g, some [(agentName, ⟨role, model, some ["X"], some ["Y"], ctx, patches⟩)]⟩)
        customizations).expertise = ["X"] := by
  have main : ∀ (overlay : Option Overlay),
      (resolveAgent agent agentName overlay customizations).expertise =
        specExpertise agent customizations (agentEntry overlay agentName) := by
    intro overlay
    rcases overlay with _ | o
    · simp only [resolveAgent, (applyCustomizations_fields _ _).2.1, specExpertise, agentEntry,
        Option.bind, baseResolved]
    · simp only [resolveAgent, ← agentEntry_some]
      cases agentEntry (some o) agentName with
      | none =>
        simp only [(applyGlobalContext_fields _ _).2.1, (applyCustomizations_fields _ _).2.1,
          specExpertise, Option.bind, baseResolved]
      | some ao =>
        simp only [applyAgentOverlay_expertise, (applyGlobalContext_fields _ _).2.1,
          (applyCustomizations_fields _ _).2.1, specExpertise, Option.bind, baseResolved]
  refine ⟨main overlay, ?_⟩
  intro g role model ctx patches
  rw [main]
  simp [specExpertise, agentEntry, List.lookup]

/-- C4: the resolved role is the overlay `roleOverride` if set, else the legacy role if set,
else the base role; the resolved model is the overlay `modelOverride` if set, else the base
recommended model, whatever the legacy customization holds; with no overlay and an empty
customization the result is the base role, the base expertise, the base recommended model, an
empty additional context and empty patches. -/
theorem resolveAgent_role_model (agent : Agent) (agentName : String)
    (overlay : Option Overlay) (customizations : Customizations) :
    (resolveAgent agent agentName overlay customizations).role =
      specRole agent customizations (agentEntry overlay agentName) ∧
    (resolveAgent agent agentName overlay customizations).model =
      specModel agent (agentEntry overlay agentName) ∧
    resolveAgent agent agentName none ⟨none, none, none⟩ =
      { role := agent.role
        expertise := agent.expertise
        model := agent.recommendedModel
        additionalContext := ""
        templatePatches := { prepend := "", append := "" } } := by
  refine ⟨?_, ?_, rfl⟩
  · rcases overlay with _ | o
    · simp only [resolveAgent, (applyCustomizations_fields _ _).1, specRole, agentEntry,
        Option.bind, truthyStr, baseResolved]
    · simp only [resolveAgent, ← agentEntry_some]
      cases agentEntry (some o) agentName with
      | none =>
        simp only [(applyGlobalContext_fields _ _).1, (applyCustomizations_fields _ _).1,
          specRole, Option.bind, truthyStr, baseResolved]
      | some ao =>
        simp only [applyAgentOverlay_role, (applyGlobalContext_fields _ _).1,
          (applyCustomizations_fields _ _).1, specRole, Option.bind, baseResolved]
  · rcases overlay with _ | o
    · simp only [resolveAgent, (applyCustomizations_fields _ _).2.2.1, specModel, agentEntry,
        Option.bind, truthyStr, baseResolved]
    · simp only [resolveAgent, ← agentEntry_some]
      cases agentEntry (some o) agentName with
      | none =>
        simp only [(applyGlobalContext_fields _ _).2.2.1,
          (applyCustomizations_fields _ _).2.2.1, specModel, Option.bind, truthyStr,
          baseResolved]
      | some ao =>
        simp only [applyAgentOverlay_model, (applyGlobalContext_fields _ _).2.2.1,
          (applyCustomizations_fields _ _).2.2.1, specModel, Option.bind, baseResolved]

/-- C8: `applyTemplatePatches` returns P, blank line, B, blank line, A when both patches are
non-empty, P, blank line, B when only the prepend is non-empty, B, blank line, A when only the
append is non-empty, and B unchanged when both are empty or the patches object is absent;
prepend "P" and append "A" on "B" give "P\n\nB\n\nA". -/
theorem applyTemplatePatches_cases (B P A : String) :
    applyTemplatePatches B (some ⟨P, A⟩) =
      (if P ≠ "" ∧ A ≠ "" then P ++ "\n\n" ++ B ++ "\n\n" ++ A
       else if P ≠ "" then P ++ "\n\n" ++ B
       else if A ≠ "" then B ++ "\n\n" ++ A
       else B) ∧
    applyTemplatePatches B none = B ∧
    applyTemplatePatches "B" (some ⟨"P", "A"⟩) = "P\n\nB\n\nA" := by
  refine ⟨?_, rfl, by decide⟩
  unfold applyTemplatePatches
  by_cases hP : P = "" <;> by_cases hA : A = "" <;> simp [hP, hA]


/-! ## Template engine: scan lemmas -/

theorem getSubstitution_no_dollar (m b a : List Char) (v : List Char) (h : '$' ∉ v) :
    getSubstitution m b a false v = v := by
  induction v with
  | nil => rfl
  | cons c rest ih =>
    have hc : c ≠ '$' := fun e => h (e ▸ List.mem_cons_self _ _)
    have hr : '$' ∉ rest := fun e => h (List.mem_cons_of_mem _ e)
    simp [getSubstitution, hc, ih hr]

theorem replaceScan_eq_spliceScan (pat repl : List Char) (h : '$' ∉ repl) :
    ∀ (s pre : List Char) (skip : Nat),
      replaceScan pat repl pre skip s = spliceScan pat repl skip s := by
  intro s
  induction s with
  | nil => intro pre skip; cases skip <;> rfl
  | cons c cs ih =>
    intro pre skip
    cases skip with
    | succ k => simp only [replaceScan, spliceScan, ih]
    | zero =>
      simp only [replaceScan, spliceScan, ih, getSubstitution_no_dollar _ _ _ _ h]

theorem replaceScan_no_match (pat repl : List Char) :
    ∀ (s pre : List Char), ¬ pat <:+: s → replaceScan pat repl pre 0 s = s := by
  intro s
  induction s with
  | nil => intro pre _; rfl
  | cons c cs ih =>
    intro pre h
    have h1 : pat.isPrefixOf (c :: cs) = false := by
      cases hp : pat.isPrefixOf (c :: cs) with
      | false => rfl
      | true => exact absurd (List.isPrefixOf_iff_prefix.mp hp).isInfix h
    have h2 : ¬ pat <:+: cs := fun e => h (e.trans (List.suffix_cons c cs).isInfix)
    simp only [replaceScan, h1, ih _ h2]
    simp
/-! ## Claims about the template engine -/

theorem replacePlaceholder_no_match (result key : String) (value : Option String)
    (h : ¬ placeholder key <:+: result.data) : replacePlaceholder result key value = result := by
  unfold replacePlaceholder
  rw [replaceScan_no_match _ _ _ _ h]

theorem replacePlaceholder_no_dollar (result key v : String) (h : '$' ∉ v.data) :
    replacePlaceholder result key (some v) = spliceTokens result key v := by
  unfold replacePlaceholder spliceTokens
  rw [Option.getD_some, replaceScan_eq_spliceScan _ _ h]

/-- C5: at the value "$&" the code does not insert the characters of the value: the
placeholder is replaced by the matched text, so the template comes back unchanged, where
replacing the token by the characters of the value gives "Hello $&"; likewise the value "$$"
is inserted as a single dollar sign. The example of the specification holds. -/
theorem substituteVariables_dollar_divergence :
    substituteVariables "Hello \x7b\x7bNAME\x7d\x7d" [("NAME", some "$&")]
      = "Hello \x7b\x7bNAME\x7d\x7d" ∧
    spliceTokens "Hello \x7b\x7bNAME\x7d\x7d" "NAME" "$&" = "Hello $&" ∧
    substituteVariables "Cost: \x7b\x7bPRICE\x7d\x7d" [("PRICE", some "$$5")] = "Cost: $5" ∧
    spliceTokens "Cost: \x7b\x7bPRICE\x7d\x7d" "PRICE" "$$5" = "Cost: $$5" ∧
    identLike "NAME" = true ∧ identLike "PRICE" = true ∧
    substituteVariables "Hello \x7b\x7bNAME\x7d\x7d, stack: \x7b\x7bSTACK\x7d\x7d"
      [("NAME", some "Jin"), ("STACK", some "")] = "Hello Jin, stack: " := by
  decide

/-! ## Template engine: a placeholder of another key survives a pass -/

theorem identLike_no_brace (k : String) (h : identLike k = true) :
    '\x7b' ∉ k.data ∧ '\x7d' ∉ k.data := by
  unfold identLike at h
  rw [List.all_eq_true] at h
  constructor
  · intro hm
    exact absurd (h _ hm) (by decide)
  · intro hm
    exact absurd (h _ hm) (by decide)

theorem prefix_close_eq (K O r1 r2 : List Char) (hK : '\x7d' ∉ K) (hO : '\x7d' ∉ O)
    (h : K ++ '\x7d' :: r1 <+: O ++ '\x7d' :: r2) : K = O := by
  induction K generalizing O with
  | nil =>
    cases O with
    | nil => rfl
    | cons x O' =>
      exfalso
      simp only [List.nil_append, List.cons_append] at h
      have := (List.cons_prefix_cons.mp h).1
      exact hO (this ▸ List.mem_cons_self _ _)
  | cons y K' ih =>
    cases O with
    | nil =>
      exfalso
      simp only [List.nil_append, List.cons_append] at h
      have := (List.cons_prefix_cons.mp h).1
      exact hK (this ▸ List.mem_cons_self _ _)
    | cons x O' =>
      simp only [List.cons_append] at h
      obtain ⟨e, h'⟩ := List.cons_prefix_cons.mp h
      rw [e, ih O' (fun m => hK (List.mem_cons_of_mem _ m))
        (fun m => hO (List.mem_cons_of_mem _ m)) h']

/-- A prefix agrees with the list at every position: an element of the list at a position
inside the prefix is an element of the prefix. -/
theorem prefix_mem_at (l u : List Char) (c : Char) (rest : List Char)
    (h : l <+: u ++ c :: rest) (hlen : u.length < l.length) : c ∈ l := by
  induction u generalizing l with
  | nil =>
    cases l with
    | nil => simp at hlen
    | cons x l' =>
      simp only [List.nil_append] at h
      rw [(List.cons_prefix_cons.mp h).1]
      exact List.mem_cons_self _ _
  | cons y u' ih =>
    cases l with
    | nil => simp at hlen
    | cons x l' =>
      simp only [List.cons_append] at h
      exact List.mem_cons_of_mem _
        (ih l' (List.cons_prefix_cons.mp h).2 (by simpa using hlen))

theorem not_brace_mem_tail (K : List Char) (hK : '\x7b' ∉ K) :
    '\x7b' ∉ K ++ ['\x7d', '\x7d'] := by
  intro hm
  rcases List.mem_append.mp hm with h | h
  · exact hK h
  · simp at h

/-- A match of the pattern of key `k` that starts before an occurrence of the placeholder of
another key `o` ends before that occurrence; no match starts at its first character. -/
theorem no_overlap (k o : String) (hk : identLike k = true) (ho : identLike o = true)
    (hne : k ≠ o) (u w : List Char) (h : placeholder k <+: u ++ placeholder o ++ w) :
    (placeholder k).length ≤ u.length := by
  by_contra hlt
  push_neg at hlt
  obtain ⟨hk1, hk2⟩ := identLike_no_brace k hk
  obtain ⟨_, ho2⟩ := identLike_no_brace o ho
  unfold placeholder at h hlt
  simp only [List.cons_append, List.nil_append, List.append_assoc, List.length_cons,
    List.length_append, List.length_nil] at h hlt
  match u, h, hlt with
  | [], h, _ =>
    simp only [List.nil_append] at h
    have h2 := (List.cons_prefix_cons.mp (List.cons_prefix_cons.mp h).2).2
    have := prefix_close_eq k.data o.data _ _ hk2 ho2 h2
    exact hne (String.ext this)
  | [c], h, _ =>
    simp only [List.cons_append, List.nil_append] at h
    have h2 := (List.cons_prefix_cons.mp (List.cons_prefix_cons.mp h).2).2
    have := prefix_mem_at (k.data ++ ['\x7d', '\x7d']) [] '\x7b' _ h2 (by simp)
    exact not_brace_mem_tail _ hk1 this
  | c1 :: c2 :: u', h, hlt =>
    simp only [List.cons_append] at h
    have h2 := (List.cons_prefix_cons.mp (List.cons_prefix_cons.mp h).2).2
    have := prefix_mem_at (k.data ++ ['\x7d', '\x7d']) u' '\x7b' _ h2 (by
      simp only [List.length_cons, List.length_append, List.length_nil] at hlt ⊢
      omega)
    exact not_brace_mem_tail _ hk1 this

/-- No match of the pattern of key `k` starts inside the placeholder of a key `o`. -/
theorem no_match_inside (k o : String) (ho : identLike o = true)
    (t1 t2 w : List Char) (htok : placeholder o = t1 ++ t2) (h1 : t1 ≠ []) (h2 : t2 ≠ [])
    (h : placeholder k <+: t2 ++ w) : False := by
  obtain ⟨ho1, _⟩ := identLike_no_brace o ho
  have hO := not_brace_mem_tail _ ho1
  unfold placeholder at h htok
  simp only [List.cons_append, List.nil_append, List.append_assoc] at h htok
  match t1, h1, htok with
  | [c], _, htok =>
    simp only [List.cons_append, List.nil_append] at htok
    have e := (List.cons.inj htok).2
    rw [← e] at h
    simp only [List.cons_append] at h
    have h3 := (List.cons_prefix_cons.mp h).2
    cases hOd : o.data with
    | nil =>
      rw [hOd] at h3
      simp only [List.nil_append, List.cons_append] at h3
      exact absurd (List.cons_prefix_cons.mp h3).1 (by decide)
    | cons y O' =>
      rw [hOd] at h3
      simp only [List.cons_append] at h3
      have := (List.cons_prefix_cons.mp h3).1
      exact ho1 (by rw [hOd, this]; exact List.mem_cons_self _ _)
  | c1 :: c2 :: t1', _, htok =>
    simp only [List.cons_append] at htok
    have e := (List.cons.inj (List.cons.inj htok).2).2
    match t2, h2, h, e with
    | x :: t2', _, h, e =>
      simp only [List.cons_append] at h
      have hx := (List.cons_prefix_cons.mp h).1
      apply hO
      have : x ∈ o.data ++ ['\x7d', '\x7d'] := by
        have e' : o.data ++ ['\x7d', '\x7d'] = t1' ++ x :: t2' := by simpa using e
        rw [e']
        simp
      rw [hx]
      exact this

theorem replaceScan_zero_cons (pat repl pre : List Char) (c : Char) (cs : List Char) :
    replaceScan pat repl pre 0 (c :: cs) =
      if pat.isPrefixOf (c :: cs) then
        getSubstitution pat pre ((c :: cs).drop pat.length) false repl
          ++ replaceScan pat repl (pre ++ [c]) (pat.length - 1) cs
      else c :: replaceScan pat repl (pre ++ [c]) 0 cs := rfl

theorem replaceScan_succ_cons (pat repl pre : List Char) (k : Nat) (c : Char)
    (cs : List Char) :
    replaceScan pat repl pre (k + 1) (c :: cs) = replaceScan pat repl (pre ++ [c]) k cs := rfl

theorem scan_through_token (pat repl tok w : List Char)
    (hno : ∀ t1 t2, tok = t1 ++ t2 → t2 ≠ [] → ¬ pat <+: t2 ++ w) :
    ∀ (t2 t1 pre : List Char), tok = t1 ++ t2 →
      replaceScan pat repl pre 0 (t2 ++ w) = t2 ++ replaceScan pat repl (pre ++ t2) 0 w := by
  intro t2
  induction t2 with
  | nil => intro t1 pre _; simp
  | cons c t2' ih =>
    intro t1 pre htok
    have hp : pat.isPrefixOf (c :: (t2' ++ w)) = false := by
      cases hb : pat.isPrefixOf (c :: (t2' ++ w)) with
      | false => rfl
      | true =>
        exact absurd (List.isPrefixOf_iff_prefix.mp hb) (hno t1 (c :: t2') htok (by simp))
    rw [List.cons_append, replaceScan_zero_cons, hp]
    rw [if_neg (by simp), ih (t1 ++ [c]) (pre ++ [c]) (by simpa using htok)]
    simp

theorem scan_keeps_token (pat repl tok w : List Char)
    (hno : ∀ t1 t2, tok = t1 ++ t2 → t2 ≠ [] → ¬ pat <+: t2 ++ w)
    (hov : ∀ u, pat <+: u ++ tok ++ w → pat.length ≤ u.length) :
    ∀ (u pre : List Char) (skip : Nat), skip ≤ u.length →
      tok <:+: replaceScan pat repl pre skip (u ++ tok ++ w) := by
  intro u
  induction u with
  | nil =>
    intro pre skip hs
    have h0 : skip = 0 := by simpa using hs
    subst h0
    rw [List.nil_append, scan_through_token pat repl tok w hno tok [] pre (by simp)]
    exact (List.prefix_append _ _).isInfix
  | cons c u' ih =>
    intro pre skip hs
    cases skip with
    | succ k =>
      rw [List.cons_append, List.cons_append, replaceScan_succ_cons]
      have := ih (pre ++ [c]) k (by simpa using hs)
      simpa using this
    | zero =>
      rw [List.cons_append, List.cons_append, replaceScan_zero_cons]
      split_ifs with hp
      · have hlen := hov (c :: u') (by
          have := List.isPrefixOf_iff_prefix.mp hp
          simpa using this)
        have := ih (pre ++ [c]) (pat.length - 1) (by
          simp only [List.length_cons] at hlen
          omega)
        exact List.IsInfix.trans (by simpa using this) (List.suffix_append _ _).isInfix
      · have := ih (pre ++ [c]) 0 (Nat.zero_le _)
        exact List.IsInfix.trans (by simpa using this) (List.suffix_cons _ _).isInfix

/-- One pass for key `k` keeps an occurrence of the placeholder of another key `o`. -/
theorem replacePlaceholder_keeps (result k o : String) (v : Option String)
    (hk : identLike k = true) (ho : identLike o = true) (hne : k ≠ o)
    (h : placeholder o <:+: result.data) :
    placeholder o <:+: (replacePlaceholder result k v).data := by
  obtain ⟨u, w, e⟩ := h
  unfold replacePlaceholder
  simp only
  rw [← e]
  apply scan_keeps_token
  · intro t1 t2 htok ht2 hpre
    rcases t1 with _ | ⟨c, t1'⟩
    · have e2 : t2 = placeholder o := by simpa using htok.symm
      rw [e2] at hpre
      have := no_overlap k o hk ho hne [] w (by simpa using hpre)
      simp [placeholder] at this
    · exact no_match_inside k o ho (c :: t1') t2 w htok (by simp) ht2 hpre
  · intro u' hpre
    exact no_overlap k o hk ho hne u' w hpre
  · exact Nat.zero_le _

theorem substituteVariables_keeps (o : String) (ho : identLike o = true) :
    ∀ (vars : List (String × Option String)) (template : String),
      (∀ kv ∈ vars, identLike kv.1 = true) → (∀ kv ∈ vars, kv.1 ≠ o) →
      placeholder o <:+: template.data →
      placeholder o <:+: (substituteVariables template vars).data := by
  intro vars
  induction vars with
  | nil => intro template _ _ h; exact h
  | cons kv rest ih =>
    intro template hkeys hne h
    unfold substituteVariables
    rw [List.foldl_cons]
    exact ih _ (fun kv h => hkeys kv (List.mem_cons_of_mem _ h))
      (fun kv h => hne kv (List.mem_cons_of_mem _ h))
      (replacePlaceholder_keeps template kv.1 o kv.2 (hkeys kv (List.mem_cons_self _ _)) ho
        (hne kv (List.mem_cons_self _ _)) h)

/-- C6: for a map with identifier-like keys, when no key of the map has its placeholder in the
template, `substituteVariables` returns the template unchanged; and a placeholder of an
identifier-like key that is not in the map, present in the template, is present in the
output. -/
theorem substituteVariables_frame (template : String)
    (vars : List (String × Option String))
    (hkeys : ∀ kv ∈ vars, identLike kv.1 = true) :
    ((∀ kv ∈ vars, ¬ placeholder kv.1 <:+: template.data) →
      substituteVariables template vars = template) ∧
    (∀ other : String, identLike other = true → (∀ kv ∈ vars, kv.1 ≠ other) →
      placeholder other <:+: template.data →
      placeholder other <:+: (substituteVariables template vars).data) := by
  refine ⟨?_, fun other ho hne h => substituteVariables_keeps other ho vars template hkeys hne h⟩
  clear hkeys
  unfold substituteVariables
  induction vars with
  | nil => intro _; rfl
  | cons kv rest ih =>
    intro hno
    rw [List.foldl_cons, replacePlaceholder_no_match _ _ _ (hno kv (List.mem_cons_self _ _))]
    exact ih fun kv h => hno kv (List.mem_cons_of_mem _ h)

theorem substituteVariables_frame_witness :
    substituteVariables "Hello \x7b\x7bOTHER\x7d\x7d" [("NAME", some "Jin"), ("STACK", none)]
      = "Hello \x7b\x7bOTHER\x7d\x7d" ∧
    placeholder "OTHER" <:+:
      (substituteVariables "\x7b\x7bNAME\x7d\x7d and \x7b\x7bOTHER\x7d\x7d"
        [("NAME", some "Jin"), ("STACK", none)]).data :=
  ⟨(substituteVariables_frame "Hello \x7b\x7bOTHER\x7d\x7d"
      [("NAME", some "Jin"), ("STACK", none)] (by decide)).1 (by decide),
    (substituteVariables_frame "\x7b\x7bNAME\x7d\x7d and \x7b\x7bOTHER\x7d\x7d"
      [("NAME", some "Jin"), ("STACK", none)] (by decide)).2 "OTHER" (by decide) (by decide)
      (by decide)⟩

/-- C7 (as stated, refuted): with the entry of `A` before the entry of `B`, a placeholder of
`B` that occurs only inside the value of `A` is replaced by the value of `B`: the pass for `B`
scans the text that the pass for `A` inserted. -/
theorem substituteVariables_scans_inserted_value :
    identLike "A" = true ∧ identLike "B" = true ∧
    placeholder "A" <:+: "\x7b\x7bA\x7d\x7d".data ∧
    ¬ placeholder "B" <:+: "\x7b\x7bA\x7d\x7d".data ∧
    placeholder "B" <:+: "\x7b\x7bB\x7d\x7d".data ∧
    substituteVariables "\x7b\x7bA\x7d\x7d"
      [("A", some "\x7b\x7bB\x7d\x7d"), ("B", some "x")] = "x" ∧
    ¬ placeholder "B" <:+:
      (substituteVariables "\x7b\x7bA\x7d\x7d"
        [("A", some "\x7b\x7bB\x7d\x7d"), ("B", some "x")]).data := by
  decide

theorem spliceScan_contains (tok v : List Char) :
    ∀ s : List Char, tok <:+: s → tok ≠ [] → v <:+: spliceScan tok v 0 s := by
  intro s
  induction s with
  | nil =>
    intro h hne
    exact absurd (List.eq_nil_of_infix_nil h) hne
  | cons c cs ih =>
    intro h hne
    unfold spliceScan
    split_ifs with hp
    · exact (List.prefix_append _ _).isInfix
    · rcases List.infix_cons_iff.mp h with hpre | hin
      · exact absurd (List.isPrefixOf_iff_prefix.mpr hpre) hp
      · exact List.IsInfix.trans (ih hin hne) (List.suffix_cons _ _).isInfix

/-- C7 (amended): `substituteVariables` makes one replacement pass per entry of the map, in
the order of the entries, each over the result of the previous pass. A pass does not scan the
text it inserts: for a value without a dollar sign the pass for `A` yields the template with
each placeholder of `A` replaced by the value, so a value holding its own placeholder is
inserted as it is. When the placeholder of `B` is absent from the template and the entry of
`B` comes before the entry of `A`, the pass for `B` changes nothing, and a value of `A`
without a dollar sign appears in the output as it is, with the placeholders it holds. -/
theorem substituteVariables_pass_per_entry (template A B : String) (vA vB : Option String)
    (_hA : identLike A = true) (_hB : identLike B = true)
    (hno : ¬ placeholder B <:+: template.data) :
    (∀ (vars : List (String × Option String)) (k : String) (v : Option String),
      substituteVariables template (vars ++ [(k, v)]) =
        replacePlaceholder (substituteVariables template vars) k v) ∧
    (∀ v : String, '$' ∉ v.data →
      substituteVariables template [(A, some v)] = spliceTokens template A v) ∧
    substituteVariables template [(B, vB), (A, vA)] = substituteVariables template [(A, vA)] ∧
    (∀ v : String, '$' ∉ v.data → placeholder A <:+: template.data →
      v.data <:+: (substituteVariables template [(B, vB), (A, some v)]).data) ∧
    substituteVariables "\x7b\x7bA\x7d\x7d" [("A", some "\x7b\x7bA\x7d\x7d")]
      = "\x7b\x7bA\x7d\x7d" ∧
    substituteVariables "\x7b\x7bA\x7d\x7d" [("B", some "x"), ("A", some "\x7b\x7bB\x7d\x7d")]
      = "\x7b\x7bB\x7d\x7d" := by
  refine ⟨?_, ?_, ?_, ?_, by decide, by decide⟩
  · intro vars k v
    simp [substituteVariables, List.foldl_append]
  · intro v hv
    simp only [substituteVariables, List.foldl_cons, List.foldl_nil]
    exact replacePlaceholder_no_dollar template A v hv
  · simp only [substituteVariables, List.foldl_cons, List.foldl_nil]
    rw [replacePlaceholder_no_match template B vB hno]
  · intro v hv hin
    simp only [substituteVariables, List.foldl_cons, List.foldl_nil]
    rw [replacePlaceholder_no_match template B vB hno, replacePlaceholder_no_dollar template A v hv]
    exact spliceScan_contains _ _ _ hin (by simp [placeholder])

theorem substituteVariables_pass_per_entry_witness :
    "\x7b\x7bB\x7d\x7d".data <:+:
      (substituteVariables "Hi \x7b\x7bA\x7d\x7d"
        [("B", some "x"), ("A", some "\x7b\x7bB\x7d\x7d")]).data :=
  (substituteVariables_pass_per_entry "Hi \x7b\x7bA\x7d\x7d" "A" "B"
    (some "\x7b\x7bB\x7d\x7d") (some "x") (by decide) (by decide) (by decide)).2.2.2.1
    "\x7b\x7bB\x7d\x7d" (by decide) (by decide)


/-! ## Score ledger: lemmas -/

theorem lookup_setProperty {α : Type} (obj : List (String × α)) (key : String) (v w : α)
    (h : obj.lookup key = some v) : (setProperty obj key w).lookup key = some w := by
  induction obj with
  | nil => simp [List.lookup] at h
  | cons kv rest ih =>
    obtain ⟨k, x⟩ := kv
    by_cases hk : key = k
    · subst hk
      simp [setProperty, List.lookup]
    · have hb : (key == k) = false := by simpa using hk
      simp only [List.lookup, hb] at h
      simp only [setProperty, hb, List.lookup]
      simpa using ih h

theorem getProperty_own {α : Type} (obj : List (String × α)) (key : String) (v : α)
    (h : obj.lookup key = some v) : getProperty obj key = .own v := by
  simp [getProperty, h]

theorem applyFeedback_saved (metrics : MetricsConfig) (scores : Scores)
    (agentName type description : String) (now : Int) (agent : AgentRecord)
    (cfg : FeedbackConfig)
    (hagent : scores.agents.lookup agentName = some agent)
    (hcfg : metrics.feedbackScoring.lookup type = some cfg) :
    applyFeedback metrics scores agentName type description now =
      .saved
        { scores with
          lastUpdated := now
          agents := setProperty scores.agents agentName
            (feedbackRecord cfg type description now agent) } := by
  simp [applyFeedback, getProperty_own _ _ _ hagent, getProperty_own _ _ _ hcfg]

/-- The record that a saved outcome holds for an agent. -/
theorem applyFeedback_record (metrics : MetricsConfig) (scores : Scores)
    (agentName type description : String) (now : Int) (agent : AgentRecord)
    (cfg : FeedbackConfig)
    (hagent : scores.agents.lookup agentName = some agent)
    (hcfg : metrics.feedbackScoring.lookup type = some cfg) :
    ∃ scores', applyFeedback metrics scores agentName type description now = .saved scores' ∧
      scores'.agents.lookup agentName = some (feedbackRecord cfg type description now agent) :=
  ⟨_, applyFeedback_saved metrics scores agentName type description now agent cfg hagent hcfg,
    lookup_setProperty _ _ _ _ hagent⟩

/-- C9: for a record of the document and a configured feedback type with score delta `d`,
`applyFeedback` saves the record with total score `max(0, min(1000, old + d))`, which lies in
[0, 1000]; applying `excellent` (+30) twice to a score of 990 gives 1000 both times. -/
theorem applyFeedback_totalScore (metrics : MetricsConfig) (scores : Scores)
    (agentName type description : String) (now : Int) (agent : AgentRecord)
    (cfg : FeedbackConfig)
    (hagent : scores.agents.lookup agentName = some agent)
    (hcfg : metrics.feedbackScoring.lookup type = some cfg) :
    (∃ agent',
      recordAfter (applyFeedback metrics scores agentName type description now) agentName
        = some agent' ∧
      agent'.totalScore = max 0 (min 1000 (agent.totalScore + cfg.scoreChange)) ∧
      0 ≤ agent'.totalScore ∧ agent'.totalScore ≤ 1000) ∧
    ((recordAfter (applyFeedback usageMetrics exampleScores "정국" "excellent" "" 0) "정국").map
        fun r => r.totalScore) = some 1000 ∧
    (((savedScores (applyFeedback usageMetrics exampleScores "정국" "excellent" "" 0)).bind
        fun once => recordAfter (applyFeedback usageMetrics once "정국" "excellent" "" 0) "정국").map
        fun r => r.totalScore) = some 1000 := by
  refine ⟨⟨feedbackRecord cfg type description now agent, ?_, rfl, ?_, ?_⟩, by decide, by decide⟩
  · rw [applyFeedback_saved metrics scores agentName type description now agent cfg hagent hcfg]
    exact lookup_setProperty _ _ _ _ hagent
  · exact le_max_left _ _
  · exact max_le (by norm_num) (min_le_left _ _)

theorem applyFeedback_totalScore_witness :
    ∃ agent',
      recordAfter (applyFeedback usageMetrics exampleScores "정국" "failure" "" 0) "정국"
        = some agent' ∧
      agent'.totalScore = max 0 (min 1000 (990 + -20)) ∧
      0 ≤ agent'.totalScore ∧ agent'.totalScore ≤ 1000 :=
  (applyFeedback_totalScore usageMetrics exampleScores "정국" "failure" "" 0
    { initialRecord usageMetrics (some "sonnet") 0 with totalScore := 990, rank := "S" }
    ⟨-20, "작업 실패"⟩ rfl (by decide)).1

/-! ## Binary64 rounding: lemmas -/

theorem ilog2Fuel_spec : ∀ (fuel n : Nat), n ≤ fuel → n ≠ 0 →
    2 ^ ilog2Fuel fuel n ≤ n ∧ n < 2 ^ (ilog2Fuel fuel n + 1) := by
  intro fuel
  induction fuel with
  | zero => intro n h h0; omega
  | succ f ih =>
    intro n h h0
    unfold ilog2Fuel
    split_ifs with h2
    · have := ih (n / 2) (by omega) (by omega)
      rw [pow_succ, pow_succ]
      omega
    · simp; omega

theorem ilog2_le (n : Nat) (h : n ≠ 0) : 2 ^ ilog2 n ≤ n :=
  (ilog2Fuel_spec n n le_rfl h).1

theorem lt_ilog2 (n : Nat) (h : n ≠ 0) : n < 2 ^ (ilog2 n + 1) :=
  (ilog2Fuel_spec n n le_rfl h).2

theorem scale_initial_bounds (n d : Nat) (hn : n ≠ 0) (hd : d ≠ 0) :
    2 ^ 52 * scaleDen d ((ilog2 d : Int) + 53 - (ilog2 n : Int))
        < scaleNum n ((ilog2 d : Int) + 53 - (ilog2 n : Int)) ∧
    scaleNum n ((ilog2 d : Int) + 53 - (ilog2 n : Int))
        < 2 ^ 54 * scaleDen d ((ilog2 d : Int) + 53 - (ilog2 n : Int)) := by
  have ha1 := ilog2_le n hn
  have ha2 := lt_ilog2 n hn
  have hb1 := ilog2_le d hd
  have hb2 := lt_ilog2 d hd
  generalize ilog2 n = a at *
  generalize ilog2 d = b at *
  unfold scaleNum scaleDen
  by_cases h : a ≤ b + 53
  · have e1 : ((b : Int) + 53 - (a : Int)).toNat = b + 53 - a := by omega
    have e2 : (-((b : Int) + 53 - (a : Int))).toNat = 0 := by omega
    rw [e1, e2, pow_zero, mul_one]
    have p1 : 2 ^ a * 2 ^ (b + 53 - a) = 2 ^ 52 * 2 ^ (b + 1) := by
      rw [← pow_add, ← pow_add]; congr 1; omega
    have p2 : 2 ^ (a + 1) * 2 ^ (b + 53 - a) = 2 ^ 54 * 2 ^ b := by
      rw [← pow_add, ← pow_add]; congr 1; omega
    have hpos : 0 < 2 ^ (b + 53 - a) := by positivity
    constructor
    · calc 2 ^ 52 * d < 2 ^ 52 * 2 ^ (b + 1) := by
            exact Nat.mul_lt_mul_of_pos_left hb2 (by positivity)
        _ = 2 ^ a * 2 ^ (b + 53 - a) := p1.symm
        _ ≤ n * 2 ^ (b + 53 - a) := Nat.mul_le_mul_right _ ha1
    · calc n * 2 ^ (b + 53 - a) < 2 ^ (a + 1) * 2 ^ (b + 53 - a) :=
            Nat.mul_lt_mul_of_pos_right ha2 hpos
        _ = 2 ^ 54 * 2 ^ b := p2
        _ ≤ 2 ^ 54 * d := Nat.mul_le_mul_left _ hb1
  · have e1 : ((b : Int) + 53 - (a : Int)).toNat = 0 := by omega
    have e2 : (-((b : Int) + 53 - (a : Int))).toNat = a - (b + 53) := by omega
    rw [e1, e2, pow_zero, mul_one]
    have p1 : 2 ^ a = 2 ^ 52 * (2 ^ (b + 1) * 2 ^ (a - (b + 53))) := by
      rw [← pow_add, ← pow_add]; congr 1; omega
    have p2 : 2 ^ (a + 1) = 2 ^ 54 * (2 ^ b * 2 ^ (a - (b + 53))) := by
      rw [← pow_add, ← pow_add]; congr 1; omega
    have hpos : 0 < 2 ^ (a - (b + 53)) := by positivity
    constructor
    · calc 2 ^ 52 * (d * 2 ^ (a - (b + 53)))
            < 2 ^ 52 * (2 ^ (b + 1) * 2 ^ (a - (b + 53))) :=
            Nat.mul_lt_mul_of_pos_left (Nat.mul_lt_mul_of_pos_right hb2 hpos) (by positivity)
        _ = 2 ^ a := p1.symm
        _ ≤ n := ha1
    · calc n < 2 ^ (a + 1) := ha2
        _ = 2 ^ 54 * (2 ^ b * 2 ^ (a - (b + 53))) := p2
        _ ≤ 2 ^ 54 * (d * 2 ^ (a - (b + 53))) :=
            Nat.mul_le_mul_left _ (Nat.mul_le_mul_right _ hb1)
theorem scaleDen_pos (d : Nat) (k : Int) (hd : d ≠ 0) : 0 < scaleDen d k := by
  unfold scaleDen
  have : 0 < 2 ^ (-k).toNat := by positivity
  exact Nat.mul_pos (Nat.pos_of_ne_zero hd) this

theorem scale_halve (n d : Nat) (k : Int) :
    2 * scaleNum n (k - 1) * scaleDen d k = scaleNum n k * scaleDen d (k - 1) := by
  unfold scaleNum scaleDen
  by_cases h : 1 ≤ k
  · have e1 : k.toNat = (k - 1).toNat + 1 := by omega
    have e2 : (-k).toNat = 0 := by omega
    have e3 : (-(k - 1)).toNat = 0 := by omega
    rw [e1, e2, e3, pow_succ]
    ring
  · have e1 : k.toNat = 0 := by omega
    have e2 : (k - 1).toNat = 0 := by omega
    have e3 : (-(k - 1)).toNat = (-k).toNat + 1 := by omega
    rw [e1, e2, e3, pow_succ]
    ring

theorem scaleExponent_bounds (n d : Nat) (hn : n ≠ 0) (hd : d ≠ 0) :
    2 ^ 52 * scaleDen d (scaleExponent n d) ≤ scaleNum n (scaleExponent n d) ∧
    scaleNum n (scaleExponent n d) < 2 ^ 53 * scaleDen d (scaleExponent n d) := by
  obtain ⟨h1, h2⟩ := scale_initial_bounds n d hn hd
  unfold scaleExponent
  simp only
  generalize (ilog2 d : Int) + 53 - (ilog2 n : Int) = k at *
  have hD0 := scaleDen_pos d k hd
  have hD := scaleDen_pos d (k - 1) hd
  have hrel := scale_halve n d k
  split_ifs with hc
  · rw [Nat.le_div_iff_mul_le hD0] at hc
    generalize scaleNum n (k - 1) = N at *
    generalize scaleDen d (k - 1) = D at *
    generalize scaleNum n k = N0 at *
    generalize scaleDen d k = D0 at *
    constructor
    · by_contra hlt
      push_neg at hlt
      have : 2 * N * D0 < 2 * (2 ^ 52 * D) * D0 :=
        Nat.mul_lt_mul_of_pos_right (Nat.mul_lt_mul_of_pos_left hlt (by norm_num)) hD0
      have h3 : N0 * D < 2 ^ 53 * D0 * D := by
        rw [← hrel]; calc 2 * N * D0 < 2 * (2 ^ 52 * D) * D0 := this
          _ = 2 ^ 53 * D0 * D := by ring
      have := Nat.lt_of_mul_lt_mul_right h3
      omega
    · by_contra hge
      push_neg at hge
      have h3 : 2 * (2 ^ 53 * D) * D0 ≤ 2 * N * D0 :=
        Nat.mul_le_mul_right _ (Nat.mul_le_mul_left _ hge)
      have h4 : 2 ^ 54 * D0 * D ≤ N0 * D := by
        rw [← hrel]; calc 2 ^ 54 * D0 * D = 2 * (2 ^ 53 * D) * D0 := by ring
          _ ≤ 2 * N * D0 := h3
      have := Nat.le_of_mul_le_mul_right h4 hD
      omega
  · rw [not_le, Nat.div_lt_iff_lt_mul hD0] at hc
    exact ⟨h1.le, hc⟩
theorem roundHalfEven_near (N D : Nat) (hD : 0 < D) :
    2 * (roundHalfEven (N / D) (N % D) D * D) ≤ 2 * N + D ∧
    2 * N ≤ 2 * (roundHalfEven (N / D) (N % D) D * D) + D := by
  have h1 := Nat.div_add_mod N D
  have h2 := Nat.mod_lt N hD
  rw [Nat.mul_comm] at h1
  unfold roundHalfEven
  split_ifs with hc
  · rw [Nat.add_mul, Nat.one_mul]
    generalize N / D * D = qD at *
    omega
  · generalize N / D * D = qD at *
    omega

theorem roundHalfEven_le (N D K : Nat) (hD : 0 < D) (h : N ≤ K * D) :
    roundHalfEven (N / D) (N % D) D ≤ K := by
  have hq : N / D ≤ K := Nat.div_le_of_le_mul (by rw [Nat.mul_comm]; exact h)
  rcases Nat.lt_or_eq_of_le hq with hlt | heq
  · unfold roundHalfEven
    split_ifs <;> omega
  · have h1 := Nat.div_add_mod N D
    rw [heq, Nat.mul_comm] at h1
    have hr : N % D = 0 := by omega
    unfold roundHalfEven
    rw [hr, heq]
    split_ifs with hc
    · omega
    · exact le_rfl

theorem roundToDouble_den_pos (n d : Nat) : 0 < (roundToDouble n d).den := by
  unfold roundToDouble
  split_ifs
  · norm_num
  · simp only [scaleNum]
    positivity

/-- The rounding error of `roundToDouble` is at most `2 ^ (-53)` times the value. -/
theorem roundToDouble_error (n d : Nat) (hd : d ≠ 0) :
    2 ^ 53 * ((roundToDouble n d).num * d) ≤
        2 ^ 53 * (n * (roundToDouble n d).den) + n * (roundToDouble n d).den ∧
    2 ^ 53 * (n * (roundToDouble n d).den) ≤
        2 ^ 53 * ((roundToDouble n d).num * d) + n * (roundToDouble n d).den := by
  by_cases hn : n = 0
  · subst hn
    simp [roundToDouble]
  · obtain ⟨s1, _⟩ := scaleExponent_bounds n d hn hd
    have hD := scaleDen_pos d (scaleExponent n d) hd
    obtain ⟨r1, r2⟩ := roundHalfEven_near (scaleNum n (scaleExponent n d))
      (scaleDen d (scaleExponent n d)) hD
    simp only [roundToDouble, hn, if_false]
    generalize roundHalfEven _ _ _ = m at *
    unfold scaleNum scaleDen at *
    generalize (2 : Nat) ^ (scaleExponent n d).toNat = P at *
    generalize (2 : Nat) ^ (-scaleExponent n d).toNat = Q at *
    have e1 : m * Q * d = m * (d * Q) := by ring
    have e2 : n * (1 * P) = n * P := by ring
    rw [e1, e2]
    generalize m * (d * Q) = A at *
    generalize n * P = B at *
    generalize d * Q = C at *
    omega

/-- Rounding does not pass a bound `C` that is itself an integer below `2 ^ 52`. -/
theorem roundToDouble_le (n d C : Nat) (hd : d ≠ 0) (hC : C < 2 ^ 52) (h : n ≤ C * d) :
    (roundToDouble n d).num ≤ C * (roundToDouble n d).den := by
  by_cases hn : n = 0
  · subst hn
    simp [roundToDouble]
  · obtain ⟨s1, _⟩ := scaleExponent_bounds n d hn hd
    have hD := scaleDen_pos d (scaleExponent n d) hd
    simp only [roundToDouble, hn, if_false]
    have hsplit : (scaleExponent n d).toNat = 0 ∨ (-scaleExponent n d).toNat = 0 := by omega
    rcases hsplit with hp | hq
    · -- the value is at least `2 ^ 52`: impossible below `C`
      exfalso
      unfold scaleNum scaleDen at s1
      rw [hp, pow_zero, mul_one] at s1
      have hQ : 0 < 2 ^ (-scaleExponent n d).toNat := by positivity
      generalize (2 : Nat) ^ (-scaleExponent n d).toNat = Q at *
      have h3 : 2 ^ 52 * (d * Q) ≤ C * d := le_trans s1 h
      have h4 : 2 ^ 52 * Q * d ≤ C * d := by
        calc 2 ^ 52 * Q * d = 2 ^ 52 * (d * Q) := by ring
          _ ≤ C * d := h3
      have h5 := Nat.le_of_mul_le_mul_right h4 (Nat.pos_of_ne_zero hd)
      have h6 : 2 ^ 52 * 1 ≤ 2 ^ 52 * Q := Nat.mul_le_mul_left _ hQ
      omega
    · have hm := roundHalfEven_le (scaleNum n (scaleExponent n d))
        (scaleDen d (scaleExponent n d)) (C * 2 ^ (scaleExponent n d).toNat) hD (by
          unfold scaleNum scaleDen
          rw [hq, pow_zero, mul_one]
          calc n * 2 ^ (scaleExponent n d).toNat ≤ C * d * 2 ^ (scaleExponent n d).toNat :=
                Nat.mul_le_mul_right _ h
            _ = C * 2 ^ (scaleExponent n d).toNat * d := by ring)
      generalize roundHalfEven _ _ _ = m at *
      unfold scaleNum scaleDen
      rw [hq, pow_zero, mul_one, one_mul]
      exact hm
theorem roundToDouble_error_rat (n d : Nat) (hd : d ≠ 0) :
    ((roundToDouble n d).num : ℚ) / (roundToDouble n d).den
        ≤ (n : ℚ) / d * (1 + 1 / 2 ^ 53) ∧
    (n : ℚ) / d * (1 - 1 / 2 ^ 53)
        ≤ ((roundToDouble n d).num : ℚ) / (roundToDouble n d).den := by
  obtain ⟨e1, e2⟩ := roundToDouble_error n d hd
  have hden := roundToDouble_den_pos n d
  generalize (roundToDouble n d).num = a at *
  generalize (roundToDouble n d).den = b at *
  have hb : (0 : ℚ) < b := by exact_mod_cast hden
  have hd' : (0 : ℚ) < d := by exact_mod_cast Nat.pos_of_ne_zero hd
  have q1 : (2 : ℚ) ^ 53 * (a * d) ≤ 2 ^ 53 * (n * b) + n * b := by exact_mod_cast e1
  have q2 : (2 : ℚ) ^ 53 * (n * b) ≤ 2 ^ 53 * (a * d) + n * b := by exact_mod_cast e2
  constructor
  · rw [div_le_iff₀ hb]
    have : (n : ℚ) / d * (1 + 1 / 2 ^ 53) * b = (2 ^ 53 * (n * b) + n * b) / (d * 2 ^ 53) := by
      field_simp
      ring
    rw [this, le_div_iff₀ (by positivity)]
    linarith
  · rw [le_div_iff₀ hb]
    have : (n : ℚ) / d * (1 - 1 / 2 ^ 53) * b = (2 ^ 53 * (n * b) - n * b) / (d * 2 ^ 53) := by
      field_simp
      ring
    rw [this, div_le_iff₀ (by positivity)]
    linarith

theorem roundToDouble_le_rat (n d C : Nat) (hd : d ≠ 0) (hC : C < 2 ^ 52) (h : n ≤ C * d) :
    ((roundToDouble n d).num : ℚ) / (roundToDouble n d).den ≤ C := by
  have hden := roundToDouble_den_pos n d
  have hb : (0 : ℚ) < (roundToDouble n d).den := by exact_mod_cast hden
  rw [div_le_iff₀ hb]
  exact_mod_cast roundToDouble_le n d C hd hC h
theorem successRateOf_le (s t : Nat) (ht : t ≠ 0) (h : s ≤ t) : successRateOf s t ≤ 100 := by
  unfold successRateOf mathRound fmul100 fdiv
  have h1 := roundToDouble_le s t 1 ht (by norm_num) (by omega)
  have hd1 := roundToDouble_den_pos s t
  have h2 := roundToDouble_le ((roundToDouble s t).num * 100) (roundToDouble s t).den 100
    (by omega) (by norm_num) (by omega)
  have hd2 := roundToDouble_den_pos ((roundToDouble s t).num * 100) (roundToDouble s t).den
  generalize (roundToDouble ((roundToDouble s t).num * 100) (roundToDouble s t).den).num = a at *
  generalize (roundToDouble ((roundToDouble s t).num * 100) (roundToDouble s t).den).den = b at *
  have : (2 * a + b) / (2 * b) < 101 := by
    rw [Nat.div_lt_iff_lt_mul (by omega)]
    omega
  omega

/-- The double value of `(s / t) * 100` lies within `200 / 2 ^ 53` of the exact value. -/
theorem product_near (s t : Nat) (ht : t ≠ 0) (h : s ≤ t) :
    ((fmul100 (fdiv s t)).num : ℚ) / (fmul100 (fdiv s t)).den
        ≤ (s : ℚ) / t * 100 + 200 / 2 ^ 53 ∧
    (s : ℚ) / t * 100 - 200 / 2 ^ 53
        ≤ ((fmul100 (fdiv s t)).num : ℚ) / (fmul100 (fdiv s t)).den := by
  unfold fmul100 fdiv
  obtain ⟨a1, a2⟩ := roundToDouble_error_rat s t ht
  have a3 := roundToDouble_le_rat s t 1 ht (by norm_num) (by omega)
  have hd1 := roundToDouble_den_pos s t
  obtain ⟨b1, b2⟩ := roundToDouble_error_rat ((roundToDouble s t).num * 100)
    (roundToDouble s t).den (by omega)
  generalize (roundToDouble ((roundToDouble s t).num * 100) (roundToDouble s t).den).num = a at *
  generalize (roundToDouble ((roundToDouble s t).num * 100) (roundToDouble s t).den).den = b at *
  have e : (((roundToDouble s t).num * 100 : Nat) : ℚ) / (roundToDouble s t).den
      = ((roundToDouble s t).num : ℚ) / (roundToDouble s t).den * 100 := by
    push_cast
    ring
  rw [e] at b1 b2
  generalize ((roundToDouble s t).num : ℚ) / (roundToDouble s t).den = X1 at *
  have hr0 : (0 : ℚ) ≤ (s : ℚ) / t := by positivity
  have hr1 : (s : ℚ) / t ≤ 1 := by
    rw [div_le_one (by exact_mod_cast Nat.pos_of_ne_zero ht)]
    exact_mod_cast h
  generalize (s : ℚ) / t = r at *
  norm_num at a1 a2 a3 b1 b2 ⊢
  constructor <;> linarith
/-- Below `2 ^ 44` tasks the computed rate is the exact rounding or one less, and it is the
exact rounding whenever `100 * s / t` is not half-way between two integers. -/
theorem successRateOf_near (s t : Nat) (ht : t ≠ 0) (h : s ≤ t) (hbig : t < 2 ^ 44) :
    exactRate s t ≤ successRateOf s t + 1 ∧ successRateOf s t ≤ exactRate s t ∧
    ((200 * s + t) % (2 * t) ≠ 0 → successRateOf s t = exactRate s t) := by
  obtain ⟨p1, p2⟩ := product_near s t ht h
  have hden : 0 < (fmul100 (fdiv s t)).den := roundToDouble_den_pos _ _
  unfold successRateOf mathRound exactRate
  generalize (fmul100 (fdiv s t)).num = a at *
  generalize (fmul100 (fdiv s t)).den = b at *
  have hb : (0 : ℚ) < b := by exact_mod_cast hden
  have hT : (0 : ℚ) < t := by exact_mod_cast Nat.pos_of_ne_zero ht
  -- the exact rounding `R`, with its remainder
  have hdm := Nat.div_add_mod (200 * s + t) (2 * t)
  have hml := Nat.mod_lt (200 * s + t) (show 0 < 2 * t by omega)
  generalize (200 * s + t) / (2 * t) = R at *
  generalize (200 * s + t) % (2 * t) = rem at *
  have qdm : (2 : ℚ) * t * R + rem = 200 * s + t := by exact_mod_cast hdm
  have qml : (rem : ℚ) + 1 ≤ 2 * t := by exact_mod_cast hml
  have qbig : (400 : ℚ) * t < 2 ^ 53 := by
    have : 400 * t < 2 ^ 53 := by omega
    exact_mod_cast this
  -- everything multiplied out by `2 * t * b`
  have hs : (s : ℚ) / t * 100 = (200 * s) / (2 * t) := by field_simp; ring
  rw [hs] at p1 p2
  have u1 : (a : ℚ) / b ≤ (200 * s) / (2 * t) + 200 / 2 ^ 53 := p1
  have u2 : (200 * (s : ℚ)) / (2 * t) - 200 / 2 ^ 53 ≤ a / b := p2
  have ha : (a : ℚ) = a / b * b := by field_simp
  have hs2 : (200 * (s : ℚ)) / (2 * t) = R + rem / (2 * t) - 1 / 2 := by
    have e : (200 : ℚ) * s = 2 * t * R + rem - t := by linarith
    rw [e]
    field_simp
    ring
  have hremne : rem ≠ 0 → (1 : ℚ) / (2 * t) ≤ rem / (2 * t) := by
    intro h0
    have : (1 : ℚ) ≤ rem := by exact_mod_cast Nat.pos_of_ne_zero h0
    exact div_le_div_of_nonneg_right this (by positivity)
  have hrem0 : (0 : ℚ) ≤ rem / (2 * t) := by positivity
  have hrem1 : (rem : ℚ) / (2 * t) + 1 / (2 * t) ≤ 1 := by
    rw [← add_div, div_le_one (by positivity)]
    exact qml
  have heps : (200 : ℚ) / 2 ^ 53 < 1 / (2 * t) := by
    rw [div_lt_div_iff₀ (by positivity) (by positivity)]
    linarith
  have hepsle : (200 : ℚ) / 2 ^ 53 ≤ 1 := by norm_num
  generalize (a : ℚ) / b = X at *
  generalize (rem : ℚ) / (2 * t) = f at *
  have upper : (2 * a + b) / (2 * b) ≤ R := by
    rw [← Nat.lt_succ_iff, Nat.div_lt_iff_lt_mul (by omega)]
    have : (2 : ℚ) * a + b < (R + 1) * (2 * b) := by
      rw [ha]
      nlinarith
    exact_mod_cast this
  have lower : R ≤ (2 * a + b) / (2 * b) + 1 := by
    rcases Nat.eq_zero_or_pos R with h0 | hpos
    · rw [h0]
      exact Nat.zero_le _
    · have : R - 1 ≤ (2 * a + b) / (2 * b) := by
        rw [Nat.le_div_iff_mul_le (by omega)]
        have : ((R : ℚ) - 1) * (2 * b) ≤ 2 * a + b := by
          rw [ha]
          nlinarith
        have hc : ((R - 1 : Nat) : ℚ) = (R : ℚ) - 1 := by
          push_cast [Nat.cast_sub hpos]
          ring
        have : ((R - 1 : Nat) : ℚ) * (2 * b) ≤ 2 * a + b := by rw [hc]; exact this
        exact_mod_cast this
      omega
  refine ⟨lower, upper, ?_⟩
  intro hne
  apply le_antisymm upper
  rw [Nat.le_div_iff_mul_le (by omega)]
  have hrem : (1 : ℚ) / (2 * t) ≤ f := hremne hne
  have : (R : ℚ) * (2 * b) ≤ 2 * a + b := by
    rw [ha]
    nlinarith
  exact_mod_cast this

/-- C10 (as stated, refuted): from 22 successes in 39 tasks a `success` gives 23 in 40, where
`100 * 23 / 40 = 57.5` rounds half up to 58, and the code stores 57: the double product
`(23 / 40) * 100` lies below 57.5. -/
theorem applyFeedback_successRate_not_exact :
    rateExampleScores.agents.lookup "정국" ≠ none ∧
    usageMetrics.feedbackScoring.lookup "success" ≠ none ∧
    ((recordAfter (applyFeedback usageMetrics rateExampleScores "정국" "success" "" 0) "정국").map
        fun r => (r.metrics.successfulTasks, r.metrics.tasksCompleted, r.metrics.successRate))
      = some (23, 40, 57) ∧
    exactRate 23 40 = 58 ∧
    2 * (fmul100 (fdiv 23 40)).num < 115 * (fmul100 (fdiv 23 40)).den := by
  decide

/-- C10 (amended): for a record with `successfulTasks ≤ tasksCompleted` and a configured
feedback type, `applyFeedback` increases `tasksCompleted` by one, increases `successfulTasks`
by one exactly for `success` and `excellent`, and sets `successRate` to `Math.round` of the
binary64 product `(successfulTasks / tasksCompleted) * 100` of the updated counters. That
value is at most 100; below `2 ^ 44` tasks it is the half-up rounding of the exact quotient or
one less, and it is that rounding whenever the exact quotient is not half-way between two
integers. -/
theorem applyFeedback_metrics (metrics : MetricsConfig) (scores : Scores)
    (agentName type description : String) (now : Int) (agent : AgentRecord)
    (cfg : FeedbackConfig)
    (hagent : scores.agents.lookup agentName = some agent)
    (hcfg : metrics.feedbackScoring.lookup type = some cfg)
    (hle : agent.metrics.successfulTasks ≤ agent.metrics.tasksCompleted) :
    ∃ agent',
      recordAfter (applyFeedback metrics scores agentName type description now) agentName
        = some agent' ∧
      agent'.metrics.tasksCompleted = agent.metrics.tasksCompleted + 1 ∧
      agent'.metrics.successfulTasks = agent.metrics.successfulTasks +
        (if type = "success" ∨ type = "excellent" then 1 else 0) ∧
      agent'.metrics.successRate =
        successRateOf agent'.metrics.successfulTasks agent'.metrics.tasksCompleted ∧
      agent'.metrics.successRate ≤ 100 ∧
      (agent'.metrics.tasksCompleted < 2 ^ 44 →
        exactRate agent'.metrics.successfulTasks agent'.metrics.tasksCompleted
            ≤ agent'.metrics.successRate + 1 ∧
        agent'.metrics.successRate
            ≤ exactRate agent'.metrics.successfulTasks agent'.metrics.tasksCompleted ∧
        ((200 * agent'.metrics.successfulTasks + agent'.metrics.tasksCompleted)
              % (2 * agent'.metrics.tasksCompleted) ≠ 0 →
          agent'.metrics.successRate
            = exactRate agent'.metrics.successfulTasks agent'.metrics.tasksCompleted)) := by
  refine ⟨feedbackRecord cfg type description now agent, ?_, rfl, ?_, rfl, ?_, ?_⟩
  · rw [applyFeedback_saved metrics scores agentName type description now agent cfg hagent hcfg]
    exact lookup_setProperty _ _ _ _ hagent
  · simp only [feedbackRecord]
    split_ifs <;> rfl
  · simp only [feedbackRecord]
    apply successRateOf_le _ _ (by omega)
    split_ifs <;> omega
  · intro hbig
    simp only [feedbackRecord] at hbig ⊢
    apply successRateOf_near _ _ (by omega) _ hbig
    split_ifs <;> omega

theorem applyFeedback_metrics_witness :
    ∃ agent',
      recordAfter (applyFeedback usageMetrics rateExampleScores "정국" "success" "" 0) "정국"
        = some agent' ∧
      agent'.metrics.tasksCompleted = 39 + 1 ∧
      agent'.metrics.successfulTasks = 22 +
        (if "success" = "success" ∨ "success" = "excellent" then 1 else 0) ∧
      agent'.metrics.successRate =
        successRateOf agent'.metrics.successfulTasks agent'.metrics.tasksCompleted ∧
      agent'.metrics.successRate ≤ 100 ∧
      (agent'.metrics.tasksCompleted < 2 ^ 44 →
        exactRate agent'.metrics.successfulTasks agent'.metrics.tasksCompleted
            ≤ agent'.metrics.successRate + 1 ∧
        agent'.metrics.successRate
            ≤ exactRate agent'.metrics.successfulTasks agent'.metrics.tasksCompleted ∧
        ((200 * agent'.metrics.successfulTasks + agent'.metrics.tasksCompleted)
              % (2 * agent'.metrics.tasksCompleted) ≠ 0 →
          agent'.metrics.successRate
            = exactRate agent'.metrics.successfulTasks agent'.metrics.tasksCompleted)) :=
  applyFeedback_metrics usageMetrics rateExampleScores "정국" "success" "" 0 _ ⟨15, "작업 성공"⟩
    rfl (by decide) (by decide)
/-! ## Claims about the histories kept by `applyFeedback` -/

theorem unshiftCapped_eq_take {α : Type} (entry : α) (list : List α) :
    unshiftCapped entry list = (entry :: list).take 50 := by
  unfold unshiftCapped
  simp only
  split_ifs with h
  · rfl
  · rw [List.take_of_length_le (by omega)]

/-- C11: for a record of the document and a configured feedback type, after `applyFeedback`
`recentTasks` is the first 50 elements of the new task entry followed by the old list, and
`developmentMemory.workHistory` is the first 50 elements of the new history entry followed by
the old history; both have the new entry at the head and at most 50 elements, and the
`taskType` of the history entry is `success` for success and excellent, `failure` for failure
and `partial` otherwise. -/
theorem applyFeedback_histories (metrics : MetricsConfig) (scores : Scores)
    (agentName type description : String) (now : Int) (agent : AgentRecord)
    (cfg : FeedbackConfig)
    (hagent : scores.agents.lookup agentName = some agent)
    (hcfg : metrics.feedbackScoring.lookup type = some cfg) :
    ∃ (agent' : AgentRecord) (task : TaskEntry) (work : WorkEntry),
      recordAfter (applyFeedback metrics scores agentName type description now) agentName
        = some agent' ∧
      task =
        { date := isoDate now
          type := type
          description := if description ≠ "" then description else cfg.description
          scoreChange := cfg.scoreChange
          newScore := agent'.totalScore } ∧
      work =
        { date := isoDate now
          taskType :=
            if type = "success" ∨ type = "excellent" then "success"
            else if type = "failure" then "failure" else "partial"
          description := if description ≠ "" then description else cfg.description
          outcome := type
          scoreChange := cfg.scoreChange } ∧
      agent'.recentTasks = (task :: agent.recentTasks).take 50 ∧
      agent'.developmentMemory.workHistory
        = (work :: agent.developmentMemory.workHistory).take 50 ∧
      agent'.recentTasks.head? = some task ∧
      agent'.developmentMemory.workHistory.head? = some work ∧
      agent'.recentTasks.length ≤ 50 ∧
      agent'.developmentMemory.workHistory.length ≤ 50 := by
  refine ⟨feedbackRecord cfg type description now agent, _, _, ?_, rfl, rfl, ?_, ?_, ?_, ?_,
    ?_, ?_⟩
  · rw [applyFeedback_saved metrics scores agentName type description now agent cfg hagent hcfg]
    exact lookup_setProperty _ _ _ _ hagent
  · simp only [feedbackRecord, unshiftCapped_eq_take]
  · simp only [feedbackRecord, unshiftCapped_eq_take]
  · simp only [feedbackRecord, unshiftCapped_eq_take]
    rfl
  · simp only [feedbackRecord, unshiftCapped_eq_take]
    rfl
  · simp only [feedbackRecord, unshiftCapped_eq_take]
    exact List.length_take_le _ _
  · simp only [feedbackRecord, unshiftCapped_eq_take]
    exact List.length_take_le _ _

theorem applyFeedback_histories_witness :
    ∃ (agent' : AgentRecord) (task : TaskEntry) (work : WorkEntry),
      recordAfter (applyFeedback usageMetrics exampleScores "정국" "failure" "늦음" 0) "정국"
        = some agent' ∧
      task =
        { date := isoDate 0
          type := "failure"
          description := if "늦음" ≠ "" then "늦음" else "작업 실패"
          scoreChange := -20
          newScore := agent'.totalScore } ∧
      work =
        { date := isoDate 0
          taskType :=
            if "failure" = "success" ∨ "failure" = "excellent" then "success"
            else if "failure" = "failure" then "failure" else "partial"
          description := if "늦음" ≠ "" then "늦음" else "작업 실패"
          outcome := "failure"
          scoreChange := -20 } ∧
      agent'.recentTasks = (task :: []).take 50 ∧
      agent'.developmentMemory.workHistory = (work :: []).take 50 ∧
      agent'.recentTasks.head? = some task ∧
      agent'.developmentMemory.workHistory.head? = some work ∧
      agent'.recentTasks.length ≤ 50 ∧
      agent'.developmentMemory.workHistory.length ≤ 50 :=
  applyFeedback_histories usageMetrics exampleScores "정국" "failure" "늦음" 0
    { initialRecord usageMetrics (some "sonnet") 0 with totalScore := 990, rank := "S" }
    ⟨-20, "작업 실패"⟩ rfl (by decide)
/-! ## Penalty escalator: lemmas -/

theorem getProperty_absent {α : Type} (obj : List (String × α)) (key : String)
    (h : obj.lookup key = none) (hp : key ∉ objectPrototypeKeys) :
    getProperty obj key = .absent := by
  simp [getProperty, h, hp]

theorem applyPenalty_saved (penaltyRules : PenaltyRules) (scores : Scores)
    (agentName penaltyStr description : String) (now : Int) (agent : AgentRecord)
    (cfg : CategoryConfig)
    (hagent : scores.agents.lookup agentName = some agent)
    (hcfg : penaltyRules.categories.lookup (penaltyCategory penaltyStr) = some cfg) :
    applyPenalty penaltyRules scores agentName penaltyStr description now =
      .saved
        { scores with
          lastUpdated := now
          agents := setProperty scores.agents agentName
            (penaltyRecord penaltyRules cfg (penaltyCategory penaltyStr) penaltyStr description
              now agent) } := by
  simp [applyPenalty, getProperty_own _ _ _ hagent, getProperty_own _ _ _ hcfg]

theorem applyPenalty_record (penaltyRules : PenaltyRules) (scores : Scores)
    (agentName penaltyStr description : String) (now : Int) (agent : AgentRecord)
    (cfg : CategoryConfig)
    (hagent : scores.agents.lookup agentName = some agent)
    (hcfg : penaltyRules.categories.lookup (penaltyCategory penaltyStr) = some cfg) :
    recordAfter (applyPenalty penaltyRules scores agentName penaltyStr description now)
        agentName =
      some (penaltyRecord penaltyRules cfg (penaltyCategory penaltyStr) penaltyStr description
        now agent) := by
  rw [applyPenalty_saved penaltyRules scores agentName penaltyStr description now agent cfg
    hagent hcfg]
  exact lookup_setProperty _ _ _ _ hagent

/-! ## Claims about unknown names -/

/-- C12: a feedback type or penalty category that is neither a key of its table nor a name
inherited from `Object.prototype` ends the run with `process.exit(1)` and nothing saved. The
names `constructor` and `toString` are keys of neither table, and with them both functions
run to `saveScores`, with a total score that is not a number. -/
theorem unknown_name_outcomes :
    (∀ (metrics : MetricsConfig) (scores : Scores) (agentName type description : String)
        (now : Int),
      metrics.feedbackScoring.lookup type = none → type ∉ objectPrototypeKeys →
      applyFeedback metrics scores agentName type description now = .exit 1) ∧
    (∀ (penaltyRules : PenaltyRules) (scores : Scores)
        (agentName penaltyStr description : String) (now : Int),
      penaltyRules.categories.lookup (penaltyCategory penaltyStr) = none →
      penaltyCategory penaltyStr ∉ objectPrototypeKeys →
      applyPenalty penaltyRules scores agentName penaltyStr description now = .exit 1) ∧
    usageMetrics.feedbackScoring.lookup "constructor" = none ∧
    applyFeedback usageMetrics exampleScores "정국" "constructor" "" 0 = .savedNaN ∧
    examplePenaltyRules.categories.lookup (penaltyCategory "toString:x") = none ∧
    applyPenalty examplePenaltyRules exampleScores "정국" "toString:x" "toString:x" 0
      = .savedNaN := by
  refine ⟨?_, ?_, by decide, by decide, by decide, by decide⟩
  · intro metrics scores agentName type description now h hp
    unfold applyFeedback
    rw [getProperty_absent _ _ h hp]
    cases getProperty scores.agents agentName <;> rfl
  · intro penaltyRules scores agentName penaltyStr description now h hp
    unfold applyPenalty
    simp only
    rw [getProperty_absent _ _ h hp]
    cases getProperty scores.agents agentName <;> rfl
/-! ## Claims about the penalty escalator -/

/-- C13: with `recentViolations` the number of past penalties of the category dated after
`now` minus 30 days and `escalatedViolations` the number dated after `now` minus 60 days (both
counted penalty by penalty over the history, a date being the start of its UTC day), the
counts that `applyPenalty` computes are these two numbers, and the penalty that it records has
level 4 and multiplier 3 if `escalatedViolations ≥ 3`, else level 3 and multiplier 3 if
`recentViolations ≥ 2`, else level 2 and multiplier 2 if `recentViolations ≥ 1`, else level 1
and multiplier 1; level 4 is assigned exactly when `escalatedViolations ≥ 3`. -/
theorem applyPenalty_level (penaltyRules : PenaltyRules) (scores : Scores)
    (agentName penaltyStr description : String) (now : Int) (agent : AgentRecord)
    (cfg : CategoryConfig)
    (hagent : scores.agents.lookup agentName = some agent)
    (hcfg : penaltyRules.categories.lookup (penaltyCategory penaltyStr) = some cfg) :
    countViolations agent.penalties (penaltyCategory penaltyStr) now 30 =
      recentViolations agent.penalties (penaltyCategory penaltyStr) now ∧
    countViolations agent.penalties (penaltyCategory penaltyStr) now 60 =
      escalatedViolations agent.penalties (penaltyCategory penaltyStr) now ∧
    ∃ (agent' : AgentRecord) (entry : PenaltyEntry),
      recordAfter (applyPenalty penaltyRules scores agentName penaltyStr description now)
        agentName = some agent' ∧
      agent'.penalties.getLast? = some entry ∧
      (entry.level, entry.multiplier) =
        (if escalatedViolations agent.penalties (penaltyCategory penaltyStr) now ≥ 3
           then (4, 3)
         else if recentViolations agent.penalties (penaltyCategory penaltyStr) now ≥ 2
           then (3, 3)
         else if recentViolations agent.penalties (penaltyCategory penaltyStr) now ≥ 1
           then (2, 2)
         else (1, 1)) ∧
      (entry.level = 4 ↔
        escalatedViolations agent.penalties (penaltyCategory penaltyStr) now ≥ 3) := by
  -- the filter count of the code is the count of the specification
  have hcount : ∀ (penalties : List PenaltyEntry) (category : String) (days : Int),
      countViolations penalties category now days =
        violationsWithin days category now penalties := by
    intro penalties category days
    induction penalties with
    | nil => rfl
    | cons p rest ih =>
      have hstep : countViolations (p :: rest) category now days =
          (if p.category = category ∧ p.date * msPerDay > now - days * msPerDay then 1
            else 0) + countViolations rest category now days := by
        unfold countViolations
        by_cases h : p.category = category ∧ p.date * msPerDay > now - days * msPerDay
        · simp [List.filter_cons, h, Nat.add_comm]
        · simp [List.filter_cons, h]
      rw [hstep, ih]
      by_cases h : p.category = category ∧ p.date * msPerDay > now - days * msPerDay
      · have h' : p.category = category ∧ datedAfter p (now - days * msPerDay) = true :=
          ⟨h.1, by simpa [datedAfter] using h.2⟩
        simp only [violationsWithin, if_pos h, if_pos h']
        omega
      · have h' : ¬ (p.category = category ∧
            datedAfter p (now - days * msPerDay) = true) := by
          intro hc
          exact h ⟨hc.1, by simpa [datedAfter] using hc.2⟩
        simp only [violationsWithin, if_neg h, if_neg h']
        omega
  refine ⟨hcount _ _ 30, hcount _ _ 60,
    _, penaltyEntry cfg (penaltyCategory penaltyStr) penaltyStr description now
      (assignedEscalation agent.penalties (penaltyCategory penaltyStr) now),
    applyPenalty_record penaltyRules scores agentName penaltyStr description now
      agent cfg hagent hcfg, ?_, ?_, ?_⟩
  · simp [penaltyRecord]
  · simp only [penaltyEntry, assignedEscalation, escalationLevel, recentViolations,
      escalatedViolations, hcount]
    split_ifs <;> rfl
  · simp only [penaltyEntry, assignedEscalation, escalationLevel, escalatedViolations,
      hcount]
    split_ifs with h1 h2 h3 <;> simp [h1]

/-- A `process` penalty at 01:00 of day 20100 on the history `escalatedHistory`: three earlier
`process` penalties are of the last 60 days, one of them of the last 30 days, the penalty 70
days old and the `quality` penalty do not count; the code computes the counts 1 and 3, and the
recorded penalty has level 4 and multiplier 3. -/
theorem applyPenalty_level_witness :
    ∃ (agent : AgentRecord) (cfg : CategoryConfig),
      escalatedScores.agents.lookup "정국" = some agent ∧
      examplePenaltyRules.categories.lookup (penaltyCategory "process:x") = some cfg ∧
      recentViolations agent.penalties (penaltyCategory "process:x")
        (20100 * msPerDay + 3600000) = 1 ∧
      escalatedViolations agent.penalties (penaltyCategory "process:x")
        (20100 * msPerDay + 3600000) = 3 ∧
      countViolations agent.penalties (penaltyCategory "process:x")
        (20100 * msPerDay + 3600000) 30 = 1 ∧
      countViolations agent.penalties (penaltyCategory "process:x")
        (20100 * msPerDay + 3600000) 60 = 3 ∧
      assignedEscalation agent.penalties (penaltyCategory "process:x")
        (20100 * msPerDay + 3600000) = ⟨4, 3, "🚨"⟩ ∧
      ∃ (agent' : AgentRecord) (entry : PenaltyEntry),
        recordAfter (applyPenalty examplePenaltyRules escalatedScores "정국" "process:x" ""
          (20100 * msPerDay + 3600000)) "정국" = some agent' ∧
        agent'.penalties.getLast? = some entry ∧
        entry.level = 4 ∧ entry.multiplier = 3 := by
  obtain ⟨-, -, agent', entry, hrec, hlast, hpair, hfour⟩ :=
    applyPenalty_level examplePenaltyRules escalatedScores "정국" "process:x" ""
      (20100 * msPerDay + 3600000) _ ⟨-10, "프로세스 위반", "medium"⟩ rfl (by decide)
  have hesc : escalatedViolations escalatedHistory (penaltyCategory "process:x")
      (20100 * msPerDay + 3600000) = 3 := by decide
  have hlevel : entry.level = 4 := hfour.mpr (by rw [hesc])
  have hmul : entry.multiplier = 3 := by
    have h3 : escalatedViolations escalatedHistory (penaltyCategory "process:x")
        (20100 * msPerDay + 3600000) ≥ 3 := by rw [hesc]
    rw [if_pos h3] at hpair
    exact (Prod.mk.inj hpair).2
  exact ⟨_, _, rfl, rfl, by decide, hesc, by decide, by decide, by decide,
    agent', entry, hrec, hlast, hlevel, hmul⟩

theorem lookup_setProperty_ne {α : Type} (obj : List (String × α)) (key name : String) (w : α)
    (h : name ≠ key) : (setProperty obj key w).lookup name = obj.lookup name := by
  induction obj with
  | nil => rfl
  | cons kv rest ih =>
    obtain ⟨k, x⟩ := kv
    by_cases hk : key = k
    · have hb : (key == k) = true := by simpa using hk
      have hn : (name == k) = false := by simpa using (hk ▸ h)
      simp [setProperty, hb, List.lookup, hn]
    · have hb : (key == k) = false := by simpa using hk
      simp only [setProperty, hb, List.lookup]
      cases hnk : (name == k) with
      | true => simp
      | false => simpa using ih

theorem mem_setProperty {α : Type} (obj : List (String × α)) (key : String) (w : α)
    (entry : String × α) (h : entry ∈ setProperty obj key w) :
    entry ∈ obj ∨ entry.2 = w := by
  induction obj with
  | nil => simp [setProperty] at h
  | cons kv rest ih =>
    obtain ⟨k, x⟩ := kv
    by_cases hk : key = k
    · have hb : (key == k) = true := by simpa using hk
      simp only [setProperty, hb, if_true] at h
      rcases List.mem_cons.mp h with h1 | h1
      · right; rw [h1]
      · left; exact List.mem_cons_of_mem _ h1
    · have hb : (key == k) = false := by simpa using hk
      simp only [setProperty, hb] at h
      rcases List.mem_cons.mp h with h1 | h1
      · left; rw [h1]; exact List.mem_cons_self _ _
      · rcases ih h1 with h2 | h2
        · left; exact List.mem_cons_of_mem _ h2
        · right; exact h2

theorem getProperty_eq_own {α : Type} (obj : List (String × α)) (key : String) (v : α)
    (h : getProperty obj key = .own v) : obj.lookup key = some v := by
  unfold getProperty at h
  cases hl : obj.lookup key with
  | none =>
    rw [hl] at h
    simp only at h
    split_ifs at h
  | some x =>
    rw [hl] at h
    simp only [Property.own.injEq] at h
    rw [h]

/-- A run of `applyFeedback` that saves has found the record and the configuration. -/
theorem applyFeedback_saved_inv (metrics : MetricsConfig) (scores scores' : Scores)
    (agentName type description : String) (now : Int)
    (h : applyFeedback metrics scores agentName type description now = .saved scores') :
    ∃ agent cfg, scores.agents.lookup agentName = some agent ∧
      metrics.feedbackScoring.lookup type = some cfg ∧
      scores' =
        { scores with
          lastUpdated := now
          agents := setProperty scores.agents agentName
            (feedbackRecord cfg type description now agent) } := by
  unfold applyFeedback at h
  cases ha : getProperty scores.agents agentName with
  | absent => rw [ha] at h; simp at h
  | inherited =>
    rw [ha] at h
    cases hc : getProperty metrics.feedbackScoring type <;> rw [hc] at h <;> simp at h
  | own agent =>
    rw [ha] at h
    cases hc : getProperty metrics.feedbackScoring type with
    | absent => rw [hc] at h; simp at h
    | inherited => rw [hc] at h; simp at h
    | own cfg =>
      rw [hc] at h
      simp only [Outcome.saved.injEq] at h
      exact ⟨agent, cfg, getProperty_eq_own _ _ _ ha, getProperty_eq_own _ _ _ hc, h.symm⟩

/-- A run of `applyPenalty` that saves has found the record and the category. -/
theorem applyPenalty_saved_inv (penaltyRules : PenaltyRules) (scores scores' : Scores)
    (agentName penaltyStr description : String) (now : Int)
    (h : applyPenalty penaltyRules scores agentName penaltyStr description now
      = .saved scores') :
    ∃ agent cfg, scores.agents.lookup agentName = some agent ∧
      penaltyRules.categories.lookup (penaltyCategory penaltyStr) = some cfg ∧
      scores' =
        { scores with
          lastUpdated := now
          agents := setProperty scores.agents agentName
            (penaltyRecord penaltyRules cfg (penaltyCategory penaltyStr) penaltyStr description
              now agent) } := by
  unfold applyPenalty at h
  simp only at h
  cases ha : getProperty scores.agents agentName with
  | absent => rw [ha] at h; simp at h
  | inherited =>
    rw [ha] at h
    cases hc : getProperty penaltyRules.categories (penaltyCategory penaltyStr) <;>
      rw [hc] at h <;> simp at h
  | own agent =>
    rw [ha] at h
    cases hc : getProperty penaltyRules.categories (penaltyCategory penaltyStr) with
    | absent => rw [hc] at h; simp at h
    | inherited => rw [hc] at h; simp at h
    | own cfg =>
      rw [hc] at h
      simp only [Outcome.saved.injEq] at h
      exact ⟨agent, cfg, getProperty_eq_own _ _ _ ha, getProperty_eq_own _ _ _ hc, h.symm⟩
/-- C14: for a record of the document and a known category with base points `b`, with `m`
the multiplier assigned to the penalty, `applyPenalty` sets the total score to
`max(0, old + b * m)`: it is never below 0, it is above 1000 whenever `old + b * m` is, and
when `b ≤ 0` and the old score lies in [0, 1000] the new score lies in [0, 1000] and is not
greater than the old score. -/
theorem applyPenalty_totalScore (penaltyRules : PenaltyRules) (scores : Scores)
    (agentName penaltyStr description : String) (now : Int) (agent : AgentRecord)
    (cfg : CategoryConfig)
    (hagent : scores.agents.lookup agentName = some agent)
    (hcfg : penaltyRules.categories.lookup (penaltyCategory penaltyStr) = some cfg) :
    ∃ (agent' : AgentRecord) (m : Nat),
      recordAfter (applyPenalty penaltyRules scores agentName penaltyStr description now)
        agentName = some agent' ∧
      m = (assignedEscalation agent.penalties (penaltyCategory penaltyStr) now).multiplier ∧
      agent'.totalScore = max 0 (agent.totalScore + cfg.basePoints * m) ∧
      0 ≤ agent'.totalScore ∧
      (1000 < agent.totalScore + cfg.basePoints * m → 1000 < agent'.totalScore) ∧
      (cfg.basePoints ≤ 0 → 0 ≤ agent.totalScore → agent.totalScore ≤ 1000 →
        agent'.totalScore ≤ 1000 ∧ agent'.totalScore ≤ agent.totalScore) := by
  refine ⟨_, _, applyPenalty_record penaltyRules scores agentName penaltyStr description now
    agent cfg hagent hcfg, rfl, rfl, ?_, ?_, ?_⟩
  · exact le_max_left _ _
  · intro h
    exact lt_of_lt_of_le h (le_max_right _ _)
  · intro hb h0 h1
    have hm : cfg.basePoints *
        ((assignedEscalation agent.penalties (penaltyCategory penaltyStr) now).multiplier : Int)
        ≤ 0 := mul_nonpos_of_nonpos_of_nonneg hb (Int.ofNat_nonneg _)
    simp only [penaltyRecord]
    constructor
    · exact max_le (by norm_num) (by omega)
    · exact max_le h0 (by omega)

theorem applyPenalty_totalScore_witness :
    ∃ (agent' : AgentRecord) (m : Nat),
      recordAfter (applyPenalty examplePenaltyRules exampleScores "정국" "process:x" "" 0)
        "정국" = some agent' ∧
      m = (assignedEscalation [] (penaltyCategory "process:x") 0).multiplier ∧
      agent'.totalScore = max 0 ((990 : Int) + -10 * m) ∧
      0 ≤ agent'.totalScore ∧
      (1000 < (990 : Int) + -10 * m → 1000 < agent'.totalScore) ∧
      ((-10 : Int) ≤ 0 → (0 : Int) ≤ 990 → (990 : Int) ≤ 1000 →
        agent'.totalScore ≤ 1000 ∧ agent'.totalScore ≤ 990) :=
  applyPenalty_totalScore examplePenaltyRules exampleScores "정국" "process:x" "" 0
    { initialRecord usageMetrics (some "sonnet") 0 with totalScore := 990, rank := "S" }
    ⟨-10, "프로세스 위반", "medium"⟩ rfl (by decide)

/-- C17: for a record of the document and a known category, after `applyPenalty` the
penalties are the old penalties followed by one new entry, which carries the category, the
name and severity of the category, the assigned level and multiplier, the score change
`base points * multiplier` and the day of `now`. -/
theorem applyPenalty_penalties (penaltyRules : PenaltyRules) (scores : Scores)
    (agentName penaltyStr description : String) (now : Int) (agent : AgentRecord)
    (cfg : CategoryConfig)
    (hagent : scores.agents.lookup agentName = some agent)
    (hcfg : penaltyRules.categories.lookup (penaltyCategory penaltyStr) = some cfg) :
    ∃ (agent' : AgentRecord) (entry : PenaltyEntry),
      recordAfter (applyPenalty penaltyRules scores agentName penaltyStr description now)
        agentName = some agent' ∧
      agent'.penalties = agent.penalties ++ [entry] ∧
      entry.category = penaltyCategory penaltyStr ∧
      entry.categoryName = cfg.name ∧
      entry.severity = cfg.severity ∧
      entry.level
        = (assignedEscalation agent.penalties (penaltyCategory penaltyStr) now).level ∧
      entry.multiplier
        = (assignedEscalation agent.penalties (penaltyCategory penaltyStr) now).multiplier ∧
      entry.scoreChange = cfg.basePoints * entry.multiplier ∧
      entry.date = isoDate now ∧
      entry.description = (if description ≠ "" then description else penaltyStr) :=
  ⟨_, penaltyEntry cfg (penaltyCategory penaltyStr) penaltyStr description now
      (assignedEscalation agent.penalties (penaltyCategory penaltyStr) now),
    applyPenalty_record penaltyRules scores agentName penaltyStr description now agent cfg
      hagent hcfg,
    rfl, rfl, rfl, rfl, rfl, rfl, rfl, rfl, rfl⟩

theorem applyPenalty_penalties_witness :
    ∃ (agent' : AgentRecord) (entry : PenaltyEntry),
      recordAfter (applyPenalty examplePenaltyRules exampleScores "정국" "process:x" "" 0)
        "정국" = some agent' ∧
      agent'.penalties = [] ++ [entry] ∧
      entry.category = penaltyCategory "process:x" ∧
      entry.categoryName = "프로세스 위반" ∧
      entry.severity = "medium" ∧
      entry.level = (assignedEscalation [] (penaltyCategory "process:x") 0).level ∧
      entry.multiplier = (assignedEscalation [] (penaltyCategory "process:x") 0).multiplier ∧
      entry.scoreChange = -10 * entry.multiplier ∧
      entry.date = isoDate 0 ∧
      entry.description = (if "" ≠ "" then "" else "process:x") :=
  applyPenalty_penalties examplePenaltyRules exampleScores "정국" "process:x" "" 0
    { initialRecord usageMetrics (some "sonnet") 0 with totalScore := 990, rank := "S" }
    ⟨-10, "프로세스 위반", "medium"⟩ rfl (by decide)

/-- C18: for a record of the document and a known category, when the assigned level is at
least 2 and the escalation table holds an improvement-mission template under the key of that
level, `applyPenalty` appends one mission with the template's `requiredSuccesses`,
`recoveryPoints` and `timeLimit`, `completedSuccesses = 0` and `status = "active"` after the
existing missions; when the level is 1 the missions are unchanged. -/
theorem applyPenalty_missions (penaltyRules : PenaltyRules) (scores : Scores)
    (agentName penaltyStr description : String) (now : Int) (agent : AgentRecord)
    (cfg : CategoryConfig)
    (hagent : scores.agents.lookup agentName = some agent)
    (hcfg : penaltyRules.categories.lookup (penaltyCategory penaltyStr) = some cfg) :
    ∃ (agent' : AgentRecord) (level : Nat),
      recordAfter (applyPenalty penaltyRules scores agentName penaltyStr description now)
        agentName = some agent' ∧
      level = (assignedEscalation agent.penalties (penaltyCategory penaltyStr) now).level ∧
      (∀ (escalationConfig : EscalationConfig) (template : MissionTemplate), 2 ≤ level →
        penaltyRules.escalation.lookup ("level" ++ toString level) = some escalationConfig →
        escalationConfig.improvementMission = some template →
        agent'.improvementMissions = agent.improvementMissions ++
          [{ assignedDate := isoDate now
             category := penaltyCategory penaltyStr
             level := level
             requiredSuccesses := template.requiredSuccesses
             recoveryPoints := template.recoveryPoints
             timeLimit := template.timeLimit
             completedSuccesses := 0
             status := "active" }]) ∧
      (level = 1 → agent'.improvementMissions = agent.improvementMissions) := by
  refine ⟨_, _, applyPenalty_record penaltyRules scores agentName penaltyStr description now
    agent cfg hagent hcfg, rfl, ?_, ?_⟩
  · intro escalationConfig template h2 hl ht
    simp only [penaltyRecord, missionsAfter, hl, Option.bind, ht]
    rw [if_pos h2]
  · intro h1
    simp only [penaltyRecord, missionsAfter, h1]
    rfl
theorem applyPenalty_missions_witness :
    ∃ (agent' : AgentRecord) (level : Nat),
      recordAfter
        (applyPenalty examplePenaltyRules penalizedScores "정국" "process:y" ""
          (20001 * msPerDay)) "정국" = some agent' ∧
      level = (assignedEscalation
        [{ date := 20000
           category := "process"
           categoryName := "프로세스 위반"
           severity := "medium"
           level := 1
           warningLevel := "⚠️"
           scoreChange := -10
           description := "process:x"
           multiplier := 1 }] (penaltyCategory "process:y") (20001 * msPerDay)).level ∧
      (∀ (escalationConfig : EscalationConfig) (template : MissionTemplate), 2 ≤ level →
        examplePenaltyRules.escalation.lookup ("level" ++ toString level)
          = some escalationConfig →
        escalationConfig.improvementMission = some template →
        agent'.improvementMissions = [] ++
          [{ assignedDate := isoDate (20001 * msPerDay)
             category := penaltyCategory "process:y"
             level := level
             requiredSuccesses := template.requiredSuccesses
             recoveryPoints := template.recoveryPoints
             timeLimit := template.timeLimit
             completedSuccesses := 0
             status := "active" }]) ∧
      (level = 1 → agent'.improvementMissions = []) :=
  applyPenalty_missions examplePenaltyRules penalizedScores "정국" "process:y" ""
    (20001 * msPerDay) _ ⟨-10, "프로세스 위반", "medium"⟩ rfl (by decide)

/-- C19: `applyPenalty` puts the penalty entry at the head of the work history and keeps
every older entry, without the cut to 50 entries that `applyFeedback` makes: a history of 50
entries has 51 after a penalty. -/
theorem applyPenalty_history_uncapped :
    (∀ (penaltyRules : PenaltyRules) (scores : Scores)
        (agentName penaltyStr description : String) (now : Int) (agent : AgentRecord)
        (cfg : CategoryConfig),
      scores.agents.lookup agentName = some agent →
      penaltyRules.categories.lookup (penaltyCategory penaltyStr) = some cfg →
      ∃ agent',
        recordAfter (applyPenalty penaltyRules scores agentName penaltyStr description now)
          agentName = some agent' ∧
        agent'.developmentMemory.workHistory =
          penaltyWorkEntry cfg penaltyStr description now
            (assignedEscalation agent.penalties (penaltyCategory penaltyStr) now)
            :: agent.developmentMemory.workHistory) ∧
    ((fullHistoryScores.agents.lookup "정국").map
        fun r => r.developmentMemory.workHistory.length) = some 50 ∧
    ((recordAfter (applyPenalty examplePenaltyRules fullHistoryScores "정국" "process:x" "" 0)
        "정국").map fun r => r.developmentMemory.workHistory.length) = some 51 ∧
    ((recordAfter (applyFeedback usageMetrics fullHistoryScores "정국" "failure" "" 0)
        "정국").map fun r => r.developmentMemory.workHistory.length) = some 50 := by
  refine ⟨?_, by decide, by decide, by decide⟩
  intro penaltyRules scores agentName penaltyStr description now agent cfg hagent hcfg
  exact ⟨_, applyPenalty_record penaltyRules scores agentName penaltyStr description now agent
    cfg hagent hcfg, rfl⟩
/-! ## Sequences of runs -/

/-- A run that saves keeps every agent of the document and does not lower its warnings. -/
theorem applyEvent_warnings (metrics : MetricsConfig) (penaltyRules : PenaltyRules)
    (scores scores' : Scores) (event : Event)
    (h : applyEvent metrics penaltyRules scores event = .saved scores')
    (name : String) (r : AgentRecord) (hr : scores.agents.lookup name = some r) :
    ∃ r', scores'.agents.lookup name = some r' ∧ r.warnings ≤ r'.warnings := by
  cases event with
  | feedback agentName type description now =>
    obtain ⟨agent, cfg, ha, _, e⟩ := applyFeedback_saved_inv metrics scores scores' agentName
      type description now h
    subst e
    by_cases hn : name = agentName
    · subst hn
      rw [hr] at ha
      cases ha
      exact ⟨_, lookup_setProperty _ _ _ _ hr, le_rfl⟩
    · exact ⟨r, by simpa [lookup_setProperty_ne _ _ _ _ hn] using hr, le_rfl⟩
  | penalty agentName penaltyStr description now =>
    obtain ⟨agent, cfg, ha, _, e⟩ := applyPenalty_saved_inv penaltyRules scores scores'
      agentName penaltyStr description now h
    subst e
    by_cases hn : name = agentName
    · subst hn
      rw [hr] at ha
      cases ha
      exact ⟨_, lookup_setProperty _ _ _ _ hr, le_max_left _ _⟩
    · exact ⟨r, by simpa [lookup_setProperty_ne _ _ _ _ hn] using hr, le_rfl⟩

theorem applyEvents_warnings (metrics : MetricsConfig) (penaltyRules : PenaltyRules) :
    ∀ (events : List Event) (scores scores' : Scores),
      applyEvents metrics penaltyRules scores events = some scores' →
      ∀ (name : String) (r : AgentRecord), scores.agents.lookup name = some r →
      ∃ r', scores'.agents.lookup name = some r' ∧ r.warnings ≤ r'.warnings := by
  intro events
  induction events with
  | nil =>
    intro scores scores' h name r hr
    simp only [applyEvents, Option.some.injEq] at h
    subst h
    exact ⟨r, hr, le_rfl⟩
  | cons event rest ih =>
    intro scores scores' h name r hr
    unfold applyEvents at h
    cases he : applyEvent metrics penaltyRules scores event with
    | saved s1 =>
      rw [he] at h
      obtain ⟨r1, hr1, hle1⟩ := applyEvent_warnings metrics penaltyRules scores s1 event he
        name r hr
      obtain ⟨r2, hr2, hle2⟩ := ih s1 scores' h name r1 hr1
      exact ⟨r2, hr2, le_trans hle1 hle2⟩
    | exit code =>
      rw [he] at h
      exact ih scores scores' h name r hr
    | uncaught =>
      rw [he] at h
      exact ih scores scores' h name r hr
    | savedNaN =>
      rw [he] at h
      simp at h

/-- C16: for a record of the document and a known category, after `applyPenalty` the
warnings of the record are the maximum of the old warnings and the level assigned to the
penalty; and over every sequence of feedback and penalty runs the warnings of an agent do not
decrease. -/
theorem applyPenalty_warnings (penaltyRules : PenaltyRules) (scores : Scores)
    (agentName penaltyStr description : String) (now : Int) (agent : AgentRecord)
    (cfg : CategoryConfig)
    (hagent : scores.agents.lookup agentName = some agent)
    (hcfg : penaltyRules.categories.lookup (penaltyCategory penaltyStr) = some cfg) :
    (∃ agent',
      recordAfter (applyPenalty penaltyRules scores agentName penaltyStr description now)
        agentName = some agent' ∧
      agent'.warnings = max agent.warnings
        (assignedEscalation agent.penalties (penaltyCategory penaltyStr) now).level) ∧
    (∀ (metrics : MetricsConfig) (events : List Event) (scores' : Scores),
      applyEvents metrics penaltyRules scores events = some scores' →
      ∃ r, scores'.agents.lookup agentName = some r ∧ agent.warnings ≤ r.warnings) :=
  ⟨⟨_, applyPenalty_record penaltyRules scores agentName penaltyStr description now agent cfg
      hagent hcfg, rfl⟩,
    fun metrics events scores' h =>
      applyEvents_warnings metrics penaltyRules events scores scores' h agentName agent hagent⟩

theorem applyPenalty_warnings_witness :
    (∃ agent',
      recordAfter
        (applyPenalty examplePenaltyRules penalizedScores "정국" "process:y" ""
          (20001 * msPerDay)) "정국" = some agent' ∧
      agent'.warnings = max 1
        (assignedEscalation
          [{ date := 20000
             category := "process"
             categoryName := "프로세스 위반"
             severity := "medium"
             level := 1
             warningLevel := "⚠️"
             scoreChange := -10
             description := "process:x"
             multiplier := 1 }] (penaltyCategory "process:y") (20001 * msPerDay)).level) ∧
    (∀ (metrics : MetricsConfig) (events : List Event) (scores' : Scores),
      applyEvents metrics examplePenaltyRules penalizedScores events = some scores' →
      ∃ r, scores'.agents.lookup "정국" = some r ∧ 1 ≤ r.warnings) :=
  applyPenalty_warnings examplePenaltyRules penalizedScores "정국" "process:y" ""
    (20001 * msPerDay) _ ⟨-10, "프로세스 위반", "medium"⟩ rfl (by decide)
/-! ## Claims about the stored rank -/

theorem mem_assignProperty {α : Type} (obj : List (String × α)) (key : String) (w : α)
    (entry : String × α) (h : entry ∈ assignProperty obj key w) :
    entry ∈ obj ∨ entry.2 = w := by
  unfold assignProperty at h
  cases hl : obj.lookup key with
  | none =>
    rw [hl] at h
    rcases List.mem_append.mp h with h1 | h1
    · exact Or.inl h1
    · right
      rw [List.mem_singleton.mp h1]
  | some x =>
    rw [hl] at h
    exact mem_setProperty obj key w entry h

theorem initialRecord_rank (metrics : MetricsConfig) (model : Option String) (now : Int) :
    (initialRecord metrics model now).rank
      = getRank (initialRecord metrics model now).totalScore := rfl

theorem initializeAgents_rank (registry : Registry) (metrics : MetricsConfig) (now : Int) :
    ∀ (names : List String) (acc result : List (String × AgentRecord)),
      (∀ entry ∈ acc, entry.2.rank = getRank entry.2.totalScore) →
      initializeAgents registry metrics now acc names = some result →
      ∀ entry ∈ result, entry.2.rank = getRank entry.2.totalScore := by
  intro names
  induction names with
  | nil =>
    intro acc result hacc h
    simp only [initializeAgents, Option.some.injEq] at h
    subst h
    exact hacc
  | cons name rest ih =>
    intro acc result hacc h
    unfold initializeAgents at h
    cases hp : getProperty registry.agents name with
    | absent => rw [hp] at h; simp at h
    | inherited =>
      rw [hp] at h
      refine ih _ result ?_ h
      intro entry he
      rcases mem_assignProperty _ _ _ _ he with h1 | h1
      · exact hacc entry h1
      · rw [h1]; rfl
    | own agent =>
      rw [hp] at h
      refine ih _ result ?_ h
      intro entry he
      rcases mem_assignProperty _ _ _ _ he with h1 | h1
      · exact hacc entry h1
      · rw [h1]; rfl

theorem initializeScores_rank (registry : Registry) (metrics : MetricsConfig)
    (projectName : String) (now : Int) (scores' : Scores)
    (h : initializeScores registry metrics projectName now = .saved scores') :
    RankConsistent scores' := by
  unfold initializeScores at h
  cases hp : getProperty registry.projects projectName with
  | absent => rw [hp] at h; simp at h
  | inherited => rw [hp] at h; simp at h
  | own project =>
    rw [hp] at h
    simp only at h
    cases hi : initializeAgents registry metrics now [] project.activeAgents with
    | none => rw [hi] at h; simp at h
    | some agents =>
      rw [hi] at h
      simp only [Outcome.saved.injEq] at h
      subst h
      exact initializeAgents_rank registry metrics now _ [] agents (by simp) hi

theorem applyEvent_rank (metrics : MetricsConfig) (penaltyRules : PenaltyRules)
    (scores scores' : Scores) (event : Event)
    (h : applyEvent metrics penaltyRules scores event = .saved scores')
    (hc : RankConsistent scores) : RankConsistent scores' := by
  cases event with
  | feedback agentName type description now =>
    obtain ⟨agent, cfg, _, _, e⟩ := applyFeedback_saved_inv metrics scores scores' agentName
      type description now h
    subst e
    intro entry he
    rcases mem_setProperty _ _ _ _ he with h1 | h1
    · exact hc entry h1
    · rw [h1]; rfl
  | penalty agentName penaltyStr description now =>
    obtain ⟨agent, cfg, _, _, e⟩ := applyPenalty_saved_inv penaltyRules scores scores'
      agentName penaltyStr description now h
    subst e
    intro entry he
    rcases mem_setProperty _ _ _ _ he with h1 | h1
    · exact hc entry h1
    · rw [h1]; rfl

theorem applyEvents_rank (metrics : MetricsConfig) (penaltyRules : PenaltyRules) :
    ∀ (events : List Event) (scores scores' : Scores),
      RankConsistent scores → applyEvents metrics penaltyRules scores events = some scores' →
      RankConsistent scores' := by
  intro events
  induction events with
  | nil =>
    intro scores scores' hc h
    simp only [applyEvents, Option.some.injEq] at h
    subst h
    exact hc
  | cons event rest ih =>
    intro scores scores' hc h
    unfold applyEvents at h
    cases he : applyEvent metrics penaltyRules scores event with
    | saved s1 =>
      rw [he] at h
      exact ih s1 scores' (applyEvent_rank metrics penaltyRules scores s1 event he hc) h
    | exit code => rw [he] at h; exact ih scores scores' hc h
    | uncaught => rw [he] at h; exact ih scores scores' hc h
    | savedNaN => rw [he] at h; simp at h

/-- C20: the record that `initializeScores` creates, every record of the document that it
saves, and the record that `add-project` writes store the rank of their total score; the
record that `applyFeedback` or `applyPenalty` saves for its agent stores the rank of its new
total score; hence a document in which every record stores the rank of its score stays so
over every sequence of feedback and penalty runs. -/
theorem rank_follows_score :
    (∀ (metrics : MetricsConfig) (model : Option String) (now : Int),
      (initialRecord metrics model now).rank
        = getRank (initialRecord metrics model now).totalScore) ∧
    (∀ (registry : Registry) (metrics : MetricsConfig) (projectName : String) (now : Int)
        (scores' : Scores),
      initializeScores registry metrics projectName now = .saved scores' →
      RankConsistent scores') ∧
    (∀ (model : Option String) (now : Int),
      (addProjectRecord model now).rank = getRank (addProjectRecord model now).totalScore) ∧
    (∀ (metrics : MetricsConfig) (scores : Scores) (agentName type description : String)
        (now : Int) (agent : AgentRecord) (cfg : FeedbackConfig),
      scores.agents.lookup agentName = some agent →
      metrics.feedbackScoring.lookup type = some cfg →
      ∃ agent',
        recordAfter (applyFeedback metrics scores agentName type description now) agentName
          = some agent' ∧
        agent'.rank = getRank agent'.totalScore) ∧
    (∀ (penaltyRules : PenaltyRules) (scores : Scores)
        (agentName penaltyStr description : String) (now : Int) (agent : AgentRecord)
        (cfg : CategoryConfig),
      scores.agents.lookup agentName = some agent →
      penaltyRules.categories.lookup (penaltyCategory penaltyStr) = some cfg →
      ∃ agent',
        recordAfter (applyPenalty penaltyRules scores agentName penaltyStr description now)
          agentName = some agent' ∧
        agent'.rank = getRank agent'.totalScore) ∧
    (∀ (metrics : MetricsConfig) (penaltyRules : PenaltyRules) (events : List Event)
        (scores scores' : Scores),
      RankConsistent scores → applyEvents metrics penaltyRules scores events = some scores' →
      RankConsistent scores') := by
  refine ⟨initialRecord_rank, initializeScores_rank, fun _ _ => (by decide : ("A" : String) = getRank 800), ?_, ?_,
    fun metrics penaltyRules events => applyEvents_rank metrics penaltyRules events⟩
  · intro metrics scores agentName type description now agent cfg hagent hcfg
    refine ⟨feedbackRecord cfg type description now agent, ?_, rfl⟩
    rw [applyFeedback_saved metrics scores agentName type description now agent cfg hagent hcfg]
    exact lookup_setProperty _ _ _ _ hagent
  · intro penaltyRules scores agentName penaltyStr description now agent cfg hagent hcfg
    exact ⟨_, applyPenalty_record penaltyRules scores agentName penaltyStr description now
      agent cfg hagent hcfg, rfl⟩
/-! ## Claims about repeated penalties -/

theorem countViolations_nil (category : String) (now days : Int) :
    countViolations [] category now days = 0 := rfl

theorem countViolations_cons (penalties : List PenaltyEntry) (entry : PenaltyEntry)
    (category : String) (now days : Int) :
    countViolations (entry :: penalties) category now days =
      (if entry.category = category ∧ entry.date * msPerDay > now - days * msPerDay
        then 1 else 0) + countViolations penalties category now days := by
  unfold countViolations
  by_cases h : entry.category = category ∧ entry.date * msPerDay > now - days * msPerDay
  · simp [List.filter, h, Nat.add_comm]
  · simp [List.filter, h]

theorem countViolations_append (ps qs : List PenaltyEntry) (category : String)
    (now days : Int) :
    countViolations (ps ++ qs) category now days =
      countViolations ps category now days + countViolations qs category now days := by
  unfold countViolations
  rw [List.filter_append, List.length_append]

theorem countViolations_other (penalties : List PenaltyEntry) (category : String)
    (now days : Int) (h : ∀ p ∈ penalties, p.category ≠ category) :
    countViolations penalties category now days = 0 := by
  unfold countViolations
  rw [List.length_eq_zero, List.filter_eq_nil_iff]
  intro p hp
  simp [h p hp]

theorem msPerDay_eq : msPerDay = 86400000 := by decide

/-- A stored day begins less than a day before the instant it was taken from. -/
theorem day_start_within (a b : Int) (h : b - a ≤ 29 * msPerDay) :
    b - 30 * msPerDay < isoDate a * msPerDay := by
  unfold isoDate
  rw [msPerDay_eq] at *
  omega
/-- C15 (as stated, refuted): three `process` penalties at 23:00 of day 20000, 29 days and 12
hours later, and one hour after that lie within 30 days, and the multipliers are 1, 1, 2 with
score changes -10, -10, -20: the first penalty is stored with the date of its day, whose
beginning is more than 30 days before the second and the third instant. -/
theorem three_penalties_day_granularity :
    (82800000 : Int) + 20000 * msPerDay ≤ 82800000 + 20000 * msPerDay + 2548800000 ∧
    (82800000 : Int) + 20000 * msPerDay + 2548800000
      ≤ 82800000 + 20000 * msPerDay + 2552400000 ∧
    ((82800000 : Int) + 20000 * msPerDay + 2552400000) - (82800000 + 20000 * msPerDay)
      < 30 * msPerDay ∧
    ((exampleScores.agents.lookup "정국").map fun r => r.penalties) = some [] ∧
    ((examplePenaltyRules.categories.lookup "process").map fun c => c.basePoints)
      = some (-10) ∧
    ((applyEvents usageMetrics examplePenaltyRules exampleScores
        [.penalty "정국" "process:a" "" (82800000 + 20000 * msPerDay),
          .penalty "정국" "process:b" "" (82800000 + 20000 * msPerDay + 2548800000),
          .penalty "정국" "process:c" "" (82800000 + 20000 * msPerDay + 2552400000)]).bind
      fun scores => (scores.agents.lookup "정국").map
        fun r => r.penalties.map fun p => (p.multiplier, p.scoreChange))
      = some [(1, -10), (1, -10), (2, -20)] := by
  decide

/-- C15 (amended): for three times `t1 ≤ t2 ≤ t3` such that the UTC day of `t1` begins after
`t3` minus 30 days, which holds whenever `t3 - t1` is at most 29 days, and a record with no
earlier penalty of the category, three runs of `applyPenalty` for the same category with base
points -10 at `t1`, `t2` and `t3` append three penalties with multipliers 1, 2, 3 and score
changes -10, -20, -30 in that order, each dated with the day of its run. -/
theorem three_penalties (metrics : MetricsConfig) (penaltyRules : PenaltyRules)
    (scores : Scores) (agentName s1 s2 s3 d1 d2 d3 : String) (t1 t2 t3 : Int)
    (agent : AgentRecord) (cfg : CategoryConfig)
    (hagent : scores.agents.lookup agentName = some agent)
    (hc2 : penaltyCategory s2 = penaltyCategory s1)
    (hc3 : penaltyCategory s3 = penaltyCategory s1)
    (hcfg : penaltyRules.categories.lookup (penaltyCategory s1) = some cfg)
    (hbase : cfg.basePoints = -10)
    (hnone : ∀ p ∈ agent.penalties, p.category ≠ penaltyCategory s1)
    (h12 : t1 ≤ t2) (h23 : t2 ≤ t3)
    (hwin : t3 - 30 * msPerDay < isoDate t1 * msPerDay) :
    (∃ (scores' : Scores) (agent' : AgentRecord) (e1 e2 e3 : PenaltyEntry),
      applyEvents metrics penaltyRules scores
        [.penalty agentName s1 d1 t1, .penalty agentName s2 d2 t2,
          .penalty agentName s3 d3 t3] = some scores' ∧
      scores'.agents.lookup agentName = some agent' ∧
      agent'.penalties = agent.penalties ++ [e1, e2, e3] ∧
      (e1.multiplier, e2.multiplier, e3.multiplier) = (1, 2, 3) ∧
      (e1.scoreChange, e2.scoreChange, e3.scoreChange) = (-10, -20, -30) ∧
      (e1.date, e2.date, e3.date) = (isoDate t1, isoDate t2, isoDate t3)) ∧
    (∀ a b : Int, b - a ≤ 29 * msPerDay → b - 30 * msPerDay < isoDate a * msPerDay) := by
  refine ⟨?_, day_start_within⟩
  have hcfg2 : penaltyRules.categories.lookup (penaltyCategory s2) = some cfg := hc2 ▸ hcfg
  have hcfg3 : penaltyRules.categories.lookup (penaltyCategory s3) = some cfg := hc3 ▸ hcfg
  -- the dates of the three runs
  have w30 : t2 - 30 * msPerDay < isoDate t1 * msPerDay := by
    simp only [isoDate, msPerDay_eq] at hwin ⊢
    omega
  have w60 : t2 - 60 * msPerDay < isoDate t1 * msPerDay := by
    simp only [isoDate, msPerDay_eq] at hwin ⊢
    omega
  have x30 : t3 - 30 * msPerDay < isoDate t1 * msPerDay := hwin
  have x60 : t3 - 60 * msPerDay < isoDate t1 * msPerDay := by
    simp only [isoDate, msPerDay_eq] at hwin ⊢
    omega
  have v30 : t3 - 30 * msPerDay < isoDate t2 * msPerDay := by
    simp only [isoDate, msPerDay_eq] at hwin ⊢
    omega
  have v60 : t3 - 60 * msPerDay < isoDate t2 * msPerDay := by
    simp only [isoDate, msPerDay_eq] at hwin ⊢
    omega
  -- first run: no earlier penalty of the category
  have esc1 : assignedEscalation agent.penalties (penaltyCategory s1) t1 = ⟨1, 1, "⚠️"⟩ := by
    simp [assignedEscalation, countViolations_other _ _ _ _ hnone, escalationLevel]
  -- second run: one recent penalty
  have esc2 : assignedEscalation
      (agent.penalties ++ [penaltyEntry cfg (penaltyCategory s1) s1 d1 t1 ⟨1, 1, "⚠️"⟩])
      (penaltyCategory s1) t2 = ⟨2, 2, "🔴"⟩ := by
    simp [assignedEscalation, countViolations_append, countViolations_cons,
      countViolations_nil, countViolations_other _ _ _ _ hnone, escalationLevel, penaltyEntry,
      w30, w60]
  -- third run: two recent penalties
  have esc3 : assignedEscalation
      (agent.penalties ++ [penaltyEntry cfg (penaltyCategory s1) s1 d1 t1 ⟨1, 1, "⚠️"⟩,
        penaltyEntry cfg (penaltyCategory s1) s2 d2 t2 ⟨2, 2, "🔴"⟩])
      (penaltyCategory s1) t3 = ⟨3, 3, "🚨"⟩ := by
    simp [assignedEscalation, countViolations_append, countViolations_cons,
      countViolations_nil, countViolations_other _ _ _ _ hnone, escalationLevel, penaltyEntry,
      x30, x60, v30, v60]
  -- the three documents
  have run1 := applyPenalty_saved penaltyRules scores agentName s1 d1 t1 agent cfg hagent hcfg
  have hagent1 := lookup_setProperty scores.agents agentName agent
    (penaltyRecord penaltyRules cfg (penaltyCategory s1) s1 d1 t1 agent) hagent
  have run2 := applyPenalty_saved penaltyRules
    { scores with
      lastUpdated := t1
      agents := setProperty scores.agents agentName
        (penaltyRecord penaltyRules cfg (penaltyCategory s1) s1 d1 t1 agent) }
    agentName s2 d2 t2 _ cfg hagent1 hcfg2
  have hagent2 := lookup_setProperty
    (setProperty scores.agents agentName
      (penaltyRecord penaltyRules cfg (penaltyCategory s1) s1 d1 t1 agent)) agentName _
    (penaltyRecord penaltyRules cfg (penaltyCategory s2) s2 d2 t2
      (penaltyRecord penaltyRules cfg (penaltyCategory s1) s1 d1 t1 agent)) hagent1
  have run3 := applyPenalty_saved penaltyRules
    { scores with
      lastUpdated := t2
      agents := setProperty
        (setProperty scores.agents agentName
          (penaltyRecord penaltyRules cfg (penaltyCategory s1) s1 d1 t1 agent)) agentName
        (penaltyRecord penaltyRules cfg (penaltyCategory s2) s2 d2 t2
          (penaltyRecord penaltyRules cfg (penaltyCategory s1) s1 d1 t1 agent)) }
    agentName s3 d3 t3 _ cfg hagent2 hcfg3
  refine ⟨{ project := scores.project
            lastUpdated := t3
            agents := setProperty
              (setProperty
                (setProperty scores.agents agentName
                  (penaltyRecord penaltyRules cfg (penaltyCategory s1) s1 d1 t1 agent))
                agentName
                (penaltyRecord penaltyRules cfg (penaltyCategory s2) s2 d2 t2
                  (penaltyRecord penaltyRules cfg (penaltyCategory s1) s1 d1 t1 agent)))
              agentName
              (penaltyRecord penaltyRules cfg (penaltyCategory s3) s3 d3 t3
                (penaltyRecord penaltyRules cfg (penaltyCategory s2) s2 d2 t2
                  (penaltyRecord penaltyRules cfg (penaltyCategory s1) s1 d1 t1 agent))) },
    penaltyRecord penaltyRules cfg (penaltyCategory s3) s3 d3 t3
      (penaltyRecord penaltyRules cfg (penaltyCategory s2) s2 d2 t2
        (penaltyRecord penaltyRules cfg (penaltyCategory s1) s1 d1 t1 agent)),
    penaltyEntry cfg (penaltyCategory s1) s1 d1 t1 ⟨1, 1, "⚠️"⟩,
    penaltyEntry cfg (penaltyCategory s1) s2 d2 t2 ⟨2, 2, "🔴"⟩,
    penaltyEntry cfg (penaltyCategory s1) s3 d3 t3 ⟨3, 3, "🚨"⟩, ?_, ?_, ?_, ?_, ?_, ?_⟩
  · simp only [applyEvents, applyEvent, run1, run2, run3]
  · exact lookup_setProperty _ _ _ _ hagent2
  · simp only [penaltyRecord, hc2, hc3, esc1, esc2, esc3, List.append_assoc,
      List.singleton_append, List.cons_append, List.nil_append]
  · rfl
  · simp [penaltyEntry, hbase]
  · rfl

theorem three_penalties_witness :
    ∃ (scores' : Scores) (agent' : AgentRecord) (e1 e2 e3 : PenaltyEntry),
      applyEvents usageMetrics examplePenaltyRules exampleScores
        [.penalty "정국" "process:a" "" (82800000 + 20000 * msPerDay),
          .penalty "정국" "process:b" "" (82800000 + 20010 * msPerDay),
          .penalty "정국" "process:c" "" (82800000 + 20029 * msPerDay)] = some scores' ∧
      scores'.agents.lookup "정국" = some agent' ∧
      agent'.penalties = [] ++ [e1, e2, e3] ∧
      (e1.multiplier, e2.multiplier, e3.multiplier) = (1, 2, 3) ∧
      (e1.scoreChange, e2.scoreChange, e3.scoreChange) = (-10, -20, -30) ∧
      (e1.date, e2.date, e3.date) =
        (isoDate (82800000 + 20000 * msPerDay), isoDate (82800000 + 20010 * msPerDay),
          isoDate (82800000 + 20029 * msPerDay)) :=
  (three_penalties usageMetrics examplePenaltyRules exampleScores "정국" "process:a"
    "process:b" "process:c" "" "" "" (82800000 + 20000 * msPerDay)
    (82800000 + 20010 * msPerDay) (82800000 + 20029 * msPerDay)
    { initialRecord usageMetrics (some "sonnet") 0 with totalScore := 990, rank := "S" }
    ⟨-10, "프로세스 위반", "medium"⟩ rfl (by decide) (by decide) (by decide) rfl (by decide)
    (by decide) (by decide) (by decide)).1

/-! ## Frame of a feedback run -/

theorem keys_setProperty {α : Type} (obj : List (String × α)) (key : String) (w : α) :
    (setProperty obj key w).map Prod.fst = obj.map Prod.fst := by
  induction obj with
  | nil => rfl
  | cons kv rest ih =>
    obtain ⟨k, x⟩ := kv
    by_cases hk : (key == k) = true
    · simp [setProperty, hk]
    · simp [setProperty, hk, ih]

/-- C30: a feedback run with a configured type on a record of the document saves a record whose
penalties, warnings and improvement missions are those of the old record (so no mission
progresses or completes), whose score moves by the configured change of the type only (no
recovery points), and the document keeps its agent names and the record of every other
agent. -/
theorem applyFeedback_frame (metrics : MetricsConfig) (scores : Scores)
    (agentName type description : String) (now : Int) (agent : AgentRecord)
    (cfg : FeedbackConfig)
    (hagent : scores.agents.lookup agentName = some agent)
    (hcfg : metrics.feedbackScoring.lookup type = some cfg) :
    ∃ scores' agent',
      applyFeedback metrics scores agentName type description now = .saved scores' ∧
      scores'.agents.lookup agentName = some agent' ∧
      agent'.penalties = agent.penalties ∧
      agent'.warnings = agent.warnings ∧
      agent'.improvementMissions = agent.improvementMissions ∧
      agent'.totalScore = max 0 (min 1000 (agent.totalScore + cfg.scoreChange)) ∧
      (∀ other, other ≠ agentName → scores'.agents.lookup other = scores.agents.lookup other) ∧
      scores'.agents.map Prod.fst = scores.agents.map Prod.fst := by
  refine ⟨_, _, applyFeedback_saved metrics scores agentName type description now agent cfg
    hagent hcfg, lookup_setProperty _ _ _ _ hagent, rfl, rfl, rfl, rfl, ?_, ?_⟩
  · intro other hne
    exact lookup_setProperty_ne _ _ _ _ hne
  · exact keys_setProperty _ _ _

/-- The frame of an `excellent` feedback on a record that has a penalty and a warning. -/
theorem applyFeedback_frame_witness :
    ∃ agent cfg, penalizedScores.agents.lookup "정국" = some agent ∧
      usageMetrics.feedbackScoring.lookup "excellent" = some cfg ∧
      agent.penalties ≠ [] ∧ agent.warnings = 1 ∧
      ∃ scores' agent',
        applyFeedback usageMetrics penalizedScores "정국" "excellent" "" 0 = .saved scores' ∧
        scores'.agents.lookup "정국" = some agent' ∧
        agent'.penalties = agent.penalties ∧
        agent'.warnings = agent.warnings ∧
        agent'.improvementMissions = agent.improvementMissions ∧
        agent'.totalScore = max 0 (min 1000 (agent.totalScore + cfg.scoreChange)) ∧
        (∀ other, other ≠ "정국" →
          scores'.agents.lookup other = penalizedScores.agents.lookup other) ∧
        scores'.agents.map Prod.fst = penalizedScores.agents.map Prod.fst :=
  ⟨_, _, rfl, rfl, by decide, by decide,
    applyFeedback_frame usageMetrics penalizedScores "정국" "excellent" "" 0 _ _ rfl rfl⟩

/-! ## The first event of an agent (`loadScores`) -/

theorem lookup_assignProperty_self {α : Type} (obj : List (String × α)) (key : String)
    (w : α) : (assignProperty obj key w).lookup key = some w := by
  unfold assignProperty
  cases hl : obj.lookup key with
  | none =>
    simp only
    induction obj with
    | nil => simp [List.lookup]
    | cons kv rest ih =>
      obtain ⟨k, x⟩ := kv
      by_cases hk : key = k
      · subst hk
        simp [List.lookup] at hl
      · have hb : (key == k) = false := by simpa using hk
        simp only [List.lookup, hb] at hl
        simp only [List.cons_append, List.lookup, hb]
        exact ih hl
  | some v => exact lookup_setProperty obj key v w hl

theorem lookup_assignProperty_ne {α : Type} (obj : List (String × α)) (key name : String)
    (w : α) (h : name ≠ key) : (assignProperty obj key w).lookup name = obj.lookup name := by
  unfold assignProperty
  cases hl : obj.lookup key with
  | none =>
    simp only
    induction obj with
    | nil =>
      have hb : (name == key) = false := by simpa using h
      simp [List.lookup, hb]
    | cons kv rest ih =>
      obtain ⟨k, x⟩ := kv
      by_cases hk : key = k
      · subst hk
        simp [List.lookup] at hl
      · have hb : (key == k) = false := by simpa using hk
        simp only [List.lookup, hb] at hl
        by_cases hn : name = k
        · subst hn
          simp [List.lookup]
        · have hnb : (name == k) = false := by simpa using hn
          simp only [List.cons_append, List.lookup, hnb]
          exact ih hl
  | some v => exact lookup_setProperty_ne obj key name w h

/-- The loop of `initializeScores` gives every listed agent the initial record and leaves the
other names of the document alone. -/
theorem initializeAgents_lookup (registry : Registry) (metrics : MetricsConfig) (now : Int)
    (names : List String) :
    ∀ (acc result : List (String × AgentRecord)),
      initializeAgents registry metrics now acc names = some result →
      ∀ name, (name ∈ names → ∃ model, result.lookup name = some (initialRecord metrics model now))
        ∧ (name ∉ names → result.lookup name = acc.lookup name) := by
  induction names with
  | nil =>
    intro acc result h name
    simp only [initializeAgents, Option.some.injEq] at h
    subst h
    exact ⟨fun hm => absurd hm (List.not_mem_nil _), fun _ => rfl⟩
  | cons a rest ih =>
    intro acc result h name
    have key : ∀ model,
        initializeAgents registry metrics now
          (assignProperty acc a (initialRecord metrics model now)) rest = some result →
        (name ∈ a :: rest → ∃ model, result.lookup name = some (initialRecord metrics model now))
          ∧ (name ∉ a :: rest → result.lookup name = acc.lookup name) := by
      intro model h'
      have hrec := ih _ result h' name
      constructor
      · intro hm
        by_cases hr : name ∈ rest
        · exact hrec.1 hr
        · have hna : name = a := by
            rcases List.mem_cons.mp hm with h1 | h1
            · exact h1
            · exact absurd h1 hr
          subst hna
          exact ⟨model, by rw [hrec.2 hr, lookup_assignProperty_self]⟩
      · intro hm
        have hr : name ∉ rest := fun hr => hm (List.mem_cons_of_mem _ hr)
        have hna : name ≠ a := fun e => hm (e ▸ List.mem_cons_self _ _)
        rw [hrec.2 hr, lookup_assignProperty_ne _ _ _ _ hna]
    unfold initializeAgents at h
    cases hp : getProperty registry.agents a with
    | absent => rw [hp] at h; simp at h
    | inherited => rw [hp] at h; exact key none h
    | own agent => rw [hp] at h; exact key (some agent.recommendedModel) h

/-- The loop of `initializeScores` ends when every listed agent is in the registry. -/
theorem initializeAgents_isSome (registry : Registry) (metrics : MetricsConfig) (now : Int)
    (names : List String) (hreg : ∀ name ∈ names, getProperty registry.agents name ≠ .absent) :
    ∀ acc, ∃ result, initializeAgents registry metrics now acc names = some result := by
  induction names with
  | nil => intro acc; exact ⟨acc, rfl⟩
  | cons a rest ih =>
    intro acc
    have hrest : ∀ name ∈ rest, getProperty registry.agents name ≠ .absent :=
      fun name hm => hreg name (List.mem_cons_of_mem _ hm)
    have ha := hreg a (List.mem_cons_self _ _)
    unfold initializeAgents
    cases hp : getProperty registry.agents a with
    | absent => exact absurd hp ha
    | inherited => exact ih hrest _
    | own agent => exact ih hrest _

/-- The statement of the record lifecycle fails on an existing score file: the file of
`exampleScores` has no record of the active agent 뷔, and both a valid feedback and a valid
penalty for 뷔 end with exit status 1 without creating the record. -/
theorem first_event_existing_file_exits :
    (∃ project, exampleRegistry.projects.lookup "wedding" = some project ∧
      "뷔" ∈ project.activeAgents) ∧
    exampleScores.agents.lookup "뷔" = none ∧
    (usageMetrics.feedbackScoring.lookup "success").isSome = true ∧
    (examplePenaltyRules.categories.lookup (penaltyCategory "process:x")).isSome = true ∧
    feedbackRun exampleRegistry usageMetrics (some exampleScores) "wedding" "뷔" "success" "" 0
      = ⟨none, .exit 1⟩ ∧
    penaltyRun exampleRegistry usageMetrics examplePenaltyRules (some exampleScores) "wedding"
      "뷔" "process:x" "process:x" 0 = ⟨none, .exit 1⟩ := by
  refine ⟨⟨_, rfl, by decide⟩, by decide, by decide, by decide, by decide, by decide⟩

/-- C26 (amended): when the score file of the project is missing, the call first saves a
document with the initial record (configured initial score, its rank, empty histories) of
every active agent, and a valid event for an active agent is then applied to that record; for
an agent that is not active the call ends with exit status 1 after the document was saved.
When the score file exists and has no record of the agent, the call ends with exit status 1
and creates nothing. -/
theorem first_event_record :
    (∀ (registry : Registry) (metrics : MetricsConfig) (penaltyRules : PenaltyRules)
      (projectName agentName : String) (project : Project) (now : Int),
      registry.projects.lookup projectName = some project →
      (∀ name ∈ project.activeAgents, getProperty registry.agents name ≠ .absent) →
      agentName ∈ project.activeAgents →
      ∃ doc model,
        initializeScores registry metrics projectName now = .saved doc ∧
        doc.agents.lookup agentName = some (initialRecord metrics model now) ∧
        (initialRecord metrics model now).totalScore = metrics.initialScore ∧
        (initialRecord metrics model now).rank = getRank metrics.initialScore ∧
        (initialRecord metrics model now).recentTasks = [] ∧
        (initialRecord metrics model now).developmentMemory.workHistory = [] ∧
        (initialRecord metrics model now).penalties = [] ∧
        (∀ type description cfg, metrics.feedbackScoring.lookup type = some cfg →
          feedbackRun registry metrics none projectName agentName type description now =
            ⟨some doc, .saved
              { doc with
                lastUpdated := now
                agents := setProperty doc.agents agentName
                  (feedbackRecord cfg type description now
                    (initialRecord metrics model now)) }⟩) ∧
        (∀ penaltyStr description cfg,
          penaltyRules.categories.lookup (penaltyCategory penaltyStr) = some cfg →
          penaltyRun registry metrics penaltyRules none projectName agentName penaltyStr
              description now =
            ⟨some doc, .saved
              { doc with
                lastUpdated := now
                agents := setProperty doc.agents agentName
                  (penaltyRecord penaltyRules cfg (penaltyCategory penaltyStr) penaltyStr
                    description now (initialRecord metrics model now)) }⟩)) ∧
    (∀ (registry : Registry) (metrics : MetricsConfig) (penaltyRules : PenaltyRules)
      (projectName agentName : String) (project : Project) (now : Int),
      registry.projects.lookup projectName = some project →
      (∀ name ∈ project.activeAgents, getProperty registry.agents name ≠ .absent) →
      agentName ∉ project.activeAgents → agentName ∉ objectPrototypeKeys →
      ∃ doc,
        initializeScores registry metrics projectName now = .saved doc ∧
        doc.agents.lookup agentName = none ∧
        (∀ type description,
          feedbackRun registry metrics none projectName agentName type description now =
            ⟨some doc, .exit 1⟩) ∧
        (∀ penaltyStr description,
          penaltyRun registry metrics penaltyRules none projectName agentName penaltyStr
            description now = ⟨some doc, .exit 1⟩)) ∧
    (∀ (registry : Registry) (metrics : MetricsConfig) (penaltyRules : PenaltyRules)
      (scores : Scores) (projectName agentName : String) (now : Int),
      getProperty registry.projects projectName ≠ .absent →
      getProperty scores.agents agentName = .absent →
      (∀ type description,
        feedbackRun registry metrics (some scores) projectName agentName type description now =
          ⟨none, .exit 1⟩) ∧
      (∀ penaltyStr description,
        penaltyRun registry metrics penaltyRules (some scores) projectName agentName penaltyStr
          description now = ⟨none, .exit 1⟩)) := by
  refine ⟨?_, ?_, ?_⟩
  · intro registry metrics penaltyRules projectName agentName project now hproj hreg hactive
    obtain ⟨agents, hagents⟩ :=
      initializeAgents_isSome registry metrics now project.activeAgents hreg []
    obtain ⟨model, hmodel⟩ :=
      (initializeAgents_lookup registry metrics now project.activeAgents [] agents hagents
        agentName).1 hactive
    have hinit : initializeScores registry metrics projectName now =
        .saved { project := projectName, lastUpdated := now, agents := agents } := by
      simp [initializeScores, getProperty_own _ _ _ hproj, hagents]
    have hload : loadScores registry metrics none projectName now =
        .initialized { project := projectName, lastUpdated := now, agents := agents } := by
      simp [loadScores, getProperty_own _ _ _ hproj, hinit]
    refine ⟨_, model, hinit, hmodel, rfl, rfl, rfl, rfl, rfl, ?_, ?_⟩
    · intro type description cfg hcfg
      simp only [feedbackRun, hload]
      rw [applyFeedback_saved metrics _ agentName type description now _ cfg hmodel hcfg]
    · intro penaltyStr description cfg hcfg
      simp only [penaltyRun, hload]
      rw [applyPenalty_saved penaltyRules _ agentName penaltyStr description now _ cfg hmodel
        hcfg]
  · intro registry metrics penaltyRules projectName agentName project now hproj hreg hactive
      hproto
    obtain ⟨agents, hagents⟩ :=
      initializeAgents_isSome registry metrics now project.activeAgents hreg []
    have hnone : agents.lookup agentName = none :=
      (initializeAgents_lookup registry metrics now project.activeAgents [] agents hagents
        agentName).2 hactive
    have hinit : initializeScores registry metrics projectName now =
        .saved { project := projectName, lastUpdated := now, agents := agents } := by
      simp [initializeScores, getProperty_own _ _ _ hproj, hagents]
    have hload : loadScores registry metrics none projectName now =
        .initialized { project := projectName, lastUpdated := now, agents := agents } := by
      simp [loadScores, getProperty_own _ _ _ hproj, hinit]
    have habs : getProperty agents agentName = .absent := getProperty_absent _ _ hnone hproto
    refine ⟨_, hinit, hnone, ?_, ?_⟩
    · intro type description
      simp [feedbackRun, hload, applyFeedback, habs]
    · intro penaltyStr description
      simp [penaltyRun, hload, applyPenalty, habs]
  · intro registry metrics penaltyRules scores projectName agentName now hproj habs
    have hload : loadScores registry metrics (some scores) projectName now = .parsed scores := by
      unfold loadScores
      cases hp : getProperty registry.projects projectName with
      | absent => exact absurd hp hproj
      | inherited => rfl
      | own project => rfl
    constructor
    · intro type description
      simp [feedbackRun, hload, applyFeedback, habs]
    · intro penaltyStr description
      simp [penaltyRun, hload, applyPenalty, habs]

/-- The first feedback and the first penalty of the active agent 뷔 when the score file of the
project is missing. -/
theorem first_event_record_witness :
    ∃ doc model,
      initializeScores exampleRegistry usageMetrics "wedding" 0 = .saved doc ∧
      doc.agents.lookup "뷔" = some (initialRecord usageMetrics model 0) ∧
      recordAfter (feedbackRun exampleRegistry usageMetrics none "wedding" "뷔" "success" ""
        0).outcome "뷔" =
        some (feedbackRecord ⟨15, "작업 성공"⟩ "success" "" 0 (initialRecord usageMetrics model 0)) := by
  obtain ⟨doc, model, hinit, hrec, -, -, -, -, -, hfb, -⟩ :=
    first_event_record.1 exampleRegistry usageMetrics examplePenaltyRules "wedding" "뷔"
      ⟨["정국", "뷔"]⟩ 0 rfl (by decide) (by decide)
  refine ⟨doc, model, hinit, hrec, ?_⟩
  rw [hfb "success" "" ⟨15, "작업 성공"⟩ rfl]
  simp only [recordAfter, savedScores, Option.bind]
  exact lookup_setProperty _ _ _ _ hrec

/-! ## Migration: the steps of the loops -/

theorem hasKeys_of_modelOverride (entry : AgentOverlay)
    (h : (truthyStr entry.modelOverride).isSome = true) : hasKeys entry = true := by
  cases hm : entry.modelOverride with
  | none => rw [hm] at h; simp [truthyStr] at h
  | some m => simp [hasKeys, hm]

theorem alreadyMigrated_of_modelMigrated (agents : List (String × AgentOverlay)) (name : String)
    (h : modelMigrated agents name = true) : alreadyMigrated agents name = true := by
  unfold modelMigrated at h
  unfold alreadyMigrated
  cases hl : agents.lookup name with
  | none => rw [hl] at h; simp at h
  | some entry =>
    rw [hl] at h
    exact hasKeys_of_modelOverride entry h

theorem migrateCustomization_skip (state : Migration) (entry : String × Customizations)
    (h : noKeys entry.2 = true ∨ hasKeys (agentOverride entry.2) = false ∨
      alreadyMigrated state.agents entry.1 = true) :
    migrateCustomization state entry = state := by
  unfold migrateCustomization
  rcases h with h | h | h
  · simp [h]
  · simp [h]
  · simp [h]

theorem migrateCustomization_lookup_ne (state : Migration) (entry : String × Customizations)
    (name : String) (h : name ≠ entry.1) :
    (migrateCustomization state entry).agents.lookup name = state.agents.lookup name := by
  unfold migrateCustomization
  split
  · rfl
  · split
    · rfl
    · split
      · exact lookup_assignProperty_ne _ _ _ _ h
      · rfl

theorem migrateCustomization_lookup (state : Migration) (entry : String × Customizations)
    (name : String) (h : alreadyMigrated state.agents name = true) :
    (migrateCustomization state entry).agents.lookup name = state.agents.lookup name := by
  by_cases hn : name = entry.1
  · rw [migrateCustomization_skip state entry (Or.inr (Or.inr (hn ▸ h)))]
  · exact migrateCustomization_lookup_ne state entry name hn

theorem migrateCustomization_settled (state : Migration) (entry : String × Customizations) :
    noKeys entry.2 = true ∨ hasKeys (agentOverride entry.2) = false ∨
      alreadyMigrated (migrateCustomization state entry).agents entry.1 = true := by
  by_cases h1 : noKeys entry.2 = true
  · exact Or.inl h1
  by_cases h2 : hasKeys (agentOverride entry.2) = true
  swap
  · exact Or.inr (Or.inl (by simpa using h2))
  refine Or.inr (Or.inr ?_)
  by_cases h3 : alreadyMigrated state.agents entry.1 = true
  · rw [migrateCustomization_skip state entry (Or.inr (Or.inr h3))]
    exact h3
  · simp only [migrateCustomization, h1, h3, h2, if_true, if_false, Bool.false_eq_true]
    simp only [alreadyMigrated, lookup_assignProperty_self]
    exact h2

theorem migrateModelOverride_skip (state : Migration) (entry : String × String)
    (h : modelMigrated state.agents entry.1 = true) :
    migrateModelOverride state entry = state := by
  unfold modelMigrated at h
  cases hl : state.agents.lookup entry.1 with
  | none => rw [hl] at h; simp at h
  | some existing =>
    rw [hl] at h
    simp only at h
    simp [migrateModelOverride, getProperty_own _ _ _ hl, h]

theorem migrateModelOverride_lookup_ne (state : Migration) (entry : String × String)
    (name : String) (h : name ≠ entry.1) :
    (migrateModelOverride state entry).agents.lookup name = state.agents.lookup name := by
  unfold migrateModelOverride
  split
  · exact lookup_assignProperty_ne _ _ _ _ h
  · rfl
  · split
    · rfl
    · exact lookup_setProperty_ne _ _ _ _ h

theorem migrateModelOverride_lookup (state : Migration) (entry : String × String)
    (name : String) (h : modelMigrated state.agents name = true) :
    (migrateModelOverride state entry).agents.lookup name = state.agents.lookup name := by
  by_cases hn : name = entry.1
  · rw [migrateModelOverride_skip state entry (hn ▸ h)]
  · exact migrateModelOverride_lookup_ne state entry name hn

/-- What the step of a model override does to the entry of its own agent, when the document
has one. -/
theorem migrateModelOverride_own (state : Migration) (entry : String × String)
    (existing : AgentOverlay) (h : state.agents.lookup entry.1 = some existing) :
    (migrateModelOverride state entry).agents.lookup entry.1 =
      some (if (truthyStr existing.modelOverride).isSome then existing
        else { existing with modelOverride := some entry.2 }) := by
  simp only [migrateModelOverride, getProperty_own _ _ _ h]
  split
  · exact h
  · exact lookup_setProperty _ _ _ _ h

/-- What the step of a model override does when the document has no entry of the agent. -/
theorem migrateModelOverride_absent (state : Migration) (entry : String × String)
    (h : state.agents.lookup entry.1 = none) (hp : entry.1 ∉ objectPrototypeKeys) :
    (migrateModelOverride state entry).agents.lookup entry.1 =
      some { emptyOverride with modelOverride := some entry.2 } := by
  simp only [migrateModelOverride, getProperty_absent _ _ h hp]
  exact lookup_assignProperty_self _ _ _

theorem migrateModelOverride_settled (state : Migration) (entry : String × String)
    (hm : entry.2 ≠ "") (hp : entry.1 ∉ objectPrototypeKeys) :
    modelMigrated (migrateModelOverride state entry).agents entry.1 = true := by
  unfold modelMigrated
  cases hl : state.agents.lookup entry.1 with
  | none =>
    rw [migrateModelOverride_absent state entry hl hp]
    simp [truthyStr, hm]
  | some existing =>
    rw [migrateModelOverride_own state entry existing hl]
    by_cases hc : (truthyStr existing.modelOverride).isSome = true
    · simp [hc]
    · rw [if_neg hc]
      simp [truthyStr, hm]

theorem migrateModelOverride_alreadyMigrated (state : Migration) (entry : String × String)
    (name : String) (h : alreadyMigrated state.agents name = true) :
    alreadyMigrated (migrateModelOverride state entry).agents name = true := by
  by_cases hn : name = entry.1
  · subst hn
    unfold alreadyMigrated at h ⊢
    cases hl : state.agents.lookup entry.1 with
    | none => rw [hl] at h; simp at h
    | some existing =>
      rw [hl] at h
      simp only at h
      rw [migrateModelOverride_own state entry existing hl]
      by_cases hc : (truthyStr existing.modelOverride).isSome = true
      · simp [hc, h]
      · simp [hc, hasKeys]
  · unfold alreadyMigrated
    rw [migrateModelOverride_lookup_ne state entry name hn]
    exact h

theorem migrateModelOverride_modelMigrated (state : Migration) (entry : String × String)
    (name : String) (h : modelMigrated state.agents name = true) :
    modelMigrated (migrateModelOverride state entry).agents name = true := by
  unfold modelMigrated
  rw [migrateModelOverride_lookup state entry name h]
  exact h

theorem migrateCustomization_alreadyMigrated (state : Migration)
    (entry : String × Customizations) (name : String)
    (h : alreadyMigrated state.agents name = true) :
    alreadyMigrated (migrateCustomization state entry).agents name = true := by
  unfold alreadyMigrated
  rw [migrateCustomization_lookup state entry name h]
  exact h

theorem migrateCustomization_modelMigrated (state : Migration)
    (entry : String × Customizations) (name : String)
    (h : modelMigrated state.agents name = true) :
    modelMigrated (migrateCustomization state entry).agents name = true := by
  unfold modelMigrated
  rw [migrateCustomization_lookup state entry name (alreadyMigrated_of_modelMigrated _ _ h)]
  exact h

/-! ## Migration: the loops -/

theorem foldl_fixed {σ ε : Type} (f : σ → ε → σ) (l : List ε) (s : σ)
    (h : ∀ e ∈ l, f s e = s) : l.foldl f s = s := by
  induction l with
  | nil => rfl
  | cons a rest ih =>
    rw [List.foldl_cons, h a (List.mem_cons_self _ _)]
    exact ih fun e he => h e (List.mem_cons_of_mem _ he)

theorem customizations_alreadyMigrated (l : List (String × Customizations)) :
    ∀ (s : Migration) (name : String), alreadyMigrated s.agents name = true →
      alreadyMigrated (l.foldl migrateCustomization s).agents name = true := by
  induction l with
  | nil => intro s name h; exact h
  | cons a rest ih =>
    intro s name h
    exact ih _ name (migrateCustomization_alreadyMigrated s a name h)

theorem customizations_modelMigrated (l : List (String × Customizations)) :
    ∀ (s : Migration) (name : String), modelMigrated s.agents name = true →
      modelMigrated (l.foldl migrateCustomization s).agents name = true := by
  induction l with
  | nil => intro s name h; exact h
  | cons a rest ih =>
    intro s name h
    exact ih _ name (migrateCustomization_modelMigrated s a name h)

theorem modelOverrides_alreadyMigrated (l : List (String × String)) :
    ∀ (s : Migration) (name : String), alreadyMigrated s.agents name = true →
      alreadyMigrated (l.foldl migrateModelOverride s).agents name = true := by
  induction l with
  | nil => intro s name h; exact h
  | cons a rest ih =>
    intro s name h
    exact ih _ name (migrateModelOverride_alreadyMigrated s a name h)

theorem modelOverrides_modelMigrated (l : List (String × String)) :
    ∀ (s : Migration) (name : String), modelMigrated s.agents name = true →
      modelMigrated (l.foldl migrateModelOverride s).agents name = true := by
  induction l with
  | nil => intro s name h; exact h
  | cons a rest ih =>
    intro s name h
    exact ih _ name (migrateModelOverride_modelMigrated s a name h)

/-- The loop over legacy customizations leaves an entry that has keys as it is. -/
theorem customizations_lookup (l : List (String × Customizations)) :
    ∀ (s : Migration) (name : String), alreadyMigrated s.agents name = true →
      (l.foldl migrateCustomization s).agents.lookup name = s.agents.lookup name := by
  induction l with
  | nil => intro s name _; rfl
  | cons a rest ih =>
    intro s name h
    rw [List.foldl_cons, ih _ name (migrateCustomization_alreadyMigrated s a name h)]
    exact migrateCustomization_lookup s a name h

/-- The loop over legacy model overrides leaves an entry with a truthy model as it is. -/
theorem modelOverrides_lookup (l : List (String × String)) :
    ∀ (s : Migration) (name : String), modelMigrated s.agents name = true →
      (l.foldl migrateModelOverride s).agents.lookup name = s.agents.lookup name := by
  induction l with
  | nil => intro s name _; rfl
  | cons a rest ih =>
    intro s name h
    rw [List.foldl_cons, ih _ name (migrateModelOverride_modelMigrated s a name h)]
    exact migrateModelOverride_lookup s a name h

/-- After the loop over legacy customizations every one of them is settled: it has no keys,
gives no override, or its agent has an entry with keys. -/
theorem customizations_settled (l : List (String × Customizations)) :
    ∀ (s : Migration), ∀ e ∈ l,
      noKeys e.2 = true ∨ hasKeys (agentOverride e.2) = false ∨
        alreadyMigrated (l.foldl migrateCustomization s).agents e.1 = true := by
  induction l with
  | nil => intro s e he; exact absurd he (List.not_mem_nil _)
  | cons a rest ih =>
    intro s e he
    rcases List.mem_cons.mp he with h1 | h1
    · subst h1
      rcases migrateCustomization_settled s e with h | h | h
      · exact Or.inl h
      · exact Or.inr (Or.inl h)
      · exact Or.inr (Or.inr (customizations_alreadyMigrated rest _ _ h))
    · exact ih _ e h1

/-- After the loop over legacy model overrides, with non-empty models and plain agent names,
every agent of them has an entry with a truthy model. -/
theorem modelOverrides_settled (l : List (String × String))
    (hl : ∀ e ∈ l, e.2 ≠ "" ∧ e.1 ∉ objectPrototypeKeys) :
    ∀ (s : Migration), ∀ e ∈ l,
      modelMigrated (l.foldl migrateModelOverride s).agents e.1 = true := by
  induction l with
  | nil => intro s e he; exact absurd he (List.not_mem_nil _)
  | cons a rest ih =>
    intro s e he
    have hrest : ∀ e ∈ rest, e.2 ≠ "" ∧ e.1 ∉ objectPrototypeKeys :=
      fun e he => hl e (List.mem_cons_of_mem _ he)
    rcases List.mem_cons.mp he with h1 | h1
    · subst h1
      exact modelOverrides_modelMigrated rest _ _
        (migrateModelOverride_settled s e (hl e he).1 (hl e he).2)
    · exact ih hrest _ e h1

/-- A second pass of the three loops over the agents that a first pass produced changes
nothing and counts nothing. -/
theorem migrateAgents_fixed (project : RegistryProject) (config : Option ProjectConfig)
    (agents : List (String × AgentOverlay))
    (hmodels : ∀ e ∈ configModelOverrides config, e.2 ≠ "" ∧ e.1 ∉ objectPrototypeKeys) :
    migrateAgents project config (migrateAgents project config agents).agents =
      { agents := (migrateAgents project config agents).agents, migratedCount := 0 } := by
  have h1 : ∀ e ∈ configCustomizations config,
      noKeys e.2 = true ∨ hasKeys (agentOverride e.2) = false ∨
        alreadyMigrated (migrateAgents project config agents).agents e.1 = true := by
    intro e he
    rcases customizations_settled (configCustomizations config) ⟨agents, 0⟩ e he with h | h | h
    · exact Or.inl h
    · exact Or.inr (Or.inl h)
    · exact Or.inr (Or.inr (customizations_alreadyMigrated _ _ _
        (modelOverrides_alreadyMigrated _ _ _ h)))
  have h2 : ∀ e ∈ configModelOverrides config,
      modelMigrated (migrateAgents project config agents).agents e.1 = true := by
    intro e he
    exact customizations_modelMigrated _ _ _
      (modelOverrides_settled (configModelOverrides config) hmodels _ e he)
  have h3 : ∀ e ∈ registryCustomizations project,
      noKeys e.2 = true ∨ hasKeys (agentOverride e.2) = false ∨
        alreadyMigrated (migrateAgents project config agents).agents e.1 = true := by
    intro e he
    exact customizations_settled (registryCustomizations project) _ e he
  generalize (migrateAgents project config agents).agents = final at h1 h2 h3
  simp only [migrateAgents]
  rw [foldl_fixed migrateCustomization (configCustomizations config) ⟨final, 0⟩
      (fun e he => migrateCustomization_skip _ e (h1 e he)),
    foldl_fixed migrateModelOverride (configModelOverrides config) ⟨final, 0⟩
      (fun e he => migrateModelOverride_skip _ e (h2 e he)),
    foldl_fixed migrateCustomization (registryCustomizations project) ⟨final, 0⟩
      (fun e he => migrateCustomization_skip _ e (h3 e he))]

/-- With an empty model override the second run counts the override again. -/
theorem migrateProject_empty_model_recounted :
    ∃ first,
      migrateProject "wedding" ⟨none⟩ (some emptyModelConfig) none 20000 = some first ∧
      migrateProject "wedding" ⟨none⟩ (some emptyModelConfig) (some first.overlay) 20000 =
        some { overlay := first.overlay, migratedCount := 1 } :=
  ⟨_, rfl, by decide⟩

/-- C21 (amended): when every legacy model override is a non-empty string under an agent name
that is no member of `Object.prototype`, and the starting overlay (if there is one) has an
`agents` object, the first run of `migrateProject` returns, and a second run on its overlay on
the same day returns the same overlay with `migratedCount = 0`. -/
theorem migrateProject_idempotent (projectName : String) (project : RegistryProject)
    (config : Option ProjectConfig) (existing : Option OverlayDocument) (today : Int)
    (hmodels : ∀ e ∈ configModelOverrides config, e.2 ≠ "" ∧ e.1 ∉ objectPrototypeKeys)
    (hagents : ∀ overlay, existing = some overlay → overlay.agents.isSome = true) :
    ∃ first,
      migrateProject projectName project config existing today = some first ∧
      migrateProject projectName project config (some first.overlay) today =
        some { overlay := first.overlay, migratedCount := 0 } := by
  have hsome : ∃ agents, (existing.getD (freshOverlay projectName today)).agents = some agents := by
    cases existing with
    | none => exact ⟨[], rfl⟩
    | some overlay =>
      have h := hagents overlay rfl
      cases ha : overlay.agents with
      | none => rw [ha] at h; simp at h
      | some agents => exact ⟨agents, ha⟩
  obtain ⟨agents, ha⟩ := hsome
  refine ⟨{ overlay :=
              { existing.getD (freshOverlay projectName today) with
                lastUpdated := some today
                agents := some (migrateAgents project config agents).agents }
            migratedCount := (migrateAgents project config agents).migratedCount }, ?_, ?_⟩
  · simp only [migrateProject, ha]
  · simp only [migrateProject, Option.getD_some,
      migrateAgents_fixed project config agents hmodels]

/-- The migration of a customization and a model override of 뷔 into a new overlay, run
twice. -/
theorem migrateProject_idempotent_witness :
    (∀ e ∈ configModelOverrides (some fullConfig), e.2 ≠ "" ∧ e.1 ∉ objectPrototypeKeys) ∧
    ∃ first,
      migrateProject "wedding" ⟨none⟩ (some fullConfig) none 20000 = some first ∧
      migrateProject "wedding" ⟨none⟩ (some fullConfig) (some first.overlay) 20000 =
        some { overlay := first.overlay, migratedCount := 0 } :=
  ⟨by decide,
    migrateProject_idempotent "wedding" ⟨none⟩ (some fullConfig) none 20000 (by decide)
      (by simp)⟩

/-! ## Migration: an agent that already has an overlay entry -/

theorem withoutAgent_cons_self {α : Type} (name : String) (value : α)
    (rest : List (String × α)) :
    withoutAgent name ((name, value) :: rest) = withoutAgent name rest := by
  simp [withoutAgent]

theorem withoutAgent_cons_ne {α : Type} (name : String) (entry : String × α)
    (rest : List (String × α)) (h : entry.1 ≠ name) :
    withoutAgent name (entry :: rest) = entry :: withoutAgent name rest := by
  simp [withoutAgent, h]

theorem withoutAgent_eq_self {α : Type} (name : String) (l : List (String × α))
    (h : l.lookup name = none) : withoutAgent name l = l := by
  induction l with
  | nil => rfl
  | cons a rest ih =>
    obtain ⟨k, x⟩ := a
    by_cases hk : name = k
    · subst hk
      simp [List.lookup] at h
    · have hb : (name == k) = false := by simpa using hk
      simp only [List.lookup, hb] at h
      rw [withoutAgent_cons_ne name (k, x) rest (fun e => hk e.symm), ih h]

/-- The loop over legacy customizations does not depend on the entries of an agent that has
an overlay entry with keys. -/
theorem customizations_without (name : String) (l : List (String × Customizations)) :
    ∀ (s : Migration), alreadyMigrated s.agents name = true →
      (withoutAgent name l).foldl migrateCustomization s = l.foldl migrateCustomization s := by
  induction l with
  | nil => intro s _; rfl
  | cons a rest ih =>
    intro s h
    obtain ⟨k, x⟩ := a
    by_cases hk : k = name
    · subst hk
      rw [withoutAgent_cons_self, List.foldl_cons,
        migrateCustomization_skip s (k, x) (Or.inr (Or.inr h))]
      exact ih s h
    · rw [withoutAgent_cons_ne name (k, x) rest hk, List.foldl_cons, List.foldl_cons]
      exact ih _ (migrateCustomization_alreadyMigrated s (k, x) name h)

/-- The loop over legacy model overrides does not depend on the entries of an agent whose
overlay entry has a truthy model. -/
theorem modelOverrides_without (name : String) (l : List (String × String)) :
    ∀ (s : Migration), modelMigrated s.agents name = true →
      (withoutAgent name l).foldl migrateModelOverride s = l.foldl migrateModelOverride s := by
  induction l with
  | nil => intro s _; rfl
  | cons a rest ih =>
    intro s h
    obtain ⟨k, x⟩ := a
    by_cases hk : k = name
    · subst hk
      rw [withoutAgent_cons_self, List.foldl_cons, migrateModelOverride_skip s (k, x) h]
      exact ih s h
    · rw [withoutAgent_cons_ne name (k, x) rest hk, List.foldl_cons, List.foldl_cons]
      exact ih _ (migrateModelOverride_modelMigrated s (k, x) name h)

/-- The loop over legacy model overrides leaves the entry of an agent without a legacy model
override as it is. -/
theorem modelOverrides_lookup_absent (name : String) (l : List (String × String)) :
    ∀ (s : Migration), l.lookup name = none →
      (l.foldl migrateModelOverride s).agents.lookup name = s.agents.lookup name := by
  induction l with
  | nil => intro s _; rfl
  | cons a rest ih =>
    intro s h
    obtain ⟨k, x⟩ := a
    by_cases hk : name = k
    · subst hk
      simp [List.lookup] at h
    · have hb : (name == k) = false := by simpa using hk
      simp only [List.lookup, hb] at h
      rw [List.foldl_cons, ih _ h]
      exact migrateModelOverride_lookup_ne s (k, x) name hk

/-- The loop over legacy customizations leaves the entry of an agent without a legacy
customization as it is. -/
theorem customizations_lookup_absent (name : String) (l : List (String × Customizations)) :
    ∀ (s : Migration), l.lookup name = none →
      (l.foldl migrateCustomization s).agents.lookup name = s.agents.lookup name := by
  induction l with
  | nil => intro s _; rfl
  | cons a rest ih =>
    intro s h
    obtain ⟨k, x⟩ := a
    by_cases hk : name = k
    · subst hk
      simp [List.lookup] at h
    · have hb : (name == k) = false := by simpa using hk
      simp only [List.lookup, hb] at h
      rw [List.foldl_cons, ih _ h]
      exact migrateCustomization_lookup_ne s (k, x) name hk

theorem configCustomizations_without (name : String) (config : Option ProjectConfig) :
    configCustomizations (configWithout name config) =
      withoutAgent name (configCustomizations config) := by
  cases config with
  | none => rfl
  | some c =>
    cases hc : c.customizations with
    | none => simp [configCustomizations, configWithout, hc, withoutAgent]
    | some l => simp [configCustomizations, configWithout, hc]

theorem configModelOverrides_without (name : String) (config : Option ProjectConfig) :
    configModelOverrides (configWithout name config) =
      withoutAgent name (configModelOverrides config) := by
  cases config with
  | none => rfl
  | some c =>
    cases hc : c.modelOverrides with
    | none => simp [configModelOverrides, configWithout, hc, withoutAgent]
    | some l => simp [configModelOverrides, configWithout, hc]

theorem registryCustomizations_without (name : String) (project : RegistryProject) :
    registryCustomizations (projectWithout name project) =
      withoutAgent name (registryCustomizations project) := by
  cases hc : project.customizations with
  | none => simp [registryCustomizations, projectWithout, hc, withoutAgent]
  | some l => simp [registryCustomizations, projectWithout, hc]

/-- The loop over legacy model overrides changes at most the model of an entry: the entry is
the old one, or the old one had no truthy model and received a legacy model of the agent. -/
theorem modelOverrides_entry (name : String) (entry : AgentOverlay)
    (all : List (String × String)) (l : List (String × String)) :
    (∀ e ∈ l, e ∈ all) → ∀ (s : Migration) (cur : AgentOverlay),
      s.agents.lookup name = some cur →
      (cur = entry ∨ (truthyStr entry.modelOverride = none ∧
        ∃ model, (name, model) ∈ all ∧ cur = { entry with modelOverride := some model })) →
      ∃ cur', (l.foldl migrateModelOverride s).agents.lookup name = some cur' ∧
        (cur' = entry ∨ (truthyStr entry.modelOverride = none ∧
          ∃ model, (name, model) ∈ all ∧
            cur' = { entry with modelOverride := some model })) := by
  induction l with
  | nil => intro _ s cur hcur hinv; exact ⟨cur, hcur, hinv⟩
  | cons a rest ih =>
    intro hall s cur hcur hinv
    have hrest : ∀ e ∈ rest, e ∈ all := fun e he => hall e (List.mem_cons_of_mem _ he)
    obtain ⟨k, x⟩ := a
    rw [List.foldl_cons]
    by_cases hk : name = k
    · subst hk
      have hstep := migrateModelOverride_own s (name, x) cur hcur
      by_cases hc : (truthyStr cur.modelOverride).isSome = true
      · rw [if_pos hc] at hstep
        exact ih hrest _ cur hstep hinv
      · rw [if_neg hc] at hstep
        refine ih hrest _ _ hstep (Or.inr ?_)
        have hmem : (name, x) ∈ all := hall _ (List.mem_cons_self _ _)
        rcases hinv with h | ⟨h1, model, _, h2⟩
        · subst h
          refine ⟨?_, x, hmem, rfl⟩
          simpa using hc
        · subst h2
          exact ⟨h1, x, hmem, rfl⟩
    · have hstep := migrateModelOverride_lookup_ne s (k, x) name hk
      rw [hcur] at hstep
      exact ih hrest _ cur hstep hinv

/-- The run of `migrateProject` on an existing overlay that has an `agents` object. -/
theorem migrateProject_some (projectName : String) (project : RegistryProject)
    (config : Option ProjectConfig) (overlay : OverlayDocument) (today : Int)
    (agents : List (String × AgentOverlay)) (hagents : overlay.agents = some agents) :
    migrateProject projectName project config (some overlay) today =
      some
        { overlay :=
            { overlay with
              lastUpdated := some today
              agents := some (migrateAgents project config agents).agents }
          migratedCount := (migrateAgents project config agents).migratedCount } := by
  simp only [migrateProject, Option.getD_some, hagents]

/-- The statement that a non-empty overlay entry is left exactly unchanged fails: the entry of
뷔 has a role override, and the legacy model override of 뷔 is added to it and counted. -/
theorem migrateProject_adds_model_to_entry :
    (∃ agents entry, roleOnlyOverlay.agents = some agents ∧
      agents.lookup "뷔" = some entry ∧ hasKeys entry = true ∧ entry.modelOverride = none) ∧
    ∃ result entry',
      migrateProject "wedding" ⟨none⟩ (some modelOnlyConfig) (some roleOnlyOverlay) 20000 =
        some result ∧
      result.overlay.agents.bind (fun agents => agents.lookup "뷔") = some entry' ∧
      entry'.modelOverride = some "opus" ∧
      result.migratedCount = 1 :=
  ⟨⟨_, _, rfl, rfl, by decide, rfl⟩, _, _, rfl, rfl, rfl, rfl⟩

/-- C22 (amended): for an agent whose entry in the existing overlay has keys, `migrateProject`
returns, and the entry afterwards is the old entry or the old entry with `modelOverride` set to
a legacy model override of the agent, the latter only when the old entry had no truthy
`modelOverride`; no legacy customization changes it. When the old entry has a truthy
`modelOverride`, or the agent has no legacy model override, the entry is exactly the old one
and the run is the run without the legacy entries of the agent, so the agent adds nothing to
`migratedCount`. -/
theorem migrateProject_existing_entry (projectName agentName : String)
    (project : RegistryProject) (config : Option ProjectConfig) (overlay : OverlayDocument)
    (today : Int) (agents : List (String × AgentOverlay)) (entry : AgentOverlay)
    (hagents : overlay.agents = some agents)
    (hentry : agents.lookup agentName = some entry)
    (hkeys : hasKeys entry = true) :
    ∃ result entry',
      migrateProject projectName project config (some overlay) today = some result ∧
      result.overlay.agents.bind (fun agents => agents.lookup agentName) = some entry' ∧
      (entry' = entry ∨ (truthyStr entry.modelOverride = none ∧
        ∃ model, (agentName, model) ∈ configModelOverrides config ∧
          entry' = { entry with modelOverride := some model })) ∧
      ((truthyStr entry.modelOverride).isSome = true ∨
          (configModelOverrides config).lookup agentName = none →
        entry' = entry ∧
        migrateProject projectName (projectWithout agentName project)
          (configWithout agentName config) (some overlay) today = some result) := by
  -- the first loop leaves the entry
  have h0 : alreadyMigrated agents agentName = true := by
    simp [alreadyMigrated, hentry, hkeys]
  have h1 : ((configCustomizations config).foldl migrateCustomization
      ⟨agents, 0⟩).agents.lookup agentName = some entry := by
    rw [customizations_lookup _ ⟨agents, 0⟩ agentName h0]
    exact hentry
  -- the second loop changes at most the model
  obtain ⟨cur, h2, hinv⟩ := modelOverrides_entry agentName entry (configModelOverrides config)
    (configModelOverrides config) (fun _ he => he) _ entry h1 (Or.inl rfl)
  have hcurkeys : hasKeys cur = true := by
    rcases hinv with h | ⟨_, model, _, h⟩
    · rw [h]; exact hkeys
    · rw [h]; simp [hasKeys]
  have h2m : alreadyMigrated ((configModelOverrides config).foldl migrateModelOverride
      ((configCustomizations config).foldl migrateCustomization ⟨agents, 0⟩)).agents
      agentName = true := by
    simp [alreadyMigrated, h2, hcurkeys]
  -- the third loop leaves the entry
  have h3 : (migrateAgents project config agents).agents.lookup agentName = some cur := by
    simp only [migrateAgents]
    rw [customizations_lookup _ _ agentName h2m]
    exact h2
  refine ⟨_, cur, migrateProject_some projectName project config overlay today agents hagents,
    ?_, hinv, ?_⟩
  · simpa using h3
  · intro hcase
    have h1a : alreadyMigrated ((configCustomizations config).foldl migrateCustomization
        ⟨agents, 0⟩).agents agentName = true := customizations_alreadyMigrated _ _ _ h0
    have hloop2 : (withoutAgent agentName (configModelOverrides config)).foldl
          migrateModelOverride
          ((configCustomizations config).foldl migrateCustomization ⟨agents, 0⟩) =
        (configModelOverrides config).foldl migrateModelOverride
          ((configCustomizations config).foldl migrateCustomization ⟨agents, 0⟩) := by
      rcases hcase with hm | hm
      · refine modelOverrides_without agentName _ _ ?_
        simp [modelMigrated, h1, hm]
      · rw [withoutAgent_eq_self agentName _ hm]
    have hcur : cur = entry := by
      rcases hcase with hm | hm
      · have hmm : modelMigrated ((configCustomizations config).foldl migrateCustomization
            ⟨agents, 0⟩).agents agentName = true := by
          simp [modelMigrated, h1, hm]
        rw [modelOverrides_lookup _ _ agentName hmm, h1] at h2
        exact (Option.some.inj h2).symm
      · rw [modelOverrides_lookup_absent agentName _ _ hm, h1] at h2
        exact (Option.some.inj h2).symm
    refine ⟨hcur, ?_⟩
    have hsame : migrateAgents (projectWithout agentName project)
        (configWithout agentName config) agents = migrateAgents project config agents := by
      simp only [migrateAgents, configCustomizations_without, configModelOverrides_without,
        registryCustomizations_without]
      rw [customizations_without agentName (configCustomizations config) ⟨agents, 0⟩ h0,
        hloop2, customizations_without agentName (registryCustomizations project) _ h2m]
    rw [migrateProject_some projectName _ _ overlay today agents hagents, hsame]

/-- The entry of 뷔 with a role and a model override, under a legacy configuration that has a
customization and a model override for 뷔: the entry stays and the run counts nothing. -/
theorem migrateProject_existing_entry_witness :
    ∃ agents entry, roleModelOverlay.agents = some agents ∧
      agents.lookup "뷔" = some entry ∧ hasKeys entry = true ∧
      ∃ result entry',
        migrateProject "wedding" ⟨none⟩ (some fullConfig) (some roleModelOverlay) 20000 =
          some result ∧
        result.overlay.agents.bind (fun agents => agents.lookup "뷔") = some entry' ∧
        (entry' = entry ∨ (truthyStr entry.modelOverride = none ∧
          ∃ model, ("뷔", model) ∈ configModelOverrides (some fullConfig) ∧
            entry' = { entry with modelOverride := some model })) ∧
        ((truthyStr entry.modelOverride).isSome = true ∨
            (configModelOverrides (some fullConfig)).lookup "뷔" = none →
          entry' = entry ∧
          migrateProject "wedding" (projectWithout "뷔" ⟨none⟩)
            (configWithout "뷔" (some fullConfig)) (some roleModelOverlay) 20000 =
              some result) :=
  ⟨_, _, rfl, rfl, by decide,
    migrateProject_existing_entry "wedding" "뷔" ⟨none⟩ (some fullConfig) roleModelOverlay
      20000 _ _ rfl rfl (by decide)⟩

/-! ## Migration: the field mapping for an agent without an overlay entry -/

/-- The run of `migrateProject` from a starting overlay that has an `agents` object. -/
theorem migrateProject_run (projectName : String) (project : RegistryProject)
    (config : Option ProjectConfig) (existing : Option OverlayDocument) (today : Int)
    (agents : List (String × AgentOverlay))
    (hagents : (existing.getD (freshOverlay projectName today)).agents = some agents) :
    migrateProject projectName project config existing today =
      some
        { overlay :=
            { existing.getD (freshOverlay projectName today) with
              lastUpdated := some today
              agents := some (migrateAgents project config agents).agents }
          migratedCount := (migrateAgents project config agents).migratedCount } := by
  simp only [migrateProject, hagents]

/-- The loop over legacy customizations stores the override of the first customization of an
agent that has no entry. -/
theorem customizations_first (name : String) (c : Customizations)
    (hkeys : hasKeys (agentOverride c) = true) (hc : noKeys c = false)
    (l : List (String × Customizations)) :
    ∀ (s : Migration), s.agents.lookup name = none → l.lookup name = some c →
      (l.foldl migrateCustomization s).agents.lookup name = some (agentOverride c) := by
  induction l with
  | nil => intro s _ h; simp [List.lookup] at h
  | cons a rest ih =>
    intro s hs h
    obtain ⟨k, x⟩ := a
    rw [List.foldl_cons]
    by_cases hk : name = k
    · subst hk
      simp only [List.lookup, beq_self_eq_true, Option.some.injEq] at h
      subst h
      have hstep : (migrateCustomization s (name, x)).agents.lookup name =
          some (agentOverride x) := by
        simp only [migrateCustomization, hc, alreadyMigrated, hs, hkeys, if_true,
          Bool.false_eq_true, if_false]
        exact lookup_assignProperty_self _ _ _
      have hm : alreadyMigrated (migrateCustomization s (name, x)).agents name = true := by
        simp [alreadyMigrated, hstep, hkeys]
      rw [customizations_lookup rest _ name hm]
      exact hstep
    · have hb : (name == k) = false := by simpa using hk
      simp only [List.lookup, hb] at h
      refine ih _ ?_ h
      rw [migrateCustomization_lookup_ne s (k, x) name hk]
      exact hs

/-- The loop over legacy model overrides stores the first non-empty model of an agent in its
entry when the entry has no model. -/
theorem modelOverrides_first_own (name model : String) (hmodel : model ≠ "")
    (l : List (String × String)) :
    ∀ (s : Migration) (cur : AgentOverlay), s.agents.lookup name = some cur →
      truthyStr cur.modelOverride = none → l.lookup name = some model →
      (l.foldl migrateModelOverride s).agents.lookup name =
        some { cur with modelOverride := some model } := by
  induction l with
  | nil => intro s cur _ _ h; simp [List.lookup] at h
  | cons a rest ih =>
    intro s cur hs hcur h
    obtain ⟨k, x⟩ := a
    rw [List.foldl_cons]
    by_cases hk : name = k
    · subst hk
      simp only [List.lookup, beq_self_eq_true, Option.some.injEq] at h
      subst h
      have hstep := migrateModelOverride_own s (name, x) cur hs
      have hno : ¬ (truthyStr cur.modelOverride).isSome = true := by simp [hcur]
      rw [if_neg hno] at hstep
      have hm : modelMigrated (migrateModelOverride s (name, x)).agents name = true := by
        simp [modelMigrated, hstep, truthyStr, hmodel]
      rw [modelOverrides_lookup rest _ name hm]
      exact hstep
    · have hb : (name == k) = false := by simpa using hk
      simp only [List.lookup, hb] at h
      refine ih _ cur ?_ hcur h
      rw [migrateModelOverride_lookup_ne s (k, x) name hk]
      exact hs

/-- The loop over legacy model overrides creates an entry that holds only the model for an
agent that has no entry. -/
theorem modelOverrides_first_absent (name model : String) (hmodel : model ≠ "")
    (hp : name ∉ objectPrototypeKeys) (l : List (String × String)) :
    ∀ (s : Migration), s.agents.lookup name = none → l.lookup name = some model →
      (l.foldl migrateModelOverride s).agents.lookup name =
        some { emptyOverride with modelOverride := some model } := by
  induction l with
  | nil => intro s _ h; simp [List.lookup] at h
  | cons a rest ih =>
    intro s hs h
    obtain ⟨k, x⟩ := a
    rw [List.foldl_cons]
    by_cases hk : name = k
    · subst hk
      simp only [List.lookup, beq_self_eq_true, Option.some.injEq] at h
      subst h
      have hstep := migrateModelOverride_absent s (name, x) hs hp
      have hm : modelMigrated (migrateModelOverride s (name, x)).agents name = true := by
        simp [modelMigrated, hstep, truthyStr, hmodel]
      rw [modelOverrides_lookup rest _ name hm]
      exact hstep
    · have hb : (name == k) = false := by simpa using hk
      simp only [List.lookup, hb] at h
      refine ih _ ?_ h
      rw [migrateModelOverride_lookup_ne s (k, x) name hk]
      exact hs

/-- The three loops for an agent without an entry whose customization is in the config file:
the entry is the override of the customization, with the model that the second loop stored. -/
theorem migrateAgents_config_customization (project : RegistryProject)
    (config : Option ProjectConfig) (agents : List (String × AgentOverlay)) (name : String)
    (c : Customizations) (hkeys : hasKeys (agentOverride c) = true) (hc : noKeys c = false)
    (hno : agents.lookup name = none)
    (hcust : (configCustomizations config).lookup name = some c) :
    ∃ entry, (migrateAgents project config agents).agents.lookup name = some entry ∧
      (entry = agentOverride c ∨ ∃ model, (name, model) ∈ configModelOverrides config ∧
        entry = { agentOverride c with modelOverride := some model }) ∧
      (∀ model, (configModelOverrides config).lookup name = some model → model ≠ "" →
        entry = { agentOverride c with modelOverride := some model }) ∧
      ((configModelOverrides config).lookup name = none → entry = agentOverride c) := by
  have h1 := customizations_first name c hkeys hc (configCustomizations config) ⟨agents, 0⟩
    hno hcust
  obtain ⟨cur, h2, hinv⟩ := modelOverrides_entry name (agentOverride c)
    (configModelOverrides config) (configModelOverrides config) (fun _ he => he) _ _ h1
    (Or.inl rfl)
  have hcurkeys : hasKeys cur = true := by
    rcases hinv with h | ⟨_, model, _, h⟩
    · rw [h]; exact hkeys
    · rw [h]; simp [hasKeys]
  have h3 : (migrateAgents project config agents).agents.lookup name = some cur := by
    simp only [migrateAgents]
    rw [customizations_lookup _ _ name (by simp [alreadyMigrated, h2, hcurkeys])]
    exact h2
  refine ⟨cur, h3, ?_, ?_, ?_⟩
  · rcases hinv with h | ⟨_, model, hm, h⟩
    · exact Or.inl h
    · exact Or.inr ⟨model, hm, h⟩
  · intro model hm hne
    have := modelOverrides_first_own name model hne (configModelOverrides config) _ _ h1 rfl hm
    rw [h2] at this
    exact Option.some.inj this
  · intro hm
    have := modelOverrides_lookup_absent name (configModelOverrides config)
      ((configCustomizations config).foldl migrateCustomization ⟨agents, 0⟩) hm
    rw [h2, h1] at this
    exact Option.some.inj this

/-- C23: for an agent without an entry in the starting overlay, a customization of the config
file with truthy role and context is stored as `roleOverride`, `expertiseOverride` and
`additionalContext`, with `modelOverride` the legacy model override when there is one; a
customization that only the registry's project entry has is stored the same way when the agent
has no legacy model override, and is dropped when it has one: the entry then holds the model
alone. The last part is the run of the registry customization of 뷔 with the model override
`opus`, next to the run of the same customization in the config file. -/
theorem migrateProject_field_mapping :
    (∀ (projectName name : String) (project : RegistryProject) (config : Option ProjectConfig)
      (existing : Option OverlayDocument) (today : Int) (agents : List (String × AgentOverlay))
      (c : Customizations) (role context : String) (expertise : List String),
      (existing.getD (freshOverlay projectName today)).agents = some agents →
      agents.lookup name = none →
      (configCustomizations config).lookup name = some c →
      c.role = some role → role ≠ "" → c.expertise = some expertise →
      c.additionalContext = some context → context ≠ "" →
      ∃ result entry,
        migrateProject projectName project config existing today = some result ∧
        result.overlay.agents.bind (fun agents => agents.lookup name) = some entry ∧
        entry.roleOverride = some role ∧
        entry.expertiseOverride = some expertise ∧
        entry.additionalContext = some context ∧
        entry.expertiseAppend = none ∧ entry.templatePatches = none ∧
        (∀ model, (configModelOverrides config).lookup name = some model → model ≠ "" →
          entry.modelOverride = some model) ∧
        ((configModelOverrides config).lookup name = none → entry.modelOverride = none)) ∧
    (∀ (projectName name : String) (project : RegistryProject) (config : Option ProjectConfig)
      (existing : Option OverlayDocument) (today : Int) (agents : List (String × AgentOverlay))
      (c : Customizations) (role context : String) (expertise : List String),
      (existing.getD (freshOverlay projectName today)).agents = some agents →
      agents.lookup name = none →
      (configCustomizations config).lookup name = none →
      (configModelOverrides config).lookup name = none →
      (registryCustomizations project).lookup name = some c →
      c.role = some role → role ≠ "" → c.expertise = some expertise →
      c.additionalContext = some context → context ≠ "" →
      ∃ result,
        migrateProject projectName project config existing today = some result ∧
        result.overlay.agents.bind (fun agents => agents.lookup name) =
          some { emptyOverride with
            roleOverride := some role
            expertiseOverride := some expertise
            additionalContext := some context }) ∧
    (∀ (projectName name : String) (project : RegistryProject) (config : Option ProjectConfig)
      (existing : Option OverlayDocument) (today : Int) (agents : List (String × AgentOverlay))
      (model : String),
      (existing.getD (freshOverlay projectName today)).agents = some agents →
      agents.lookup name = none → name ∉ objectPrototypeKeys →
      (configCustomizations config).lookup name = none →
      (configModelOverrides config).lookup name = some model → model ≠ "" →
      ∃ result,
        migrateProject projectName project config existing today = some result ∧
        result.overlay.agents.bind (fun agents => agents.lookup name) =
          some { emptyOverride with modelOverride := some model }) ∧
    migrateProject "wedding" ⟨some [("뷔", exampleCustomization)]⟩ (some modelOnlyConfig) none
        20000 =
      some
        { overlay :=
            { freshOverlay "wedding" 20000 with
              agents := some [("뷔", { emptyOverride with modelOverride := some "opus" })] }
          migratedCount := 1 } ∧
    migrateProject "wedding" ⟨none⟩ (some fullConfig) none 20000 =
      some
        { overlay :=
            { freshOverlay "wedding" 20000 with
              agents := some
                [("뷔", { agentOverride exampleCustomization with
                          modelOverride := some "opus" })] }
          migratedCount := 2 } := by
  refine ⟨?_, ?_, ?_, by decide, by decide⟩
  · intro projectName name project config existing today agents c role context expertise
      hagents hno hcust hrole hrne hexp hctx hcne
    have hkeys : hasKeys (agentOverride c) = true := by
      simp [hasKeys, agentOverride, emptyOverride, hexp]
    have hc : noKeys c = false := by simp [noKeys, hrole]
    obtain ⟨entry, hentry, hform, hsome, hnone⟩ :=
      migrateAgents_config_customization project config agents name c hkeys hc hno hcust
    have hfields : entry.roleOverride = some role ∧ entry.expertiseOverride = some expertise ∧
        entry.additionalContext = some context ∧ entry.expertiseAppend = none ∧
        entry.templatePatches = none := by
      rcases hform with h | ⟨model, _, h⟩ <;> subst h <;>
        simp [agentOverride, emptyOverride, truthyStr, hrole, hrne, hexp, hctx, hcne]
    refine ⟨_, entry, migrateProject_run projectName project config existing today agents
      hagents, by simpa using hentry, hfields.1, hfields.2.1, hfields.2.2.1, hfields.2.2.2.1,
      hfields.2.2.2.2, ?_, ?_⟩
    · intro model hm hne
      rw [hsome model hm hne]
    · intro hm
      rw [hnone hm]
      rfl
  · intro projectName name project config existing today agents c role context expertise
      hagents hno hcust hmodel hreg hrole hrne hexp hctx hcne
    have hkeys : hasKeys (agentOverride c) = true := by
      simp [hasKeys, agentOverride, emptyOverride, hexp]
    have hc : noKeys c = false := by simp [noKeys, hrole]
    have h1 : ((configCustomizations config).foldl migrateCustomization
        ⟨agents, 0⟩).agents.lookup name = none := by
      rw [customizations_lookup_absent name _ _ hcust]
      exact hno
    have h2 : ((configModelOverrides config).foldl migrateModelOverride
        ((configCustomizations config).foldl migrateCustomization
          ⟨agents, 0⟩)).agents.lookup name = none := by
      rw [modelOverrides_lookup_absent name _ _ hmodel]
      exact h1
    have h3 : (migrateAgents project config agents).agents.lookup name =
        some (agentOverride c) := by
      simp only [migrateAgents]
      exact customizations_first name c hkeys hc _ _ h2 hreg
    refine ⟨_, migrateProject_run projectName project config existing today agents hagents,
      ?_⟩
    simp only [Option.bind]
    rw [h3]
    simp [agentOverride, truthyStr, hrole, hrne, hexp, hctx, hcne]
  · intro projectName name project config existing today agents model
      hagents hno hp hcust hmodel hne
    have h1 : ((configCustomizations config).foldl migrateCustomization
        ⟨agents, 0⟩).agents.lookup name = none := by
      rw [customizations_lookup_absent name _ _ hcust]
      exact hno
    have h2 := modelOverrides_first_absent name model hne hp (configModelOverrides config)
      _ h1 hmodel
    have h3 : (migrateAgents project config agents).agents.lookup name =
        some { emptyOverride with modelOverride := some model } := by
      simp only [migrateAgents]
      rw [customizations_lookup _ _ name (by simp [alreadyMigrated, h2, hasKeys])]
      exact h2
    refine ⟨_, migrateProject_run projectName project config existing today agents hagents,
      ?_⟩
    simp only [Option.bind]
    exact h3

/-! ## Saving an overlay: no empty entry -/

theorem lookup_deleteProperty_self {α : Type} (obj : List (String × α)) (key : String) :
    (deleteProperty obj key).lookup key = none := by
  induction obj with
  | nil => rfl
  | cons kv rest ih =>
    obtain ⟨k, x⟩ := kv
    by_cases hk : k = key
    · subst hk
      simpa [deleteProperty] using ih
    · have hb : (key == k) = false := by simpa using fun e : key = k => hk e.symm
      have hrest : (List.filter (fun entry : String × α => entry.1 != key) rest).lookup key
          = none := ih
      simp [deleteProperty, hk, List.lookup, hb, hrest]

theorem lookup_deleteProperty_ne {α : Type} (obj : List (String × α)) (key name : String)
    (h : name ≠ key) : (deleteProperty obj key).lookup name = obj.lookup name := by
  induction obj with
  | nil => rfl
  | cons kv rest ih =>
    obtain ⟨k, x⟩ := kv
    have hrest : (List.filter (fun entry : String × α => entry.1 != key) rest).lookup name
        = rest.lookup name := ih
    by_cases hk : k = key
    · subst hk
      have hb : (name == k) = false := by simpa using h
      simp [deleteProperty, List.lookup, hb, hrest]
    · by_cases hn : name = k
      · subst hn
        simp [deleteProperty, hk, List.lookup]
      · have hb : (name == k) = false := by simpa using hn
        simp [deleteProperty, hk, List.lookup, hb, hrest]

/-- The override object built from a blank form has no keys. -/
theorem buildAgentOverlay_blank (form : OverlayForm) (h : formBlank form) :
    buildAgentOverlay form = emptyOverride := by
  obtain ⟨hmodel, hrole, hexp, hctx, hpre, happ⟩ := h
  have hex : ¬ ((if form.expertiseMode = "" then "none" else form.expertiseMode) = "replace" ∧
      trim form.expertise ≠ "") := by
    rintro ⟨h1, h2⟩
    rcases hexp with h | ⟨h, _⟩
    · exact h2 h
    · by_cases he : form.expertiseMode = ""
      · rw [if_pos he] at h1
        exact absurd h1 (by decide)
      · rw [if_neg he] at h1
        exact h h1
  have hea : ¬ ((if form.expertiseMode = "" then "none" else form.expertiseMode) = "append" ∧
      trim form.expertise ≠ "") := by
    rintro ⟨h1, h2⟩
    rcases hexp with h | ⟨_, h⟩
    · exact h2 h
    · by_cases he : form.expertiseMode = ""
      · rw [if_pos he] at h1
        exact absurd h1 (by decide)
      · rw [if_neg he] at h1
        exact h h1
  simp only [buildAgentOverlay, emptyOverride, nonEmpty, hmodel, hrole, hctx, hpre, happ,
    if_neg hex, if_neg hea, if_true, ne_eq, not_true_eq_false, or_self, if_false]

/-- The entry that `saveOverlay` leaves for the agent: the built override when it has keys,
and none otherwise. -/
theorem saveOverlay_entry (projectOverlay : Option OverlayDocument)
    (projectName agentName : String) (form : OverlayForm) :
    (saveOverlay projectOverlay projectName agentName form).agents.bind
        (fun agents => agents.lookup agentName) =
      if hasKeys (buildAgentOverlay form) then some (buildAgentOverlay form) else none := by
  simp only [saveOverlay, Option.bind]
  by_cases h : hasKeys (buildAgentOverlay form) = true
  · simp only [h, if_true]
    exact lookup_assignProperty_self _ _ _
  · simp only [h, if_false, Bool.false_eq_true]
    exact lookup_deleteProperty_self _ _

/-- C24: for every overlay of the dashboard (or none) and every agent, the overlay that
`saveOverlay` builds has an `agents` object; with a blank form it has no key for the agent,
whatever entry there was before; and for every form the entry stored for the agent, if any,
has at least one field, and a `templatePatches` object in it has at least one field. The
entries of the other agents are the old ones. -/
theorem saveOverlay_no_empty_entry (projectOverlay : Option OverlayDocument)
    (projectName agentName : String) (form : OverlayForm) :
    ∃ agents, (saveOverlay projectOverlay projectName agentName form).agents = some agents ∧
      (formBlank form → agents.lookup agentName = none ∧
        agentName ∉ agents.map Prod.fst) ∧
      (∀ entry, agents.lookup agentName = some entry →
        hasKeys entry = true ∧ entry ≠ emptyOverride ∧
        ∀ patches, entry.templatePatches = some patches →
          patches.prepend.isSome = true ∨ patches.append.isSome = true) ∧
      (∀ other, other ≠ agentName →
        agents.lookup other =
          ((projectOverlay.bind fun overlay => overlay.agents).getD []).lookup other) := by
  have hentry := saveOverlay_entry projectOverlay projectName agentName form
  refine ⟨_, rfl, ?_, ?_, ?_⟩
  · intro hblank
    have hnone : hasKeys (buildAgentOverlay form) = false := by
      rw [buildAgentOverlay_blank form hblank]
      rfl
    simp only [saveOverlay, hnone, Bool.false_eq_true, if_false]
    refine ⟨lookup_deleteProperty_self _ _, ?_⟩
    intro hmem
    obtain ⟨entry, he, hk⟩ := List.mem_map.mp hmem
    have hkeep := (List.mem_filter.mp he).2
    simp [hk] at hkeep
  · intro entry he
    have hbind : (saveOverlay projectOverlay projectName agentName form).agents.bind
        (fun agents => agents.lookup agentName) = some entry := he
    rw [hentry] at hbind
    by_cases h : hasKeys (buildAgentOverlay form) = true
    · rw [if_pos h] at hbind
      have heq : buildAgentOverlay form = entry := Option.some.inj hbind
      subst heq
      refine ⟨h, ?_, ?_⟩
      · intro hempty
        rw [hempty] at h
        exact absurd h (by decide)
      · intro patches hp
        simp only [buildAgentOverlay] at hp
        by_cases hpa : trim form.prepend ≠ "" ∨ trim form.append ≠ ""
        · rw [if_pos hpa] at hp
          have hpatch := Option.some.inj hp
          subst hpatch
          rcases hpa with h1 | h1
          · left; simp [nonEmpty, h1]
          · right; simp [nonEmpty, h1]
        · rw [if_neg hpa] at hp
          exact absurd hp (by simp)
    · rw [if_neg h] at hbind
      exact absurd hbind (by simp)
  · intro other hne
    have hstart : (Option.getD projectOverlay
          { version := some "1.0.0", project := some projectName, lastUpdated := none,
            agents := some [], globalOverrides := some ⟨none⟩ }).agents.getD [] =
        (projectOverlay.bind fun overlay => overlay.agents).getD [] := by
      cases projectOverlay with
      | none => rfl
      | some overlay => cases h : overlay.agents <;> simp [h]
    rw [← hstart]
    by_cases h : hasKeys (buildAgentOverlay form) = true
    · rw [if_pos h]
      exact lookup_assignProperty_ne _ _ _ _ hne
    · rw [if_neg h]
      exact lookup_deleteProperty_ne _ _ _ hne

/-- Saving a form of white space over an overlay that has an entry of 뷔 deletes the entry. -/
theorem saveOverlay_no_empty_entry_witness :
    formBlank blankForm ∧
    (roleOnlyOverlay.agents.bind fun agents => agents.lookup "뷔").isSome = true ∧
    ∃ agents, (saveOverlay (some roleOnlyOverlay) "wedding" "뷔" blankForm).agents = some agents ∧
      agents.lookup "뷔" = none := by
  have hblank : formBlank blankForm := by
    unfold formBlank
    decide
  obtain ⟨agents, hagents, hdel, -, -⟩ :=
    saveOverlay_no_empty_entry (some roleOnlyOverlay) "wedding" "뷔" blankForm
  exact ⟨hblank, by decide, agents, hagents, (hdel hblank).1⟩

/-! ## The delegation table -/

/-- The rows of listed agents that the registry has: one row per name, in the order of the
names. -/
theorem taskRows_registered (agents : List (String × AgentProfile)) (names : List String)
    (h : ∀ name ∈ names, ∃ agent, agents.lookup name = some agent) :
    taskRows agents names =
        some (names.filterMap fun name => (agents.lookup name).map (taskRow name)) ∧
      (names.filterMap fun name => (agents.lookup name).map (taskRow name)).length =
        names.length := by
  induction names with
  | nil => exact ⟨rfl, rfl⟩
  | cons a rest ih =>
    obtain ⟨agent, ha⟩ := h a (List.mem_cons_self _ _)
    obtain ⟨ih1, ih2⟩ := ih fun name hm => h name (List.mem_cons_of_mem _ hm)
    constructor
    · simp only [taskRows, getProperty_own _ _ _ ha, ih1, Option.map_some']
      simp [List.filterMap_cons, ha]
    · simp [List.filterMap_cons, ha, ih2]

/-- When the manager of the registry is the agent called 진, the agents that get a row are the
active agents that are not the manager. -/
theorem delegationTargets_eq_nonManagers (agents : List (String × AgentProfile))
    (activeAgents : List String)
    (h : ∀ name ∈ activeAgents, ∃ agent, agents.lookup name = some agent ∧
      (agent.command = "manager" ↔ name = "진")) :
    delegationTargets activeAgents = nonManagers agents activeAgents := by
  unfold delegationTargets nonManagers
  apply List.filter_congr
  intro name hm
  obtain ⟨agent, ha, hiff⟩ := h name hm
  rw [ha]
  show (name != "진") = (agent.command != "manager")
  by_cases hn : name = "진"
  · rw [hn, hiff.mpr hn]
    decide
  · have hc : agent.command ≠ "manager" := fun hc => hn (hiff.mp hc)
    have h1 : (name != "진") = true := bne_iff_ne.mpr hn
    have h2 : (agent.command != "manager") = true := bne_iff_ne.mpr hc
    rw [h1, h2]

set_option maxRecDepth 100000 in
/-- C25: for a project of the registry whose listed agents are registered, the table is the
header, the separator and one row per active agent whose name is not 진, in the order of
`activeAgents`, each row holding the name, the role, the subagent type, the recommended model
and the personality text before its first period. These are the active agents that are not the
manager exactly when the manager is the agent called 진; in a registry whose manager (command
`manager`, no footer) is called RM the table has a row for the manager. -/
theorem getAgentTaskMap_rows :
    (∀ (registry : TaskRegistry) (projectName : String) (project : Project),
      registry.projects.lookup projectName = some project →
      (∀ name ∈ delegationTargets project.activeAgents,
        ∃ agent, registry.agents.lookup name = some agent) →
      getAgentTaskMap registry projectName =
          some ("\n".intercalate (taskMapHeader :: taskMapSeparator ::
            (delegationTargets project.activeAgents).filterMap fun name =>
              (registry.agents.lookup name).map (taskRow name))) ∧
        ((delegationTargets project.activeAgents).filterMap fun name =>
            (registry.agents.lookup name).map (taskRow name)).length =
          (delegationTargets project.activeAgents).length) ∧
    (∀ (registry : TaskRegistry) (project : Project),
      (∀ name ∈ project.activeAgents, ∃ agent, registry.agents.lookup name = some agent ∧
        (agent.command = "manager" ↔ name = "진")) →
      delegationTargets project.activeAgents =
        nonManagers registry.agents project.activeAgents) ∧
    (∃ manager, renamedManagerRegistry.agents.lookup "RM" = some manager ∧
      manager.command = "manager" ∧ receivesFooter manager = false) ∧
    nonManagers renamedManagerRegistry.agents ["RM", "정국"] = ["정국"] ∧
    delegationTargets ["RM", "정국"] = ["RM", "정국"] ∧
    getAgentTaskMap renamedManagerRegistry "wedding" =
      some ("\n".intercalate
        [taskMapHeader, taskMapSeparator,
          "| **RM** | 매니저 | `general-purpose` | `opus` | 침착하다 |",
          "| **정국** | 디버거 | `debugger` | `sonnet` | 끈질기다 |"]) ∧
    getAgentTaskMap usualRegistry "wedding" =
      some ("\n".intercalate
        [taskMapHeader, taskMapSeparator,
          "| **정국** | 디버거 | `debugger` | `sonnet` | 끈질기다 |"]) := by
  refine ⟨?_, ?_, ⟨_, rfl, rfl, rfl⟩, by decide, by decide, ?_, ?_⟩
  · intro registry projectName project hproj hreg
    obtain ⟨h1, h2⟩ := taskRows_registered registry.agents
      (delegationTargets project.activeAgents) hreg
    refine ⟨?_, h2⟩
    simp only [getAgentTaskMap, getProperty_own _ _ _ hproj, h1, Option.map_some']
  · intro registry project h
    exact delegationTargets_eq_nonManagers registry.agents project.activeAgents h
  · decide
  · decide

/-! ## Regeneration after a template was saved -/

theorem regenerateStep_lists (agent : String) (run : String → Option String)
    (l : List (String × ServedProject)) :
    ∀ (acc : BatchResult),
      l.foldl (regenerateStep agent run) acc =
        { updated := acc.updated ++
            (projectsUsing l agent).filter fun p => (run p).isNone
          errors := acc.errors ++
            (projectsUsing l agent).filterMap fun p => (run p).map (RegenerationError.mk p)
          attempted := acc.attempted ++ projectsUsing l agent } := by
  induction l with
  | nil => intro acc; simp [projectsUsing]
  | cons a rest ih =>
    intro acc
    obtain ⟨name, project⟩ := a
    rw [List.foldl_cons, ih]
    by_cases hu : usesAgent project agent = true
    · cases hr : run name with
      | none =>
        simp [regenerateStep, projectsUsing, hu, hr, List.filter_cons, List.filterMap_cons]
      | some message =>
        simp [regenerateStep, projectsUsing, hu, hr, List.filter_cons, List.filterMap_cons]
    · simp [regenerateStep, projectsUsing, hu, List.filter_cons]

/-- C27: for every list of projects, template name and outcome of the single regenerations, the
generator is started exactly for the projects whose `activeAgents` holds the agent, once per
registry entry and in registry order, whatever the outcomes are; `updated` holds those whose
regeneration returned, `errors` one entry with the project and the message for each of those
whose regeneration threw, both in registry order; no project is in both lists and a project is
in one of them exactly when it uses the agent. -/
theorem regenerateProjects_report (projects : List (String × ServedProject))
    (agentName : String) (run : String → Option String) :
    (regenerateProjects projects agentName run).attempted =
        projectsUsing projects (agentKoreanName agentName) ∧
    (regenerateProjects projects agentName run).updated =
        (projectsUsing projects (agentKoreanName agentName)).filter
          (fun p => (run p).isNone) ∧
    (regenerateProjects projects agentName run).errors =
        (projectsUsing projects (agentKoreanName agentName)).filterMap
          (fun p => (run p).map (RegenerationError.mk p)) ∧
    ((regenerateProjects projects agentName run).errors.map fun e => e.project) =
        (projectsUsing projects (agentKoreanName agentName)).filter
          (fun p => (run p).isSome) ∧
    (∀ e ∈ (regenerateProjects projects agentName run).errors, run e.project = some e.error) ∧
    (∀ p ∈ (regenerateProjects projects agentName run).updated,
      p ∉ (regenerateProjects projects agentName run).errors.map fun e => e.project) ∧
    (∀ p, p ∈ projectsUsing projects (agentKoreanName agentName) ↔
      (p ∈ (regenerateProjects projects agentName run).updated ∨
        p ∈ (regenerateProjects projects agentName run).errors.map fun e => e.project)) ∧
    (regenerateProjects projects agentName run).updated.length +
        (regenerateProjects projects agentName run).errors.length =
      (projectsUsing projects (agentKoreanName agentName)).length ∧
    ((projects.map Prod.fst).Nodup →
      (regenerateProjects projects agentName run).attempted.Nodup) := by
  have hlists := regenerateStep_lists (agentKoreanName agentName) run projects
    { updated := [], errors := [], attempted := [] }
  simp only [List.nil_append] at hlists
  have hatt : (regenerateProjects projects agentName run).attempted =
      projectsUsing projects (agentKoreanName agentName) := by
    simp only [regenerateProjects, hlists]
  have hupd : (regenerateProjects projects agentName run).updated =
      (projectsUsing projects (agentKoreanName agentName)).filter
        (fun p => (run p).isNone) := by
    simp only [regenerateProjects, hlists]
  have herr : (regenerateProjects projects agentName run).errors =
      (projectsUsing projects (agentKoreanName agentName)).filterMap
        (fun p => (run p).map (RegenerationError.mk p)) := by
    simp only [regenerateProjects, hlists]
  have hnd : (projects.map Prod.fst).Nodup →
      (projectsUsing projects (agentKoreanName agentName)).Nodup := by
    intro hnodup
    exact List.Nodup.sublist (List.Sublist.map Prod.fst (List.filter_sublist _)) hnodup
  generalize projectsUsing projects (agentKoreanName agentName) = users at hatt hupd herr hnd
  have hnames : ∀ l : List String,
      (l.filterMap (fun p => (run p).map (RegenerationError.mk p))).map (fun e => e.project) =
        l.filter (fun p => (run p).isSome) := by
    intro l
    induction l with
    | nil => rfl
    | cons a rest ih =>
      cases hr : run a with
      | none => simp [List.filterMap_cons, List.filter_cons, hr, ih]
      | some message => simp [List.filterMap_cons, List.filter_cons, hr, ih]
  have hlen : ∀ l : List String,
      (l.filter (fun p => (run p).isNone)).length +
        (l.filterMap (fun p => (run p).map (RegenerationError.mk p))).length = l.length := by
    intro l
    induction l with
    | nil => rfl
    | cons a rest ih =>
      cases hr : run a with
      | none =>
        simp only [List.filter_cons, List.filterMap_cons, hr, Option.isNone_none, if_true,
          Option.map_none', List.length_cons]
        omega
      | some message =>
        simp only [List.filter_cons, List.filterMap_cons, hr, Option.isNone_some,
          Bool.false_eq_true, if_false, Option.map_some', List.length_cons]
        omega
  refine ⟨hatt, hupd, herr, ?_, ?_, ?_, ?_, ?_, ?_⟩
  · rw [herr, hnames]
  · intro e he
    rw [herr] at he
    obtain ⟨p, _, hp⟩ := List.mem_filterMap.mp he
    cases hr : run p with
    | none => rw [hr] at hp; simp at hp
    | some message =>
      rw [hr] at hp
      simp only [Option.map_some', Option.some.injEq] at hp
      subst hp
      exact hr
  · intro p hp hpe
    rw [hupd] at hp
    rw [herr, hnames] at hpe
    have h1 := (List.mem_filter.mp hp).2
    have h2 := (List.mem_filter.mp hpe).2
    cases hr : run p with
    | none => rw [hr] at h2; simp at h2
    | some message => rw [hr] at h1; simp at h1
  · intro p
    rw [hupd, herr, hnames]
    constructor
    · intro hp
      cases hr : run p with
      | none => exact Or.inl (List.mem_filter.mpr ⟨hp, by simp [hr]⟩)
      | some message => exact Or.inr (List.mem_filter.mpr ⟨hp, by simp [hr]⟩)
    · rintro (h | h)
      · exact (List.mem_filter.mp h).1
      · exact (List.mem_filter.mp h).1
  · rw [hupd, herr]
    exact hlen users
  · intro hnodup
    rw [hatt]
    exact hnd hnodup

/-- The template `정국-debug` is saved, the regeneration of `wedding` fails and that of `shop`
returns: both are attempted, and `blog` and `draft`, which do not use 정국, are not. -/
theorem regenerateProjects_example :
    regenerateProjects servedProjects "정국-debug"
        (fun p => if p = "wedding" then some "Command failed" else none) =
      { updated := ["shop"]
        errors := [⟨"wedding", "Command failed"⟩]
        attempted := ["wedding", "shop"] } := by
  decide

/-! ## Identifier checks -/

theorem hasTraversal_iff (name : String) :
    hasTraversal name = true ↔
      "..".data <:+: name.data ∨ "/".data <:+: name.data ∨ "\\".data <:+: name.data := by
  simp [hasTraversal, includes, or_assoc]

/-- The empty identifier holds none of the three substrings, and the two serverless handlers
answer it with status 400 instead of serving it. -/
theorem api_handlers_reject_empty_identifier :
    hasTraversal "" = false ∧
    (∀ rest, overlayApiHandler "GET" "" rest = ⟨400, "Invalid project name", []⟩) ∧
    (∀ rest, templateApiHandler "GET" "" rest = ⟨400, "Invalid template name", []⟩) :=
  ⟨by decide, fun _ => rfl, fun _ => rfl⟩

/-- C28 (amended): for an identifier that holds `..`, `/` or `\` the five handlers of the local
server, and the two serverless handlers for every method but `OPTIONS`, answer with status 400
and touch no file; an identifier that holds none of them passes the check of the local server's
handlers, and passes the check of the serverless handlers when it is not empty: the empty
identifier gets status 400 there. -/
theorem identifier_checks :
    (∀ (name : String) (rest : String → Reply), hasTraversal name = true →
      handleApiTemplateRead name rest = ⟨400, "Invalid agent name", []⟩ ∧
      handleApiTemplateSave name rest = ⟨400, "Invalid agent name", []⟩ ∧
      handleApiOverlayRead name rest = ⟨400, "Invalid project name", []⟩ ∧
      handleApiOverlaySave name rest = ⟨400, "Invalid project name", []⟩ ∧
      handleApiOverlayDelete name rest = ⟨400, "Invalid project name", []⟩) ∧
    (∀ (name : String) (rest : String → Reply), hasTraversal name = false →
      handleApiTemplateRead name rest = rest name ∧
      handleApiTemplateSave name rest = rest name ∧
      handleApiOverlayRead name rest = rest name ∧
      handleApiOverlaySave name rest = rest name ∧
      handleApiOverlayDelete name rest = rest name) ∧
    (∀ (method name : String) (rest : String → String → Reply), method ≠ "OPTIONS" →
      hasTraversal name = true →
      overlayApiHandler method name rest = ⟨400, "Invalid project name", []⟩ ∧
      templateApiHandler method name rest = ⟨400, "Invalid template name", []⟩) ∧
    (∀ (method name : String) (rest : String → String → Reply), method ≠ "OPTIONS" →
      hasTraversal name = false → name ≠ "" →
      overlayApiHandler method name rest = rest method name ∧
      templateApiHandler method name rest = rest method name) ∧
    (∀ (method : String) (rest : String → String → Reply), method ≠ "OPTIONS" →
      overlayApiHandler method "" rest = ⟨400, "Invalid project name", []⟩ ∧
      templateApiHandler method "" rest = ⟨400, "Invalid template name", []⟩) ∧
    (∀ name : String, hasTraversal name = true ↔
      "..".data <:+: name.data ∨ "/".data <:+: name.data ∨ "\\".data <:+: name.data) ∧
    hasTraversal "../registry" = true ∧ hasTraversal "a/b" = true ∧
    hasTraversal "a\\b" = true ∧ hasTraversal "wedding" = false ∧
    hasTraversal "정국-debug" = false ∧ hasTraversal "v1.0" = false := by
  refine ⟨?_, ?_, ?_, ?_, ?_, hasTraversal_iff, by decide, by decide, by decide, by decide,
    by decide, by decide⟩
  · intro name rest h
    simp [handleApiTemplateRead, handleApiTemplateSave, handleApiOverlayRead,
      handleApiOverlaySave, handleApiOverlayDelete, h]
  · intro name rest h
    simp [handleApiTemplateRead, handleApiTemplateSave, handleApiOverlayRead,
      handleApiOverlaySave, handleApiOverlayDelete, h]
  · intro method name rest hm h
    simp [overlayApiHandler, templateApiHandler, hm, h]
  · intro method name rest hm h hne
    simp [overlayApiHandler, templateApiHandler, hm, h, hne]
  · intro method rest hm
    simp [overlayApiHandler, templateApiHandler, hm]

/-- The identifier `../registry` is rejected by the overlay read handler before the file is
touched, and the identifier `wedding` is served. -/
theorem identifier_checks_witness :
    handleApiOverlayRead "../registry"
        (fun name => ⟨200, "", ["overlays/" ++ name ++ ".json"]⟩) =
      ⟨400, "Invalid project name", []⟩ ∧
    handleApiOverlayRead "wedding" (fun name => ⟨200, "", ["overlays/" ++ name ++ ".json"]⟩) =
      ⟨200, "", ["overlays/wedding.json"]⟩ :=
  ⟨(identifier_checks.1 "../registry" _ (by decide)).2.2.1,
    (identifier_checks.2.1 "wedding" _ (by decide)).2.2.1⟩

/-! ## The file write handler -/

theorem splitSlash_head (l : List Char) :
    ∃ piece pieces, splitSlash l = piece :: pieces ∧ piece <+: l := by
  induction l with
  | nil => exact ⟨[], [], rfl, List.prefix_refl _⟩
  | cons c rest ih =>
    obtain ⟨piece, pieces, hs, hp⟩ := ih
    by_cases hc : c = '/'
    · exact ⟨[], splitSlash rest, by simp [splitSlash, hc], List.nil_prefix⟩
    · refine ⟨c :: piece, pieces, by simp [splitSlash, hc, hs], ?_⟩
      obtain ⟨t, ht⟩ := hp
      exact ⟨t, by simp [← ht]⟩

theorem splitSlash_infix (l : List Char) : ∀ piece ∈ splitSlash l, piece <:+: l := by
  induction l with
  | nil =>
    intro piece hm
    simp only [splitSlash, List.mem_singleton] at hm
    subst hm
    exact List.infix_refl _
  | cons c rest ih =>
    intro piece hm
    obtain ⟨first, pieces, hs, hp⟩ := splitSlash_head rest
    by_cases hc : c = '/'
    · simp only [splitSlash, hc, if_true, List.mem_cons] at hm
      rcases hm with h | h
      · subst h
        exact List.nil_infix
      · exact List.IsInfix.trans (ih piece h) (List.infix_cons (List.infix_refl _))
    · simp only [splitSlash, hc, if_false, hs, List.mem_cons] at hm
      rcases hm with h | h
      · subst h
        obtain ⟨t, ht⟩ := hp
        exact List.IsPrefix.isInfix ⟨t, by simp [← ht]⟩
      · have hmem : piece ∈ splitSlash rest := by
          rw [hs]
          exact List.mem_cons_of_mem _ h
        exact List.IsInfix.trans (ih piece hmem) (List.infix_cons (List.infix_refl _))

/-- A path inside a directory named `.claude` passes the test of the handler. -/
theorem includes_of_insideClaudeDirectory (path : String)
    (h : insideClaudeDirectory path = true) : includes path ".claude" = true := by
  simp only [insideClaudeDirectory, List.contains_iff_exists_mem_beq, beq_iff_eq] at h
  obtain ⟨component, hm, hc⟩ := h
  subst hc
  have hmem : ".claude" ∈ pathComponents path := List.mem_of_mem_dropLast hm
  simp only [pathComponents, List.mem_map] at hmem
  obtain ⟨piece, hp, hpiece⟩ := hmem
  have hinf := splitSlash_infix path.data piece hp
  have hdata : piece = ".claude".data := by
    rw [← hpiece]
  unfold includes
  exact decide_eq_true (hdata ▸ hinf)

/-- C29: the handler writes exactly when the resolved path holds the text `.claude` somewhere,
and answers every other request with status 403 without writing. A path inside a directory
named `.claude` passes this test, but so does a path that merely holds the text in a file or
directory name: `notes.claude.json` and `projects.claude-old/registry.json` under the base
directory are written though no directory on their path is named `.claude`, and `wedding/.claude`
is written as a file of that name. -/
theorem handleApiWrite_substring_check :
    (∀ (base filePath : String) (write : String → Option String),
      includes (pathResolve base filePath) ".claude" = false →
      handleApiWrite base filePath write = ⟨403, ".claude 디렉토리만 쓸 수 있습니다.", []⟩) ∧
    (∀ (base filePath : String) (write : String → Option String),
      includes (pathResolve base filePath) ".claude" = true →
      write (pathResolve base filePath) = none →
      handleApiWrite base filePath write = ⟨200, "", [pathResolve base filePath]⟩) ∧
    (∀ (base filePath : String) (write : String → Option String) (message : String),
      includes (pathResolve base filePath) ".claude" = true →
      write (pathResolve base filePath) = some message →
      handleApiWrite base filePath write = ⟨500, message, []⟩) ∧
    (∀ (base filePath : String),
      insideClaudeDirectory (pathResolve base filePath) = true →
      includes (pathResolve base filePath) ".claude" = true) ∧
    (pathResolve "/home/user/work" "notes.claude.json" = "/home/user/work/notes.claude.json" ∧
      insideClaudeDirectory "/home/user/work/notes.claude.json" = false ∧
      handleApiWrite "/home/user/work" "notes.claude.json" (fun _ => none) =
        ⟨200, "", ["/home/user/work/notes.claude.json"]⟩) ∧
    (insideClaudeDirectory
        (pathResolve "/home/user/work" "projects.claude-old/registry.json") = false ∧
      handleApiWrite "/home/user/work" "projects.claude-old/registry.json" (fun _ => none) =
        ⟨200, "", ["/home/user/work/projects.claude-old/registry.json"]⟩) ∧
    (insideClaudeDirectory (pathResolve "/home/user/work" "wedding/.claude") = false ∧
      handleApiWrite "/home/user/work" "wedding/.claude" (fun _ => none) =
        ⟨200, "", ["/home/user/work/wedding/.claude"]⟩) ∧
    (insideClaudeDirectory
        (pathResolve "/home/user/work" "wedding/.claude/agent-scores.json") = true ∧
      handleApiWrite "/home/user/work" "wedding/.claude/agent-scores.json" (fun _ => none) =
        ⟨200, "", ["/home/user/work/wedding/.claude/agent-scores.json"]⟩) ∧
    handleApiWrite "/home/user/work" "../../etc/passwd" (fun _ => none) =
      ⟨403, ".claude 디렉토리만 쓸 수 있습니다.", []⟩ := by
  refine ⟨?_, ?_, ?_, ?_, ⟨by decide, by decide, by decide⟩, ⟨by decide, by decide⟩,
    ⟨by decide, by decide⟩, ⟨by decide, by decide⟩, by decide⟩
  · intro base filePath write h
    simp [handleApiWrite, h]
  · intro base filePath write h hw
    simp [handleApiWrite, h, hw]
  · intro base filePath write message h hw
    simp [handleApiWrite, h, hw]
  · intro base filePath h
    exact includes_of_insideClaudeDirectory _ h

/-! ## The violation counts on sample histories -/

/-- A penalty of the 30-day window is in the 60-day window, and no count exceeds the length
of the history. -/
theorem recentViolations_le (penalties : List PenaltyEntry) (category : String) (now : Int) :
    recentViolations penalties category now ≤ escalatedViolations penalties category now ∧
      escalatedViolations penalties category now ≤ penalties.length := by
  unfold recentViolations escalatedViolations
  induction penalties with
  | nil => exact ⟨Nat.le_refl _, Nat.le_refl _⟩
  | cons p rest ih =>
    have hwin : datedAfter p (now - 30 * msPerDay) = true →
        datedAfter p (now - 60 * msPerDay) = true := by
      simp only [datedAfter, decide_eq_true_eq, msPerDay_eq]
      intro h
      omega
    simp only [violationsWithin, List.length_cons]
    by_cases h30 : p.category = category ∧ datedAfter p (now - 30 * msPerDay) = true
    · have h60 : p.category = category ∧ datedAfter p (now - 60 * msPerDay) = true :=
        ⟨h30.1, hwin h30.2⟩
      rw [if_pos h30, if_pos h60]
      omega
    · rw [if_neg h30]
      by_cases h60 : p.category = category ∧ datedAfter p (now - 60 * msPerDay) = true
      · rw [if_pos h60]
        omega
      · rw [if_neg h60]
        omega

/-- The levels that the code assigns on sample histories at 01:00 of day 20100: level 1 for no
penalty, for penalties of another category and for a penalty 70 days old; level 2 for one
penalty of the last 30 days; level 3 for two; level 4 for three of the last 60 days of which
one is of the last 30 days. A penalty dated exactly 30 days before `now` is not counted, and is
counted one millisecond earlier. -/
theorem assignedEscalation_examples :
    assignedEscalation [] "process" (20100 * msPerDay + 3600000) = ⟨1, 1, "⚠️"⟩ ∧
    assignedEscalation [examplePenalty "quality" 20095, examplePenalty "quality" 20096]
      "process" (20100 * msPerDay + 3600000) = ⟨1, 1, "⚠️"⟩ ∧
    assignedEscalation [examplePenalty "process" 20030] "process"
      (20100 * msPerDay + 3600000) = ⟨1, 1, "⚠️"⟩ ∧
    assignedEscalation [examplePenalty "process" 20090] "process"
      (20100 * msPerDay + 3600000) = ⟨2, 2, "🔴"⟩ ∧
    assignedEscalation [examplePenalty "process" 20050, examplePenalty "process" 20090]
      "process" (20100 * msPerDay + 3600000) = ⟨2, 2, "🔴"⟩ ∧
    assignedEscalation [examplePenalty "process" 20080, examplePenalty "process" 20090]
      "process" (20100 * msPerDay + 3600000) = ⟨3, 3, "🚨"⟩ ∧
    assignedEscalation escalatedHistory "process" (20100 * msPerDay + 3600000) =
      ⟨4, 3, "🚨"⟩ ∧
    assignedEscalation escalatedHistory "quality" (20100 * msPerDay + 3600000) =
      ⟨2, 2, "🔴"⟩ ∧
    assignedEscalation [examplePenalty "process" 20070] "process" (20100 * msPerDay) =
      ⟨1, 1, "⚠️"⟩ ∧
    assignedEscalation [examplePenalty "process" 20070] "process" (20100 * msPerDay - 1) =
      ⟨2, 2, "🔴"⟩ := by
  refine ⟨by decide, by decide, by decide, by decide, by decide, by decide, by decide,
    by decide, by decide, by decide⟩

end KpopAgentHub
